import Mathlib

/-!
# Wheel-speed estimation and dual PID control (RDK_Basic_CCB_2_22_18/main.c)

A shallow embedding of the interrupt service routines of `main.c`:
`_IC2_IntHandler`, `_IC3_IntHandler`, `Timer3Handler` and `Timer5Handler`.

* `float` variables are modelled twice. In `State` and in the handlers they
  are rationals: a statement about these is a statement in exact arithmetic
  (no rounding, no overflow, no NaN). The section on binary floating point
  gives the arithmetic of the program: binary32 and binary64 data (`Flt`)
  with rounding to nearest, ties to even, signed zeros, infinities and NaN;
  the `float` statements of the handlers are given over `Flt` as well
  (`speed32`, `filter32`, `boundIntegral32`, `boundOutput32`, `pid32`),
  operation by operation. `IC2Time` and `IC3Time` are held as `Flt`.
* `int` variables are integers reduced by `wrapInt32` after each operation,
  `unsigned int` variables are naturals reduced modulo `2 ^ 32`.
* The program variables (globals and function statics) are the fields of
  `State`; a handler is a function from the state at entry, and what the
  hardware delivers during the run, to the state at exit.
-/

namespace Controls

/-! ## Machine arithmetic -/

/-- Value of a mathematical integer stored in a 32-bit two's-complement `int`. -/
def wrapInt32 (x : Int) : Int := (x + 2147483648) % 4294967296 - 2147483648

/-- Value of a natural number stored in a 32-bit `unsigned int`. -/
def wrapUInt32 (n : Nat) : Nat := n % 4294967296

/-- Value of a natural number stored in a `BYTE` (8 bits). -/
def wrapByte (n : Nat) : Nat := n % 256

/-- The conversion `(HWORD)x` to the 16-bit unsigned type `HWORD` (declared in
`stdtypes.h`) of a value held in exact arithmetic: the fraction is discarded
(truncation toward zero) and the integer is kept in 16 bits. `Flt.toHWORD` is
the conversion of a `float`. -/
def toHWORD (x : ℚ) : Nat := ((if 0 ≤ x then ⌊x⌋ else ⌈x⌉) % 65536).toNat

/-! ## Binary floating point -/

/-- A floating-point datum of IEEE 754 binary arithmetic: a NaN, an infinity
with its sign, or the finite number `(-1)^neg * m * 2^e` (a zero when `m = 0`,
with its sign). -/
inductive Flt where
  | nan
  | inf (neg : Bool)
  | fin (neg : Bool) (m : Nat) (e : Int)
deriving DecidableEq

/-- The number of binary digits of `n`, computed with `fuel` halving steps. -/
def bitLen : Nat → Nat → Nat
  | 0, _ => 0
  | fuel + 1, n => if n = 0 then 0 else bitLen fuel (n / 2) + 1

/-- The exponent of the leading binary digit of `n` (0 for `n = 0`). -/
def log2n (n : Nat) : Nat := bitLen n n - 1

/-- The integer `l` with `2^l ≤ num / den < 2^(l+1)`, for `num, den > 0`. -/
def floorLog2 (num den : Nat) : Int :=
  if log2n den ≤ log2n num then
    (if den * 2 ^ (log2n num - log2n den) ≤ num then ((log2n num - log2n den : Nat) : Int)
     else ((log2n num - log2n den : Nat) : Int) - 1)
  else
    (if den ≤ num * 2 ^ (log2n den - log2n num) then -((log2n den - log2n num : Nat) : Int)
     else -((log2n den - log2n num : Nat) : Int) - 1)

/-- The integer nearest to `N / D` (`D > 0`), the even one of the two when
`N / D` lies half-way between two integers. -/
def nearestEven (N D : Nat) : Nat :=
  if D < 2 * (N % D) ∨ (2 * (N % D) = D ∧ (N / D) % 2 = 1) then N / D + 1 else N / D

/-- The exponent of the unit in the last place for the magnitude
`num / den * 2^k` in a format with `prec` significand bits and least exponent
`emin`. -/
def ulpExp (prec : Nat) (emin : Int) (num den : Nat) (k : Int) : Int :=
  max (floorLog2 num den + k - ((prec : Int) - 1)) emin

/-- The datum with sign `neg` and rounded significand `m ≤ 2^prec` at exponent
`e`: a significand of `2^prec` is renormalised, and an exponent beyond `emax`
gives an infinity. -/
def finishRound (prec : Nat) (emax : Int) (neg : Bool) (m : Nat) (e : Int) : Flt :=
  if m = 2 ^ prec then (if emax < e + 1 then Flt.inf neg else Flt.fin neg (2 ^ (prec - 1)) (e + 1))
  else if emax < e then Flt.inf neg else Flt.fin neg m e

/-- The significand of the magnitude `num / den * 2^k` (`num, den > 0`) rounded
to nearest, ties to even, at the exponent `ulpExp` of its unit in the last
place: the integer nearest to `num / den * 2^(k - ulpExp)`. -/
def roundSig (prec : Nat) (emin : Int) (num den : Nat) (k : Int) : Nat :=
  if 0 ≤ k - ulpExp prec emin num den k then
    nearestEven (num * 2 ^ (k - ulpExp prec emin num den k).toNat) den
  else
    nearestEven num (den * 2 ^ (ulpExp prec emin num den k - k).toNat)

/-- Rounding to nearest, ties to even, of the magnitude `num / den * 2^k`
(`den > 0`) with sign `neg` into the binary format with `prec` significand
bits, least exponent `emin` of a unit in the last place (subnormal numbers)
and greatest such exponent `emax`; a rounded magnitude beyond the largest
finite number gives an infinity. -/
def roundMag (prec : Nat) (emin emax : Int) (neg : Bool) (num den : Nat) (k : Int) : Flt :=
  if num = 0 then Flt.fin neg 0 emin
  else finishRound prec emax neg (roundSig prec emin num den k) (ulpExp prec emin num den k)

/-- Rounding into binary32, the format of `float`. -/
def round32 (neg : Bool) (num den : Nat) (k : Int) : Flt := roundMag 24 (-149) 104 neg num den k

/-- Rounding into binary64, the format of `double`. -/
def round64 (neg : Bool) (num den : Nat) (k : Int) : Flt := roundMag 53 (-1074) 971 neg num den k

/-- Negation. -/
def Flt.neg : Flt → Flt
  | .nan => .nan
  | .inf a => .inf (!a)
  | .fin a m e => .fin (!a) m e

/-- The integer `(-1)^neg * m * 2^sh`, for `sh ≥ 0`. -/
def scaled (neg : Bool) (m : Nat) (sh : Int) : Int :=
  if neg then -((m * 2 ^ sh.toNat : Nat) : Int) else ((m * 2 ^ sh.toNat : Nat) : Int)

/-- Addition, the exact sum rounded by `rnd`; `zeroExp` is the exponent given
to a zero result. -/
def Flt.add (rnd : Bool → Nat → Nat → Int → Flt) (zeroExp : Int) : Flt → Flt → Flt
  | .nan, _ => .nan
  | _, .nan => .nan
  | .inf a, .inf b => if a = b then .inf a else .nan
  | .inf a, .fin _ _ _ => .inf a
  | .fin _ _ _, .inf b => .inf b
  | .fin a m e, .fin b n f =>
    if scaled a m (e - min e f) + scaled b n (f - min e f) = 0 then .fin (a && b) 0 zeroExp
    else rnd (decide (scaled a m (e - min e f) + scaled b n (f - min e f) < 0))
      (scaled a m (e - min e f) + scaled b n (f - min e f)).natAbs 1 (min e f)

/-- Multiplication, the exact product rounded by `rnd`. -/
def Flt.mul (rnd : Bool → Nat → Nat → Int → Flt) : Flt → Flt → Flt
  | .nan, _ => .nan
  | _, .nan => .nan
  | .inf a, .inf b => .inf (xor a b)
  | .inf a, .fin b n _ => if n = 0 then .nan else .inf (xor a b)
  | .fin a m _, .inf b => if m = 0 then .nan else .inf (xor a b)
  | .fin a m e, .fin b n f => rnd (xor a b) (m * n) 1 (e + f)

/-- Division, the exact quotient rounded by `rnd`; `zeroExp` is the exponent
given to a zero result. -/
def Flt.div (rnd : Bool → Nat → Nat → Int → Flt) (zeroExp : Int) : Flt → Flt → Flt
  | .nan, _ => .nan
  | _, .nan => .nan
  | .inf _, .inf _ => .nan
  | .inf a, .fin b _ _ => .inf (xor a b)
  | .fin a _ _, .inf b => .fin (xor a b) 0 zeroExp
  | .fin a m e, .fin b n f =>
    if n = 0 then (if m = 0 then .nan else .inf (xor a b))
    else rnd (xor a b) m n (e - f)

/-- The `float` sum. -/
def add32 (x y : Flt) : Flt := Flt.add round32 (-149) x y

/-- The `float` difference. -/
def sub32 (x y : Flt) : Flt := Flt.add round32 (-149) x y.neg

/-- The `float` product. -/
def mul32 (x y : Flt) : Flt := Flt.mul round32 x y

/-- The `float` quotient. -/
def div32 (x y : Flt) : Flt := Flt.div round32 (-149) x y

/-- The `double` quotient. -/
def div64 (x y : Flt) : Flt := Flt.div round64 (-1074) x y

/-- Conversion of a `double` to `float` (an assignment to a `float` variable);
a `float` is converted to `double` without change. -/
def Flt.to32 : Flt → Flt
  | .fin a m e => round32 a m 1 e
  | x => x

/-- Conversion `(float)v` of an `int`. -/
def ofInt32 (v : Int) : Flt := round32 (decide (v < 0)) v.natAbs 1 0

/-- The `double` constant written as the decimal fraction `num / den`. -/
def lit64 (num den : Nat) : Flt := round64 false num den 0

/-- The `float` initialised from the decimal constant `num / den`. -/
def lit32 (num den : Nat) : Flt := (lit64 num den).to32

/-- The comparison `x < y` of two floating-point data; false when either is a
NaN. -/
def Flt.lt : Flt → Flt → Bool
  | .nan, _ => false
  | _, .nan => false
  | .inf a, .inf b => a && !b
  | .inf a, .fin _ _ _ => a
  | .fin _ _ _, .inf b => !b
  | .fin a m e, .fin b n f => decide (scaled a m (e - min e f) < scaled b n (f - min e f))

/-- The comparison `x ≤ y` of two floating-point data; false when either is a
NaN. -/
def Flt.le : Flt → Flt → Bool
  | .nan, _ => false
  | _, .nan => false
  | x, y => !(Flt.lt y x)

/-- The rational value of a finite datum (0 for the others). -/
def Flt.toRat : Flt → ℚ
  | .fin a m e => (if a then -(m : ℚ) else (m : ℚ)) * (2 : ℚ) ^ e
  | _ => 0

/-- The conversion `(HWORD)x` of a floating-point datum to the 16-bit unsigned
type `HWORD`: the fraction is discarded; the conversion is undefined (`none`)
for a NaN, an infinity and a value whose integer part is outside
`[0, 65535]`. -/
def Flt.toHWORD : Flt → Option Nat
  | .fin a m e =>
    if a = true ∧ (if 0 ≤ e then m * 2 ^ e.toNat else m / 2 ^ (-e).toNat) ≠ 0 then none
    else if 65535 < (if 0 ≤ e then m * 2 ^ e.toNat else m / 2 ^ (-e).toNat) then none
    else some (if 0 ≤ e then m * 2 ^ e.toNat else m / 2 ^ (-e).toNat)
  | _ => none

/-- The `float` zero. -/
def Flt.zero : Flt := .fin false 0 (-149)

/-- Whether a datum is not a NaN and carries the sign `neg`. -/
def Flt.hasSign (neg : Bool) : Flt → Bool
  | .nan => false
  | .inf a => a == neg
  | .fin a _ _ => a == neg

/-- Whether a datum is a finite number. -/
def Flt.isFin : Flt → Bool
  | .fin _ _ _ => true
  | _ => false

/-! ## Constants of `main.c` -/

/-- Button state `stPressed`. -/
def stPressed : Nat := 1

/-- Button state `stReleased`. -/
def stReleased : Nat := 0

/-- Number of consecutive reads required for a button state update. -/
def cstMaxCnt : Nat := 10

/-- The static `alpha` of both capture handlers in exact arithmetic: the
decimal constant `0.1` of its initialiser. `alpha32` is the `float` that the
program holds. -/
def alpha : ℚ := 1 / 10

/-- The static `beta` of both capture handlers in exact arithmetic: the
decimal constant `0.9` of its initialiser. `beta32` is the `float` that the
program holds. -/
def beta : ℚ := 9 / 10

/-! ## Program state -/

/-- The `struct btn` of `main.c`. -/
structure btn where
  stBtn : Nat
  stCur : Nat
  stPrev : Nat
  cst : Nat

/-- Function statics of one input-capture handler. -/
structure CaptureStatics where
  time : Int
  prev_time : Int
  prev_T3_OV_Count_Local : Int

/-- Function statics of `Timer5Handler` that the handler uses. -/
structure Timer5Statics where
  prev_error : ℚ
  prev_error2 : ℚ
  index : Int

/-- Raw pin levels read by one run of `Timer5Handler`: `true` when the masked
port bit is non-zero. -/
structure Pins where
  pBtn1 : Bool
  pBtn2 : Bool
  pJE1 : Bool
  pJE2 : Bool
  pJE3 : Bool
  pJE4 : Bool
  pJA1 : Bool
  pJA2 : Bool
  pJA3 : Bool
  pJA4 : Bool

/-- The program variables of `main.c` used by the interrupt handlers, and the
four PWM compare registers. -/
structure State where
  btnBtn1 : btn
  btnBtn2 : btn
  PmodBtn1 : btn
  PmodBtn2 : btn
  PmodBtn3 : btn
  PmodBtn4 : btn
  PmodSwt1 : btn
  PmodSwt2 : btn
  PmodSwt3 : btn
  PmodSwt4 : btn
  IC2Counter : Nat
  IC3Counter : Nat
  IC3OVCounter : Nat
  IC2Time : Flt
  IC3Time : Flt
  desired_spd : ℚ
  integral_error : ℚ
  err : ℚ
  hist0 : Int → ℚ
  hist1 : Int → ℚ
  hist2 : Int → ℚ
  hist3 : Int → ℚ
  hist4 : Int → ℚ
  hist5 : Int → ℚ
  desired_spd2 : ℚ
  integral_error2 : ℚ
  err2 : ℚ
  Kp2 : ℚ
  Ki2 : ℚ
  Kd2 : ℚ
  Kp : ℚ
  Ki : ℚ
  Kd : ℚ
  IC2_speed : ℚ
  IC2_spd_avg : ℚ
  IC3_speed : ℚ
  IC3_spd_avg : ℚ
  T3_OV_Count : Nat
  delta_time2 : Int
  delta_time3 : Int
  time2 : Int
  time3 : Int
  ic2 : CaptureStatics
  ic3 : CaptureStatics
  t5 : Timer5Statics
  OC2R : Nat
  OC2RS : Nat
  OC3R : Nat
  OC3RS : Nat

/-- A zero-initialised `struct btn`. -/
def btn.zero : btn := ⟨0, 0, 0, 0⟩

/-- The state after `DeviceInit` and `AppInit`: every variable holds its
initialiser (zero when it has none) and the compare registers hold
`initSpeedLeft = initSpeedRight = 0`. -/
def boot : State where
  btnBtn1 := btn.zero
  btnBtn2 := btn.zero
  PmodBtn1 := btn.zero
  PmodBtn2 := btn.zero
  PmodBtn3 := btn.zero
  PmodBtn4 := btn.zero
  PmodSwt1 := btn.zero
  PmodSwt2 := btn.zero
  PmodSwt3 := btn.zero
  PmodSwt4 := btn.zero
  IC2Counter := 0
  IC3Counter := 0
  IC3OVCounter := 0
  IC2Time := Flt.zero
  IC3Time := Flt.zero
  desired_spd := 3 / 4
  integral_error := 0
  err := 0
  hist0 := fun _ => 0
  hist1 := fun _ => 0
  hist2 := fun _ => 0
  hist3 := fun _ => 0
  hist4 := fun _ => 0
  hist5 := fun _ => 0
  desired_spd2 := 3 / 5
  integral_error2 := 0
  err2 := 0
  Kp2 := 2500
  Ki2 := 0
  Kd2 := 0
  Kp := 2500
  Ki := 0
  Kd := 0
  IC2_speed := 0
  IC2_spd_avg := 0
  IC3_speed := 0
  IC3_spd_avg := 0
  T3_OV_Count := 0
  delta_time2 := 0
  delta_time3 := 0
  time2 := 0
  time3 := 0
  ic2 := ⟨0, 0, 0⟩
  ic3 := ⟨0, 0, 0⟩
  t5 := ⟨0, 0, 0⟩
  OC2R := 0
  OC2RS := 0
  OC3R := 0
  OC3RS := 0

/-! ## Input capture handlers -/

/-- The `while` loop of `_IC2_IntHandler`. The list holds the words read from
`IC2BUF`, oldest first, for as long as the buffer-not-empty bit is set. The loop
variables are `time`, `delta_time2` and `T3_OV_Count_Local`; `prev_time` and
`prev_T3_OV_Count_Local` are not written by the loop. -/
def drainIC2 (prev_time prev_T3_OV_Count_Local : Int) :
    Int → Int → Int → List Nat → Int × Int × Int
  | time, delta_time2, T3_OV_Count_Local, [] => (time, delta_time2, T3_OV_Count_Local)
  | _, _, T3_OV_Count_Local, buf :: rest =>
    let time : Int := ((buf % 65536 : Nat) : Int)
    let delta_time2 := wrapInt32 (time - prev_time)
    if delta_time2 ≤ 0 ∧ T3_OV_Count_Local = prev_T3_OV_Count_Local then
      drainIC2 prev_time prev_T3_OV_Count_Local time (wrapInt32 (delta_time2 + 50000))
        (wrapInt32 (T3_OV_Count_Local + 1)) rest
    else
      drainIC2 prev_time prev_T3_OV_Count_Local time delta_time2 T3_OV_Count_Local rest

/-- The `while` loop of `_IC3_IntHandler`; it also counts in `IC3OVCounter`. -/
def drainIC3 (prev_time prev_T3_OV_Count_Local : Int) :
    Int → Int → Int → Nat → List Nat → Int × Int × Int × Nat
  | time, delta_time3, T3_OV_Count_Local, IC3OVCounter, [] =>
    (time, delta_time3, T3_OV_Count_Local, IC3OVCounter)
  | _, _, T3_OV_Count_Local, IC3OVCounter, buf :: rest =>
    let time : Int := ((buf % 65536 : Nat) : Int)
    let delta_time3 := wrapInt32 (time - prev_time)
    if delta_time3 ≤ 0 ∧ T3_OV_Count_Local = prev_T3_OV_Count_Local then
      drainIC3 prev_time prev_T3_OV_Count_Local time (wrapInt32 (delta_time3 + 50000))
        (wrapInt32 (T3_OV_Count_Local + 1)) (wrapUInt32 (IC3OVCounter + 1)) rest
    else
      drainIC3 prev_time prev_T3_OV_Count_Local time delta_time3 T3_OV_Count_Local
        IC3OVCounter rest

/-- The handler `_IC2_IntHandler` (left wheel), run with the given FIFO content.
The `int` statements and `IC2Time` are as the program computes them; the speed
and its smoothing are in exact arithmetic (`speed32` and `filter32` give them
in the arithmetic of the program). -/
def _IC2_IntHandler (s : State) (fifo : List Nat) : State :=
  let T3_OV_Count_Local := wrapInt32 (s.T3_OV_Count : Int)
  let r := drainIC2 s.ic2.prev_time s.ic2.prev_T3_OV_Count_Local
    s.ic2.time s.delta_time2 T3_OV_Count_Local fifo
  let time := r.1
  let delta_time2 := r.2.1
  let T3_OV_Count_Local := r.2.2
  let IC2_speed : ℚ := if delta_time2 > 500 then 5000 / (delta_time2 : ℚ) else 2
  { s with
    delta_time2 := delta_time2
    IC2Counter := wrapUInt32 (s.IC2Counter + 1)
    IC2Time := ofInt32 (wrapInt32 (T3_OV_Count_Local * 50000 + time))
    IC2_speed := IC2_speed
    IC2_spd_avg := alpha * IC2_speed + beta * s.IC2_spd_avg
    time2 := time
    ic2 := ⟨time, time, T3_OV_Count_Local⟩ }

/-- The handler `_IC3_IntHandler` (right wheel), run with the given FIFO
content. The `int` statements and `IC3Time` are as the program computes them;
the speed and its smoothing are in exact arithmetic. -/
def _IC3_IntHandler (s : State) (fifo : List Nat) : State :=
  let T3_OV_Count_Local := wrapInt32 (s.T3_OV_Count : Int)
  let r := drainIC3 s.ic3.prev_time s.ic3.prev_T3_OV_Count_Local
    s.ic3.time s.delta_time3 T3_OV_Count_Local s.IC3OVCounter fifo
  let time := r.1
  let delta_time3 := r.2.1
  let T3_OV_Count_Local := r.2.2.1
  let IC3_speed : ℚ := if delta_time3 > 500 then 5000 / (delta_time3 : ℚ) else 2
  { s with
    delta_time3 := delta_time3
    IC3OVCounter := r.2.2.2
    IC3Counter := wrapUInt32 (s.IC3Counter + 1)
    IC3Time := ofInt32 (wrapInt32 (T3_OV_Count_Local * 50000 + time))
    IC3_speed := IC3_speed
    IC3_spd_avg := alpha * IC3_speed + beta * s.IC3_spd_avg
    time3 := time
    ic3 := ⟨time, time, T3_OV_Count_Local⟩ }

/-- The handler `Timer3Handler`: the time-base overflow event. -/
def Timer3Handler (s : State) : State :=
  { s with T3_OV_Count := wrapUInt32 (s.T3_OV_Count + 1) }

/-! ## Control tick -/

/-- The statement pair bounding an integral accumulator in `Timer5Handler`:
`if (x > 25000/Ki) x = 25000/Ki; else if (x < -25000/Ki) x = -25000/Ki;`.
For `Ki = 0` the quotients are `+∞` and `-∞`, neither comparison holds and
the accumulator is left as it is. The quotients are exact here;
`boundIntegral32` has the rounded `float` quotients of the program. -/
def boundIntegral (Ki x : ℚ) : ℚ :=
  if Ki = 0 then x
  else if x > 25000 / Ki then 25000 / Ki
  else if x < -25000 / Ki then -25000 / Ki
  else x

/-- The statement pair bounding a controller output in `Timer5Handler`:
`if (u > 9999) u = 9999; else if (u < 800) u = 800;`, for an output held in
exact arithmetic (`boundOutput32` takes a `float`, which can be a NaN). -/
def boundOutput (u : ℚ) : ℚ :=
  if u > 9999 then 9999 else if u < 800 then 800 else u

/-- The debouncing statements of `Timer5Handler` for one `struct btn`, given
the raw level read on its pin. -/
def debounce (b : btn) (pin : Bool) : btn :=
  let stCur := if pin then stPressed else stReleased
  let cst := if stCur = b.stPrev then wrapByte (b.cst + 1) else 0
  if cstMaxCnt = cst then ⟨stCur, stCur, stCur, 0⟩ else ⟨b.stBtn, stCur, stCur, cst⟩

/-- The handler `Timer5Handler`: the control tick. The controller statements
are in exact arithmetic: no rounding, no overflow to an infinity and no NaN
(`pid32` gives the controller statements of one wheel in the arithmetic of the
program). -/
def Timer5Handler (s : State) (p : Pins) : State :=
  let Ki2 := s.Kp2 / 10
  let Kd2 := s.Kp2 / 100
  let Ki := s.Kp / 10
  let Kd := s.Kp / 100
  -- right wheel
  let err := s.desired_spd - s.IC3_spd_avg
  let integral_error := boundIntegral Ki (s.integral_error + err)
  let temp_output := s.Kp * err + Ki * integral_error + Kd * (err - s.t5.prev_error)
  let index := s.t5.index
  let hist0 := Function.update s.hist0 index s.IC3_spd_avg
  let hist1 := Function.update s.hist1 index (s.Kp * err)
  let hist2 := Function.update s.hist2 index (Ki * integral_error)
  let hist3 := Function.update s.hist3 index (Kd * (err - s.t5.prev_error))
  let hist4 := Function.update s.hist4 index temp_output
  let temp_output := boundOutput temp_output
  -- left wheel
  let err2 := s.desired_spd2 - s.IC2_spd_avg
  let integral_error2 := boundIntegral Ki2 (s.integral_error2 + err2)
  let temp_output2 := s.Kp2 * err2 + Ki2 * integral_error2 + Kd2 * (err2 - s.t5.prev_error2)
  let hist5 := Function.update s.hist5 index s.IC2_spd_avg
  let temp_output2 := boundOutput temp_output2
  let index := wrapInt32 (index + 1)
  let index := if index > 499 then 0 else index
  { s with
    Ki2 := Ki2
    Kd2 := Kd2
    Ki := Ki
    Kd := Kd
    err := err
    integral_error := integral_error
    hist0 := hist0
    hist1 := hist1
    hist2 := hist2
    hist3 := hist3
    hist4 := hist4
    err2 := err2
    integral_error2 := integral_error2
    hist5 := hist5
    OC2R := toHWORD temp_output2
    OC2RS := toHWORD temp_output2
    OC3R := toHWORD temp_output
    OC3RS := toHWORD temp_output
    t5 := ⟨err, err2, index⟩
    btnBtn1 := debounce s.btnBtn1 p.pBtn1
    btnBtn2 := debounce s.btnBtn2 p.pBtn2
    PmodBtn1 := debounce s.PmodBtn1 p.pJE1
    PmodBtn2 := debounce s.PmodBtn2 p.pJE2
    PmodBtn3 := debounce s.PmodBtn3 p.pJE3
    PmodBtn4 := debounce s.PmodBtn4 p.pJE4
    PmodSwt1 := debounce s.PmodSwt1 p.pJA1
    PmodSwt2 := debounce s.PmodSwt2 p.pJA2
    PmodSwt3 := debounce s.PmodSwt3 p.pJA3
    PmodSwt4 := debounce s.PmodSwt4 p.pJA4 }

/-! ## The float statements in the arithmetic of the program -/

/-- The static `alpha` of both capture handlers as the program holds it:
`static float alpha = 0.1;`. -/
def alpha32 : Flt := lit32 1 10

/-- The static `beta` of both capture handlers as the program holds it:
`static float beta = 0.9;`. -/
def beta32 : Flt := lit32 9 10

/-- The statement `IC2_speed = 5000.0/(float)delta_time2;` guarded by
`delta_time2 > 500`, else `IC2_speed = 2.0;`, in the program's arithmetic: the
`int` is converted to `float`, the quotient is a `double` quotient and the
assignment converts it to `float`. -/
def speed32 (delta_time : Int) : Flt :=
  if delta_time > 500 then (div64 (lit64 5000 1) (ofInt32 delta_time)).to32 else lit32 2 1

/-- The statement `IC2_spd_avg = alpha*IC2_speed + beta*IC2_spd_avg;` in the
program's arithmetic: two `float` products and a `float` sum. -/
def filter32 (spd_avg speed : Flt) : Flt :=
  add32 (mul32 alpha32 speed) (mul32 beta32 spd_avg)

/-- The smoothed speed in the program's arithmetic after capture events that
pass the intervals `deltas` (oldest first) to the speed computation, from the
smoothed speed `spd_avg`. -/
def filterRun32 (spd_avg : Flt) (deltas : List Int) : Flt :=
  deltas.foldl (fun a d => filter32 a (speed32 d)) spd_avg

/-- The statement pair bounding an integral accumulator in `Timer5Handler`, in
the program's arithmetic: `25000` and `-25000` are converted to `float` and
divided by `Ki`. -/
def boundIntegral32 (Ki x : Flt) : Flt :=
  if Flt.lt (div32 (ofInt32 25000) Ki) x then div32 (ofInt32 25000) Ki
  else if Flt.lt x (div32 (ofInt32 (-25000)) Ki) then div32 (ofInt32 (-25000)) Ki
  else x

/-- The statement pair bounding a controller output in `Timer5Handler`, in the
program's arithmetic. -/
def boundOutput32 (u : Flt) : Flt :=
  if Flt.lt (ofInt32 9999) u then ofInt32 9999
  else if Flt.lt u (ofInt32 800) then ofInt32 800
  else u

/-- What the controller statements of `Timer5Handler` compute for one wheel in
the program's arithmetic: the gains, the error, the bounded integral, the
controller output before the two bounding statements, and the value written to
the wheel's compare registers. -/
structure Pid32 where
  Ki : Flt
  Kd : Flt
  err : Flt
  integral_error : Flt
  temp_output : Flt
  OCR : Option Nat

/-- The controller statements of `Timer5Handler` for one wheel in the program's
arithmetic: `Ki = Kp/10.0; Kd = Kp/100.0;` (`double` quotients converted to
`float`), `err = desired_spd - spd_avg; integral_error += err;`, the bounding
of the integral, `temp_output = Kp*err + Ki*integral_error +
Kd*(err-prev_error);`, the bounding of the output and `OCxR = OCxRS =
(HWORD)temp_output;`. -/
def pid32 (Kp desired_spd spd_avg integral_error prev_error : Flt) : Pid32 :=
  { Ki := (div64 Kp (lit64 10 1)).to32
    Kd := (div64 Kp (lit64 100 1)).to32
    err := sub32 desired_spd spd_avg
    integral_error :=
      boundIntegral32 (div64 Kp (lit64 10 1)).to32 (add32 integral_error (sub32 desired_spd spd_avg))
    temp_output :=
      add32
        (add32 (mul32 Kp (sub32 desired_spd spd_avg))
          (mul32 (div64 Kp (lit64 10 1)).to32
            (boundIntegral32 (div64 Kp (lit64 10 1)).to32
              (add32 integral_error (sub32 desired_spd spd_avg)))))
        (mul32 (div64 Kp (lit64 100 1)).to32 (sub32 (sub32 desired_spd spd_avg) prev_error))
    OCR :=
      (boundOutput32
        (add32
          (add32 (mul32 Kp (sub32 desired_spd spd_avg))
            (mul32 (div64 Kp (lit64 10 1)).to32
              (boundIntegral32 (div64 Kp (lit64 10 1)).to32
                (add32 integral_error (sub32 desired_spd spd_avg)))))
          (mul32 (div64 Kp (lit64 100 1)).to32
            (sub32 (sub32 desired_spd spd_avg) prev_error)))).toHWORD }

/-- The magnitude `num / den * 2^k` as a rational number. -/
def magnitude (num den : Nat) (k : Int) : ℚ := (num : ℚ) / (den : ℚ) * (2 : ℚ) ^ k

/-- The extended value of a datum: its rational value when finite, the top
element for `+∞` and the bottom element for `-∞` (0 for a NaN). -/
def Flt.ext : Flt → WithBot (WithTop ℚ)
  | .nan => 0
  | .inf false => ((⊤ : WithTop ℚ) : WithBot (WithTop ℚ))
  | .inf true => ⊥
  | .fin a m e => (((Flt.fin a m e).toRat : WithTop ℚ) : WithBot (WithTop ℚ))

/-- The rational `q` rounded into binary32. -/
def roundRat32 (q : ℚ) : Flt := round32 (decide (q < 0)) q.num.natAbs q.den 0

/-- Rounding into binary32 on extended values: the infinities are kept. -/
def extRound32 (x : WithBot (WithTop ℚ)) : WithBot (WithTop ℚ) :=
  match x with
  | none => ⊥
  | some none => ((⊤ : WithTop ℚ) : WithBot (WithTop ℚ))
  | some (some q) => (roundRat32 q).ext

/-! ## Events -/

/-- The interrupt events of the core, with what the hardware delivers to the
handler during its run. -/
inductive Event where
  | ic2 (fifo : List Nat)
  | ic3 (fifo : List Nat)
  | t3
  | t5 (p : Pins)

/-- Run the handler of one event to completion. -/
def step (s : State) : Event → State
  | .ic2 fifo => _IC2_IntHandler s fifo
  | .ic3 fifo => _IC3_IntHandler s fifo
  | .t3 => Timer3Handler s
  | .t5 p => Timer5Handler s p

/-- Run the handlers of a sequence of events, oldest first. -/
def run (s : State) (es : List Event) : State := es.foldl step s


/-! ## Specification-side definitions -/

/-- The interval clamp of the specification: `x` limited to `[lo, hi]`. -/
def clamp (x lo hi : ℚ) : ℚ := max lo (min hi x)

/-- Result of one controller step as the specification describes it. -/
structure PidResult where
  Ki : ℚ
  Kd : ℚ
  err : ℚ
  integ : ℚ
  u : ℚ
  duty : ℚ

/-- The controller step of the specification, section 4.4 steps 1 to 4 with
the gain refresh of section 4.6 step 1. -/
def pidSpec (Kp setpoint speed_avg integ prev_err : ℚ) : PidResult :=
  let Ki := Kp / 10
  let Kd := Kp / 100
  let err := setpoint - speed_avg
  let integ1 := clamp (integ + err) (-25000 / Ki) (25000 / Ki)
  let u := Kp * err + Ki * integ1 + Kd * (err - prev_err)
  ⟨Ki, Kd, err, integ1, u, clamp u 800 9999⟩

/-- The capture procedure of the specification, section 4.2 steps 4 to 6,
applied to one timestamp `latest`: the pair (`delta_us`, updated `prev_ov`). -/
def captureSpec (prev_capture prev_ov ov_local latest : Int) : Int × Int :=
  let raw := latest - prev_capture
  if raw ≤ 0 ∧ ov_local = prev_ov then (raw + 50000, ov_local + 1) else (raw, ov_local)

/-- All pins low. -/
def Pins.low : Pins := ⟨false, false, false, false, false, false, false, false, false, false⟩

/-- The intervals `delta_time2` passed to the speed computation by the
`_IC2_IntHandler` runs of an event sequence, oldest first. -/
def ic2Deltas : State → List Event → List Int
  | _, [] => []
  | s, .ic2 fifo :: es =>
    (_IC2_IntHandler s fifo).delta_time2 :: ic2Deltas (_IC2_IntHandler s fifo) es
  | s, e :: es => ic2Deltas (step s e) es

/-- The instantaneous speeds `IC2_speed` set by the `_IC2_IntHandler` runs of
an event sequence, oldest first. -/
def ic2Samples : State → List Event → List ℚ
  | _, [] => []
  | s, .ic2 fifo :: es =>
    (_IC2_IntHandler s fifo).IC2_speed :: ic2Samples (_IC2_IntHandler s fifo) es
  | s, e :: es => ic2Samples (step s e) es

/-- The instantaneous speeds `IC3_speed` set by the `_IC3_IntHandler` runs of
an event sequence, oldest first. -/
def ic3Samples : State → List Event → List ℚ
  | _, [] => []
  | s, .ic3 fifo :: es =>
    (_IC3_IntHandler s fifo).IC3_speed :: ic3Samples (_IC3_IntHandler s fifo) es
  | s, e :: es => ic3Samples (step s e) es

/-- The weighted combination of the specification: initial value `a0` with
weight `0.9 ^ n` and sample `k` (counted from 0, oldest first) with weight
`0.1 * 0.9 ^ (n - 1 - k)`, for `n` samples. -/
def convexForm (a0 : ℚ) (xs : List ℚ) : ℚ :=
  (9 / 10) ^ xs.length * a0 +
    ∑ k ∈ Finset.range xs.length, 1 / 10 * (9 / 10) ^ (xs.length - 1 - k) * xs.getD k 0

/-- Whether an event is a control tick. -/
def Event.isTick : Event → Bool
  | .t5 _ => true
  | _ => false

/-- Whether an event is an input-capture event of either wheel. -/
def Event.isCapture : Event → Bool
  | .ic2 _ => true
  | .ic3 _ => true
  | _ => false

/-- Whether an event is the time-base overflow event. -/
def Event.isOverflow : Event → Bool
  | .t3 => true
  | _ => false

/-- Number of control ticks in an event sequence. -/
def ticks (es : List Event) : Nat := es.countP Event.isTick

/-- Number of overflow events in an event sequence. -/
def overflows (es : List Event) : Nat := es.countP Event.isOverflow

/-- The value of the local `temp_output` (right wheel) of `Timer5Handler`, run
from state `s`, before the two bounding statements. -/
def temp_output_pre (s : State) : ℚ :=
  let Ki := s.Kp / 10
  let Kd := s.Kp / 100
  let err := s.desired_spd - s.IC3_spd_avg
  let integral_error := boundIntegral Ki (s.integral_error + err)
  s.Kp * err + Ki * integral_error + Kd * (err - s.t5.prev_error)

/-- The value of the local `temp_output2` (left wheel) of `Timer5Handler`, run
from state `s`, before the two bounding statements. -/
def temp_output2_pre (s : State) : ℚ :=
  let Ki2 := s.Kp2 / 10
  let Kd2 := s.Kp2 / 100
  let err2 := s.desired_spd2 - s.IC2_spd_avg
  let integral_error2 := boundIntegral Ki2 (s.integral_error2 + err2)
  s.Kp2 * err2 + Ki2 * integral_error2 + Kd2 * (err2 - s.t5.prev_error2)

/-- The content of slot `i` of the six trace arrays `hist0 .. hist5`. -/
def traceSlot (s : State) (i : Int) : ℚ × ℚ × ℚ × ℚ × ℚ × ℚ :=
  (s.hist0 i, s.hist1 i, s.hist2 i, s.hist3 i, s.hist4 i, s.hist5 i)

/-- The six values that a run of `Timer5Handler` from state `s` assigns to
`hist0[index] .. hist5[index]`. -/
def traceRecord (s : State) : ℚ × ℚ × ℚ × ℚ × ℚ × ℚ :=
  let Ki := s.Kp / 10
  let Kd := s.Kp / 100
  let err := s.desired_spd - s.IC3_spd_avg
  let integral_error := boundIntegral Ki (s.integral_error + err)
  (s.IC3_spd_avg, s.Kp * err, Ki * integral_error, Kd * (err - s.t5.prev_error),
    s.Kp * err + Ki * integral_error + Kd * (err - s.t5.prev_error), s.IC2_spd_avg)

/-- The `int` expression `T3_OV_Count_Local*50000 + time` of the capture
handlers. -/
def compositeTime (T3_OV_Count_Local time : Int) : Int :=
  wrapInt32 (T3_OV_Count_Local * 50000 + time)

/-- Closed form of a controller's output before saturation at the `n`-th control
tick (`n ≥ 1`) after boot, for set-point `sp`, gain 2500 and smoothed speed 0. -/
def stallOutput (sp : ℚ) (n : ℕ) : ℚ :=
  2500 * sp + 250 * min (sp * n) 100 + 25 * (if n = 1 then sp else 0)

/-- The state reached from boot after `n` control ticks when no capture event
has run: gains and set-points as at boot, smoothed speeds 0, integrals
`min (sp * n) 100`, previous errors equal to the set-points once a tick has run,
and compare registers holding the saturated `stallOutput` of the `n`-th tick. -/
def StallInv (n : ℕ) (s : State) : Prop :=
  s.Kp = 2500 ∧ s.Kp2 = 2500 ∧ s.desired_spd = 3 / 4 ∧ s.desired_spd2 = 3 / 5 ∧
  s.IC3_spd_avg = 0 ∧ s.IC2_spd_avg = 0 ∧
  s.integral_error = min (3 / 4 * (n : ℚ)) 100 ∧
  s.integral_error2 = min (3 / 5 * (n : ℚ)) 100 ∧
  s.t5.prev_error = (if n = 0 then 0 else 3 / 4) ∧
  s.t5.prev_error2 = (if n = 0 then 0 else 3 / 5) ∧
  (n = 0 → s.OC3R = 0 ∧ s.OC3RS = 0 ∧ s.OC2R = 0 ∧ s.OC2RS = 0) ∧
  (1 ≤ n → s.OC3R = toHWORD (boundOutput (stallOutput (3 / 4) n)) ∧
    s.OC3RS = toHWORD (boundOutput (stallOutput (3 / 4) n)) ∧
    s.OC2R = toHWORD (boundOutput (stallOutput (3 / 5) n)) ∧
    s.OC2RS = toHWORD (boundOutput (stallOutput (3 / 5) n)))

/-- The PWM duty registers and the PID state: `OC2R`, `OC2RS`, `OC3R`, `OC3RS`,
the two integrals, the two previous errors, the six gains and the trace index. -/
def controlView (s : State) :
    (Nat × Nat × Nat × Nat) × (ℚ × ℚ × ℚ × ℚ) × (ℚ × ℚ × ℚ × ℚ × ℚ × ℚ) × Int :=
  ((s.OC2R, s.OC2RS, s.OC3R, s.OC3RS),
   (s.integral_error, s.integral_error2, s.t5.prev_error, s.t5.prev_error2),
   (s.Kp, s.Ki, s.Kd, s.Kp2, s.Ki2, s.Kd2), s.t5.index)

/-- The speed estimates and the capture state: smoothed and instantaneous
speeds, capture deltas, edge counters and `T3_OV_Count`, then the remaining
capture variables (`IC3OVCounter`, composite times, `time2`, `time3`). -/
def captureView (s : State) :
    (ℚ × ℚ × ℚ × ℚ) × (Int × Int) × (Nat × Nat) × Nat × (Nat × Flt × Flt × Int × Int) :=
  ((s.IC2_spd_avg, s.IC3_spd_avg, s.IC2_speed, s.IC3_speed),
   (s.delta_time2, s.delta_time3), (s.IC2Counter, s.IC3Counter), s.T3_OV_Count,
   (s.IC3OVCounter, s.IC2Time, s.IC3Time, s.time2, s.time3))

/-- Whether an event is a left-wheel capture. -/
def Event.isIC2 : Event → Bool
  | .ic2 _ => true
  | _ => false

/-- Whether an event is a right-wheel capture. -/
def Event.isIC3 : Event → Bool
  | .ic3 _ => true
  | _ => false

/-- Number of runs of `_IC2_IntHandler` in an event sequence. -/
def ic2Events (es : List Event) : Nat := es.countP Event.isIC2

/-- Number of runs of `_IC3_IntHandler` in an event sequence. -/
def ic3Events (es : List Event) : Nat := es.countP Event.isIC3

/-- Total number of timestamps drained from the left-wheel FIFO over an event
sequence. -/
def ic2Timestamps : List Event → Nat
  | [] => 0
  | .ic2 fifo :: es => fifo.length + ic2Timestamps es
  | _ :: es => ic2Timestamps es

/-- Total number of timestamps drained from the right-wheel FIFO over an event
sequence. -/
def ic3Timestamps : List Event → Nat
  | [] => 0
  | .ic3 fifo :: es => fifo.length + ic3Timestamps es
  | _ :: es => ic3Timestamps es

/-- The constant `wheelC`: circumference of the wheel in feet. -/
def wheelC : ℚ := 71886 / 100000

/-- The main-loop statement `distanceL = (IC2Counter/160)*wheelC;` (and the same
for `distanceR`, `IC3Counter`): the quotient of the `unsigned int` counter by
160 is an integer division. -/
def distance (counter : Nat) : ℚ := ((counter / 160 : Nat) : ℚ) * wheelC

/-- The ten debounced inputs, in the order of their declaration. -/
def buttons (s : State) : List btn :=
  [s.btnBtn1, s.btnBtn2, s.PmodBtn1, s.PmodBtn2, s.PmodBtn3, s.PmodBtn4,
   s.PmodSwt1, s.PmodSwt2, s.PmodSwt3, s.PmodSwt4]

/-- The ten raw pin levels of one tick, in the order of `buttons`. -/
def Pins.levels (p : Pins) : List Bool :=
  [p.pBtn1, p.pBtn2, p.pJE1, p.pJE2, p.pJE3, p.pJE4, p.pJA1, p.pJA2, p.pJA3, p.pJA4]

/-- The raw state read from a pin level: `stPressed` or `stReleased`. -/
def rawState (pin : Bool) : Nat := if pin then stPressed else stReleased

/-- The debouncing statements applied to one `struct btn` over successive
control ticks, given the pin level read at each tick, oldest first. -/
def debounceRun (b : btn) (reads : List Bool) : btn := reads.foldl debounce b

/-- On-board button 1 high, all other pins low. -/
def Pins.btn1High : Pins :=
  ⟨true, false, false, false, false, false, false, false, false, false⟩

/-- The boot state with the right wheel's gain, set-point, smoothed speed,
integral and previous error changed. -/
def rightChanged : State :=
  { boot with Kp := 1000, desired_spd := 1, IC3_spd_avg := 2, integral_error := 5,
              t5 := ⟨7, 0, 0⟩ }

/-- The events of edge `k` (counted from 0) of a left-wheel edge train with
constant interval 5000 µs whose first edge comes 5000 µs after boot: the
capture event with the counter value at the edge; every tenth edge falls on
the counter's wrap to 0, and the overflow event runs after its capture
event. -/
def edgeEvents (k : Nat) : List Event :=
  if (k + 1) % 10 = 0 then [.ic2 [0], .t3] else [.ic2 [5000 * ((k + 1) % 10)]]

/-- The events of the first `n` edges of the edge train. -/
def edgeTrain : Nat → List Event
  | 0 => []
  | n + 1 => edgeTrain n ++ edgeEvents n

/-- The boot state with the right wheel's gain `Kp` set to `-2500`. -/
def negativeGain : State := { boot with Kp := -2500 }

/-- The boot state with the right wheel's gain `Kp` set to `0`. -/
def zeroGain : State := { boot with Kp := 0 }

/-! ## Lemmas on binary floating point -/

theorem finishRound_hasSign (prec : Nat) (emax : Int) (neg : Bool) (m : Nat) (e : Int) :
    (finishRound prec emax neg m e).hasSign neg = true := by
  unfold finishRound
  split_ifs <;> simp [Flt.hasSign]

theorem roundMag_hasSign (prec : Nat) (emin emax : Int) (neg : Bool) (num den : Nat) (k : Int) :
    (roundMag prec emin emax neg num den k).hasSign neg = true := by
  unfold roundMag
  split_ifs
  · simp [Flt.hasSign]
  · exact finishRound_hasSign _ _ _ _ _

theorem hasSign_ne_nan {b : Bool} {x : Flt} (h : x.hasSign b = true) : x ≠ Flt.nan := by
  intro hx
  rw [hx] at h
  simp [Flt.hasSign] at h

theorem to32_hasSign {b : Bool} {x : Flt} (h : x.hasSign b = true) :
    x.to32.hasSign b = true := by
  cases x with
  | nan => simp [Flt.hasSign] at h
  | inf a => exact h
  | fin a m e =>
    have ha : a = b := by simpa [Flt.hasSign] using h
    subst ha
    exact roundMag_hasSign _ _ _ _ _ _ _

theorem scaled_nonneg (m : Nat) (sh : Int) : 0 ≤ scaled false m sh := by
  unfold scaled
  simp

theorem scaled_nonpos (m : Nat) (sh : Int) : scaled true m sh ≤ 0 := by
  unfold scaled
  simp

theorem lt_of_signs {x y : Flt} (hx : x.hasSign false = true) (hy : y.hasSign true = true) :
    Flt.lt x y = false := by
  cases x with
  | nan => simp [Flt.hasSign] at hx
  | inf a =>
    have ha : a = false := by simpa [Flt.hasSign] using hx
    subst ha
    cases y with
    | nan => rfl
    | inf b => rfl
    | fin b n f => rfl
  | fin a m e =>
    have ha : a = false := by simpa [Flt.hasSign] using hx
    subst ha
    cases y with
    | nan => rfl
    | inf b =>
      have hb : b = true := by simpa [Flt.hasSign] using hy
      subst hb
      rfl
    | fin b n f =>
      have hb : b = true := by simpa [Flt.hasSign] using hy
      subst hb
      have h1 := scaled_nonneg m (e - min e f)
      have h2 := scaled_nonpos n (f - min e f)
      simp only [Flt.lt, decide_eq_false_iff_not, not_lt]
      omega

theorem le_of_not_lt {x y : Flt} (hx : x ≠ Flt.nan) (hy : y ≠ Flt.nan)
    (h : Flt.lt y x = false) : Flt.le x y = true := by
  cases x with
  | nan => exact absurd rfl hx
  | inf a =>
    cases y with
    | nan => exact absurd rfl hy
    | inf b => simp [Flt.le, h]
    | fin b n f => simp [Flt.le, h]
  | fin a m e =>
    cases y with
    | nan => exact absurd rfl hy
    | inf b => simp [Flt.le, h]
    | fin b n f => simp [Flt.le, h]

theorem scaled_cast (a : Bool) (m : Nat) (e g : Int) (h : g ≤ e) :
    ((scaled a m (e - g) : Int) : ℚ) = (Flt.fin a m e).toRat * ((2 : ℚ) ^ g)⁻¹ := by
  have h2 : ((2 : ℚ) ^ (e - g).toNat) = (2 : ℚ) ^ e * ((2 : ℚ) ^ g)⁻¹ := by
    rw [← zpow_natCast, Int.toNat_of_nonneg (by omega), zpow_sub₀ (by norm_num), div_eq_mul_inv]
  unfold scaled Flt.toRat
  cases a
  · simp only [Bool.false_eq_true, if_false]
    push_cast
    rw [h2]
    ring
  · simp only [if_true]
    push_cast
    rw [h2]
    ring

theorem lt_iff_toRat (a : Bool) (m : Nat) (e : Int) (b : Bool) (n : Nat) (f : Int) :
    Flt.lt (Flt.fin a m e) (Flt.fin b n f) = true ↔
      (Flt.fin a m e).toRat < (Flt.fin b n f).toRat := by
  have hpos : (0 : ℚ) < ((2 : ℚ) ^ (min e f))⁻¹ := by positivity
  simp only [Flt.lt, decide_eq_true_eq]
  rw [← Int.cast_lt (R := ℚ), scaled_cast a m e _ (min_le_left e f),
    scaled_cast b n f _ (min_le_right e f)]
  exact mul_lt_mul_right hpos

theorem toHWORD_of_toRat (a : Bool) (m : Nat) (e : Int)
    (h1 : 800 ≤ (Flt.fin a m e).toRat) (h2 : (Flt.fin a m e).toRat ≤ 9999) :
    ∃ v : Nat, (Flt.fin a m e).toHWORD = some v ∧ 800 ≤ v ∧ v ≤ 9999 := by
  have hpow : (0 : ℚ) < (2 : ℚ) ^ e := by positivity
  have ha : a = false := by
    cases a
    · rfl
    · exfalso
      simp only [Flt.toRat, if_true] at h1
      have : -(m : ℚ) * (2 : ℚ) ^ e ≤ 0 := by
        have : (0 : ℚ) ≤ (m : ℚ) * (2 : ℚ) ^ e := by positivity
        linarith
      linarith
  subst ha
  simp only [Flt.toRat, Bool.false_eq_true, if_false] at h1 h2
  have key : 800 ≤ (if 0 ≤ e then m * 2 ^ e.toNat else m / 2 ^ (-e).toNat) ∧
      (if 0 ≤ e then m * 2 ^ e.toNat else m / 2 ^ (-e).toNat) ≤ 9999 := by
    by_cases he : 0 ≤ e
    · rw [if_pos he]
      have hc : ((m * 2 ^ e.toNat : Nat) : ℚ) = (m : ℚ) * (2 : ℚ) ^ e := by
        push_cast
        rw [← zpow_natCast, Int.toNat_of_nonneg he]
      constructor
      · have : ((800 : Nat) : ℚ) ≤ ((m * 2 ^ e.toNat : Nat) : ℚ) := by rw [hc]; exact_mod_cast h1
        exact_mod_cast this
      · have : ((m * 2 ^ e.toNat : Nat) : ℚ) ≤ ((9999 : Nat) : ℚ) := by rw [hc]; exact_mod_cast h2
        exact_mod_cast this
    · rw [if_neg he]
      have hk : (2 : ℚ) ^ e = ((2 : ℚ) ^ (-e).toNat)⁻¹ := by
        rw [← zpow_natCast, Int.toNat_of_nonneg (by omega), zpow_neg, inv_inv]
      have hk0 : (0 : ℚ) < (2 : ℚ) ^ (-e).toNat := by positivity
      rw [hk] at h1 h2
      have h3 : (800 : ℚ) * (2 : ℚ) ^ (-e).toNat ≤ (m : ℚ) := by
        have := mul_le_mul_of_nonneg_right h1 (le_of_lt hk0)
        rwa [mul_assoc, inv_mul_cancel₀ (ne_of_gt hk0), mul_one] at this
      have h4 : (m : ℚ) ≤ (9999 : ℚ) * (2 : ℚ) ^ (-e).toNat := by
        have := mul_le_mul_of_nonneg_right h2 (le_of_lt hk0)
        rwa [mul_assoc, inv_mul_cancel₀ (ne_of_gt hk0), mul_one] at this
      have h5 : 800 * 2 ^ (-e).toNat ≤ m := by exact_mod_cast h3
      have h6 : m ≤ 2 ^ (-e).toNat * 9999 := by
        have : m ≤ 9999 * 2 ^ (-e).toNat := by exact_mod_cast h4
        rwa [mul_comm] at this
      exact ⟨(Nat.le_div_iff_mul_le (by positivity)).mpr h5, Nat.div_le_of_le_mul h6⟩
  refine ⟨(if 0 ≤ e then m * 2 ^ e.toNat else m / 2 ^ (-e).toNat), ?_, key.1, key.2⟩
  have hk2 := key.2
  simp only [Flt.toHWORD]
  rw [if_neg (by simp), if_neg (by omega)]

theorem lt_zero_hasSign {x : Flt} (h : Flt.lt Flt.zero x = true) : x.hasSign false = true := by
  cases x with
  | nan => simp [Flt.lt, Flt.zero] at h
  | inf b =>
    cases b
    · rfl
    · simp [Flt.lt, Flt.zero] at h
  | fin b n f =>
    cases b
    · rfl
    · exfalso
      have h2 := scaled_nonpos n (f - min (-149) f)
      simp only [Flt.lt, Flt.zero, decide_eq_true_eq] at h
      have h3 : scaled false 0 (-149 - min (-149) f) = 0 := by simp [scaled]
      omega

theorem div_hasSign_of_den (rnd : Bool → Nat → Nat → Int → Flt) (z : Int)
    (hr : ∀ neg num den k, (rnd neg num den k).hasSign neg = true)
    {a : Bool} {x : Flt} (hx : x.hasSign a = true) (b : Bool) (n : Nat) (f : Int) (hn : n ≠ 0) :
    (Flt.div rnd z x (Flt.fin b n f)).hasSign (xor a b) = true := by
  cases x with
  | nan => simp [Flt.hasSign] at hx
  | inf c =>
    have hc : c = a := by simpa [Flt.hasSign] using hx
    subst hc
    simp [Flt.div, Flt.hasSign]
  | fin c m e =>
    have hc : c = a := by simpa [Flt.hasSign] using hx
    subst hc
    simp only [Flt.div, if_neg hn]
    exact hr _ _ _ _

theorem div_hasSign_of_num (rnd : Bool → Nat → Nat → Int → Flt) (z : Int)
    (hr : ∀ neg num den k, (rnd neg num den k).hasSign neg = true)
    (a : Bool) (m : Nat) (e : Int) (hm : m ≠ 0) {b : Bool} {y : Flt} (hy : y.hasSign b = true) :
    (Flt.div rnd z (Flt.fin a m e) y).hasSign (xor a b) = true := by
  cases y with
  | nan => simp [Flt.hasSign] at hy
  | inf c =>
    have hc : c = b := by simpa [Flt.hasSign] using hy
    subst hc
    simp [Flt.div, Flt.hasSign]
  | fin c n f =>
    have hc : c = b := by simpa [Flt.hasSign] using hy
    subst hc
    simp only [Flt.div]
    split_ifs
    · simp [Flt.hasSign]
    · exact hr _ _ _ _

theorem round32_hasSign (neg : Bool) (num den : Nat) (k : Int) :
    (round32 neg num den k).hasSign neg = true := roundMag_hasSign _ _ _ _ _ _ _

theorem round64_hasSign (neg : Bool) (num den : Nat) (k : Int) :
    (round64 neg num den k).hasSign neg = true := roundMag_hasSign _ _ _ _ _ _ _

theorem neg_ne_nan {x : Flt} (h : x ≠ Flt.nan) : x.neg ≠ Flt.nan := by
  cases x with
  | nan => exact absurd rfl h
  | inf a => simp [Flt.neg]
  | fin a m e => simp [Flt.neg]

theorem Ki32_hasSign {Kp : Flt} (h : Flt.lt Flt.zero Kp = true) :
    ((div64 Kp (lit64 10 1)).to32).hasSign false = true := by
  have h10 : lit64 10 1 = Flt.fin false 5629499534213120 (-49) := by decide!
  have h1 := div_hasSign_of_den round64 (-1074) round64_hasSign (lt_zero_hasSign h) false
    5629499534213120 (-49) (by decide)
  rw [← h10] at h1
  exact to32_hasSign h1

theorem upperBound32_hasSign {Ki : Flt} (h : Ki.hasSign false = true) :
    (div32 (ofInt32 25000) Ki).hasSign false = true := by
  have h25 : ofInt32 25000 = Flt.fin false 12800000 (-9) := by decide!
  rw [h25]
  exact div_hasSign_of_num round32 (-149) round32_hasSign false 12800000 (-9) (by decide) h

theorem lowerBound32_hasSign {Ki : Flt} (h : Ki.hasSign false = true) :
    (div32 (ofInt32 (-25000)) Ki).hasSign true = true := by
  have h25 : ofInt32 (-25000) = Flt.fin true 12800000 (-9) := by decide!
  rw [h25]
  exact div_hasSign_of_num round32 (-149) round32_hasSign true 12800000 (-9) (by decide) h

theorem boundOutput32_range {u : Flt} (hu : u ≠ Flt.nan) :
    ∃ v : Nat, (boundOutput32 u).toHWORD = some v ∧ 800 ≤ v ∧ v ≤ 9999 := by
  have c1 : ofInt32 9999 = Flt.fin false 10238976 (-10) := by decide!
  have c2 : ofInt32 800 = Flt.fin false 13107200 (-14) := by decide!
  have v1 : (Flt.fin false 10238976 (-10)).toRat = 9999 := by norm_num [Flt.toRat]
  have v2 : (Flt.fin false 13107200 (-14)).toRat = 800 := by norm_num [Flt.toRat]
  unfold boundOutput32
  rw [c1, c2]
  split_ifs with h1 h2
  · exact ⟨9999, by decide!, by decide, by decide⟩
  · exact ⟨800, by decide!, by decide, by decide⟩
  · cases u with
    | nan => exact absurd rfl hu
    | inf a => cases a <;> simp [Flt.lt] at h1 h2
    | fin a m e =>
      rw [lt_iff_toRat, v1] at h1
      rw [lt_iff_toRat, v2] at h2
      exact toHWORD_of_toRat a m e (not_lt.mp h2) (not_lt.mp h1)

theorem boundOutput32_nan : (boundOutput32 Flt.nan).toHWORD = none := by decide!

theorem le_iff_toRat (a : Bool) (m : Nat) (e : Int) (b : Bool) (n : Nat) (f : Int) :
    Flt.le (Flt.fin a m e) (Flt.fin b n f) = true ↔
      (Flt.fin a m e).toRat ≤ (Flt.fin b n f).toRat := by
  have h := lt_iff_toRat b n f a m e
  simp only [Flt.le, Bool.not_eq_true', ← not_lt, ← h, Bool.not_eq_true]

theorem bitLen_spec : ∀ (fuel n : Nat), n ≤ fuel →
    n < 2 ^ bitLen fuel n ∧ (n ≠ 0 → 2 ^ (bitLen fuel n - 1) ≤ n) := by
  intro fuel
  induction fuel with
  | zero =>
    intro n hn
    have h0 : n = 0 := by omega
    subst h0
    simp [bitLen]
  | succ fuel ih =>
    intro n hn
    by_cases h0 : n = 0
    · subst h0
      simp [bitLen]
    · have hb : bitLen (fuel + 1) n = bitLen fuel (n / 2) + 1 := by
        simp [bitLen, h0]
      have h2 : n / 2 ≤ fuel := by omega
      obtain ⟨i1, i2⟩ := ih (n / 2) h2
      rw [hb]
      constructor
      · rw [pow_succ]
        omega
      · intro _
        rw [Nat.add_sub_cancel]
        by_cases h1 : n / 2 = 0
        · have hn1 : n = 1 := by omega
          subst hn1
          have hz : bitLen fuel 0 = 0 := by cases fuel <;> simp [bitLen]
          simp [hz]
        · have i3 := i2 h1
          have hpos : 1 ≤ bitLen fuel (n / 2) := by
            by_contra hc
            have hz : bitLen fuel (n / 2) = 0 := by omega
            rw [hz] at i1
            simp at i1
            exact h1 i1
          have e : bitLen fuel (n / 2) = (bitLen fuel (n / 2) - 1) + 1 := by omega
          rw [e, pow_succ]
          omega

theorem log2n_spec {n : Nat} (h : n ≠ 0) : 2 ^ log2n n ≤ n ∧ n < 2 ^ (log2n n + 1) := by
  obtain ⟨h1, h2⟩ := bitLen_spec n n (le_refl n)
  have hpos : 1 ≤ bitLen n n := by
    by_contra hc
    have hz : bitLen n n = 0 := by omega
    rw [hz] at h1
    simp at h1
    exact h h1
  unfold log2n
  have e : bitLen n n - 1 + 1 = bitLen n n := by omega
  rw [e]
  exact ⟨h2 h, h1⟩

theorem floorLog2_spec {num den : Nat} (hn : num ≠ 0) (hd : den ≠ 0) :
    (2 : ℚ) ^ floorLog2 num den ≤ (num : ℚ) / den ∧
    (num : ℚ) / den < (2 : ℚ) ^ (floorLog2 num den + 1) := by
  obtain ⟨a1, a2⟩ := log2n_spec hn
  obtain ⟨b1, b2⟩ := log2n_spec hd
  have hdq : (0 : ℚ) < (den : ℚ) := by exact_mod_cast Nat.pos_of_ne_zero hd
  have a1q : ((2 : ℚ) ^ log2n num) ≤ (num : ℚ) := by exact_mod_cast a1
  have a2q : (num : ℚ) < (2 : ℚ) ^ (log2n num + 1) := by exact_mod_cast a2
  have b1q : ((2 : ℚ) ^ log2n den) ≤ (den : ℚ) := by exact_mod_cast b1
  have b2q : (den : ℚ) < (2 : ℚ) ^ (log2n den + 1) := by exact_mod_cast b2
  unfold floorLog2
  split_ifs with hab h1 h2
  · -- b ≤ a, den * 2^(a-b) ≤ num
    have h1q : (den : ℚ) * (2 : ℚ) ^ (log2n num - log2n den) ≤ (num : ℚ) := by exact_mod_cast h1
    constructor
    · rw [zpow_natCast, le_div_iff₀ hdq]
      linarith
    · rw [div_lt_iff₀ hdq]
      have e : (2 : ℚ) ^ (((log2n num - log2n den : Nat) : Int) + 1)
          = (2 : ℚ) ^ (log2n num - log2n den + 1) := by
        rw [← zpow_natCast]; push_cast; rfl
      rw [e]
      have e2 : (2 : ℚ) ^ (log2n num + 1)
          = (2 : ℚ) ^ (log2n num - log2n den + 1) * (2 : ℚ) ^ log2n den := by
        rw [← pow_add]
        congr 1
        omega
      have hp : (0 : ℚ) < (2 : ℚ) ^ (log2n num - log2n den + 1) := by positivity
      calc (num : ℚ) < (2 : ℚ) ^ (log2n num + 1) := a2q
        _ = (2 : ℚ) ^ (log2n num - log2n den + 1) * (2 : ℚ) ^ log2n den := e2
        _ ≤ (2 : ℚ) ^ (log2n num - log2n den + 1) * (den : ℚ) :=
            mul_le_mul_of_nonneg_left b1q (le_of_lt hp)
  · -- b ≤ a, num < den * 2^(a-b)
    have h1q : (num : ℚ) < (den : ℚ) * (2 : ℚ) ^ (log2n num - log2n den) := by
      have : num < den * 2 ^ (log2n num - log2n den) := by omega
      exact_mod_cast this
    have e0 : ((log2n num - log2n den : Nat) : Int) - 1 + 1 = ((log2n num - log2n den : Nat) : Int) := by
      ring
    constructor
    · rw [le_div_iff₀ hdq]
      have hp : (0 : ℚ) < (2 : ℚ) ^ (((log2n num - log2n den : Nat) : Int) - 1) := by positivity
      have e2 : (2 : ℚ) ^ (((log2n num - log2n den : Nat) : Int) - 1)
            * (2 : ℚ) ^ (((log2n den : Nat) : Int) + 1)
          = (2 : ℚ) ^ log2n num := by
        rw [← zpow_add₀ (by norm_num : (2 : ℚ) ≠ 0), ← zpow_natCast]
        congr 1
        omega
      have b2z : (den : ℚ) ≤ (2 : ℚ) ^ (((log2n den : Nat) : Int) + 1) := by
        have e3 : (2 : ℚ) ^ (((log2n den : Nat) : Int) + 1) = (2 : ℚ) ^ (log2n den + 1) := by
          rw [← zpow_natCast]; push_cast; rfl
        rw [e3]
        exact le_of_lt b2q
      calc (2 : ℚ) ^ (((log2n num - log2n den : Nat) : Int) - 1) * (den : ℚ)
          ≤ (2 : ℚ) ^ (((log2n num - log2n den : Nat) : Int) - 1)
              * (2 : ℚ) ^ (((log2n den : Nat) : Int) + 1) :=
            mul_le_mul_of_nonneg_left b2z (le_of_lt hp)
        _ = (2 : ℚ) ^ log2n num := e2
        _ ≤ (num : ℚ) := a1q
    · rw [e0, zpow_natCast, div_lt_iff₀ hdq]
      linarith
  · -- a < b, den ≤ num * 2^(b-a)
    have h2q : (den : ℚ) ≤ (num : ℚ) * (2 : ℚ) ^ (log2n den - log2n num) := by exact_mod_cast h2
    have hp : (0 : ℚ) < (2 : ℚ) ^ (log2n den - log2n num) := by positivity
    constructor
    · rw [zpow_neg, zpow_natCast, le_div_iff₀ hdq, inv_mul_le_iff₀ hp]
      linarith
    · rw [div_lt_iff₀ hdq]
      have e : (2 : ℚ) ^ (-((log2n den - log2n num : Nat) : Int) + 1)
          = ((2 : ℚ) ^ (log2n den - log2n num - 1))⁻¹ := by
        rw [← zpow_natCast, ← zpow_neg]
        congr 1
        omega
      rw [e]
      have hp2 : (0 : ℚ) < (2 : ℚ) ^ (log2n den - log2n num - 1) := by positivity
      rw [inv_mul_eq_div, lt_div_iff₀ hp2]
      have e2 : (2 : ℚ) ^ (log2n den)
          = (2 : ℚ) ^ (log2n num + 1) * (2 : ℚ) ^ (log2n den - log2n num - 1) := by
        rw [← pow_add]
        congr 1
        omega
      calc (num : ℚ) * (2 : ℚ) ^ (log2n den - log2n num - 1)
          < (2 : ℚ) ^ (log2n num + 1) * (2 : ℚ) ^ (log2n den - log2n num - 1) :=
            mul_lt_mul_of_pos_right a2q hp2
        _ = (2 : ℚ) ^ (log2n den) := e2.symm
        _ ≤ (den : ℚ) := b1q
  · -- a < b, num * 2^(b-a) < den
    have h2q : (num : ℚ) * (2 : ℚ) ^ (log2n den - log2n num) < (den : ℚ) := by
      have : num * 2 ^ (log2n den - log2n num) < den := by omega
      exact_mod_cast this
    have hp : (0 : ℚ) < (2 : ℚ) ^ (log2n den - log2n num) := by positivity
    constructor
    · rw [le_div_iff₀ hdq]
      have e : (2 : ℚ) ^ (-((log2n den - log2n num : Nat) : Int) - 1)
          = ((2 : ℚ) ^ (log2n den - log2n num + 1))⁻¹ := by
        rw [← zpow_natCast, ← zpow_neg]
        congr 1
        push_cast
        ring
      rw [e]
      have hp2 : (0 : ℚ) < (2 : ℚ) ^ (log2n den - log2n num + 1) := by positivity
      rw [inv_mul_le_iff₀ hp2]
      have e2 : (2 : ℚ) ^ (log2n den + 1)
          = (2 : ℚ) ^ (log2n den - log2n num + 1) * (2 : ℚ) ^ (log2n num) := by
        rw [← pow_add]
        congr 1
        omega
      calc (den : ℚ) ≤ (2 : ℚ) ^ (log2n den + 1) := le_of_lt b2q
        _ = (2 : ℚ) ^ (log2n den - log2n num + 1) * (2 : ℚ) ^ (log2n num) := e2
        _ ≤ (2 : ℚ) ^ (log2n den - log2n num + 1) * (num : ℚ) :=
            mul_le_mul_of_nonneg_left a1q (le_of_lt hp2)
    · have e0 : -((log2n den - log2n num : Nat) : Int) - 1 + 1
          = -((log2n den - log2n num : Nat) : Int) := by ring
      rw [e0, zpow_neg, zpow_natCast, div_lt_iff₀ hdq, inv_mul_eq_div, lt_div_iff₀ hp]
      linarith

theorem nearestEven_spec (N : Nat) {D : Nat} (hD : D ≠ 0) :
    |((nearestEven N D : Nat) : ℚ) - (N : ℚ) / D| ≤ 1 / 2 ∧
    (|((nearestEven N D : Nat) : ℚ) - (N : ℚ) / D| = 1 / 2 → nearestEven N D % 2 = 0) := by
  have hDq : (0 : ℚ) < (D : ℚ) := by exact_mod_cast Nat.pos_of_ne_zero hD
  have hdm : N = D * (N / D) + N % D := (Nat.div_add_mod N D).symm
  have hlt : N % D < D := Nat.mod_lt N (Nat.pos_of_ne_zero hD)
  have hq : (N : ℚ) / D = ((N / D : Nat) : ℚ) + ((N % D : Nat) : ℚ) / D := by
    have h1 : (N : ℚ) = (D : ℚ) * ((N / D : Nat) : ℚ) + ((N % D : Nat) : ℚ) := by
      exact_mod_cast hdm
    rw [h1]
    field_simp
    ring
  have hf0 : (0 : ℚ) ≤ ((N % D : Nat) : ℚ) / D := by positivity
  have hf1 : ((N % D : Nat) : ℚ) / D < 1 := by
    rw [div_lt_one hDq]
    exact_mod_cast hlt
  unfold nearestEven
  split_ifs with hup
  · -- rounded up
    have hge : (D : ℚ) ≤ 2 * ((N % D : Nat) : ℚ) := by
      rcases hup with h | h
      · have : D ≤ 2 * (N % D) := by omega
        exact_mod_cast this
      · have : D ≤ 2 * (N % D) := by omega
        exact_mod_cast this
    have hhalf : (1 : ℚ) / 2 ≤ ((N % D : Nat) : ℚ) / D := by
      rw [le_div_iff₀ hDq]
      linarith
    have hval : ((N / D + 1 : Nat) : ℚ) - (N : ℚ) / D = 1 - ((N % D : Nat) : ℚ) / D := by
      rw [hq]
      push_cast
      ring
    have habs : |((N / D + 1 : Nat) : ℚ) - (N : ℚ) / D| = 1 - ((N % D : Nat) : ℚ) / D := by
      rw [hval]
      exact abs_of_nonneg (by linarith)
    constructor
    · rw [habs]
      linarith
    · intro htie
      rw [habs] at htie
      have hfeq : ((N % D : Nat) : ℚ) / D = 1 / 2 := by linarith
      have h2 : 2 * ((N % D : Nat) : ℚ) = (D : ℚ) := by
        rw [div_eq_iff (ne_of_gt hDq)] at hfeq
        linarith
      have h2n : 2 * (N % D) = D := by exact_mod_cast h2
      rcases hup with h | h
      · omega
      · omega
  · -- rounded down
    have hle : 2 * ((N % D : Nat) : ℚ) ≤ (D : ℚ) := by
      have : 2 * (N % D) ≤ D := by
        by_contra hc
        exact hup (Or.inl (by omega))
      exact_mod_cast this
    have hhalf : ((N % D : Nat) : ℚ) / D ≤ 1 / 2 := by
      rw [div_le_iff₀ hDq]
      linarith
    have hval : ((N / D : Nat) : ℚ) - (N : ℚ) / D = -(((N % D : Nat) : ℚ) / D) := by
      rw [hq]
      ring
    have habs : |((N / D : Nat) : ℚ) - (N : ℚ) / D| = ((N % D : Nat) : ℚ) / D := by
      rw [hval, abs_neg]
      exact abs_of_nonneg hf0
    constructor
    · rw [habs]
      exact hhalf
    · intro htie
      rw [habs] at htie
      have h2 : 2 * ((N % D : Nat) : ℚ) = (D : ℚ) := by
        rw [div_eq_iff (ne_of_gt hDq)] at htie
        linarith
      have h2n : 2 * (N % D) = D := by exact_mod_cast h2
      by_contra hodd
      exact hup (Or.inr ⟨h2n, by omega⟩)

theorem nearestEven_mono {N D N' D' : Nat} (hD : D ≠ 0) (hD' : D' ≠ 0)
    (h : (N : ℚ) / D ≤ (N' : ℚ) / D') : nearestEven N D ≤ nearestEven N' D' := by
  obtain ⟨s1, t1⟩ := nearestEven_spec N hD
  obtain ⟨s2, t2⟩ := nearestEven_spec N' hD'
  by_contra hc
  have hlt : nearestEven N' D' + 1 ≤ nearestEven N D := by omega
  have hltq : ((nearestEven N' D' : Nat) : ℚ) + 1 ≤ ((nearestEven N D : Nat) : ℚ) := by
    exact_mod_cast hlt
  have a1 := abs_le.mp s1
  have a2 := abs_le.mp s2
  have e1 : ((nearestEven N D : Nat) : ℚ) - (N : ℚ) / D = 1 / 2 := by linarith [a1.2, a2.1]
  have e2 : ((nearestEven N' D' : Nat) : ℚ) - (N' : ℚ) / D' = -(1 / 2) := by
    linarith [a1.2, a2.1]
  have p1 := t1 (by rw [e1]; norm_num)
  have p2 := t2 (by rw [e2]; norm_num)
  have e3 : ((nearestEven N D : Nat) : ℚ) = ((nearestEven N' D' : Nat) : ℚ) + 1 := by
    linarith [a1.2, a2.1]
  have e4 : nearestEven N D = nearestEven N' D' + 1 := by exact_mod_cast e3
  omega

theorem nearestEven_one (M : Nat) : nearestEven M 1 = M := by
  unfold nearestEven
  simp [Nat.mod_one]

theorem nearestEven_le {N D : Nat} (hD : D ≠ 0) (M : Nat) (h : (N : ℚ) / D ≤ (M : ℚ)) :
    nearestEven N D ≤ M := by
  have h1 := @nearestEven_mono N D M 1 hD (by decide)
    (by simpa using h)
  rwa [nearestEven_one] at h1

theorem le_nearestEven {N D : Nat} (hD : D ≠ 0) (M : Nat) (h : (M : ℚ) ≤ (N : ℚ) / D) :
    M ≤ nearestEven N D := by
  have h1 := @nearestEven_mono M 1 N D (by decide) hD
    (by simpa using h)
  rwa [nearestEven_one] at h1

theorem magnitude_pos {num den : Nat} (hn : num ≠ 0) (hd : den ≠ 0) (k : Int) :
    0 < magnitude num den k := by
  have h1 : (0 : ℚ) < (num : ℚ) := by exact_mod_cast Nat.pos_of_ne_zero hn
  have h2 : (0 : ℚ) < (den : ℚ) := by exact_mod_cast Nat.pos_of_ne_zero hd
  unfold magnitude
  positivity

theorem magnitude_log {num den : Nat} (hn : num ≠ 0) (hd : den ≠ 0) (k : Int) :
    (2 : ℚ) ^ (floorLog2 num den + k) ≤ magnitude num den k ∧
    magnitude num den k < (2 : ℚ) ^ (floorLog2 num den + k + 1) := by
  obtain ⟨h1, h2⟩ := floorLog2_spec hn hd
  have hk : (0 : ℚ) < (2 : ℚ) ^ k := by positivity
  unfold magnitude
  constructor
  · rw [zpow_add₀ (by norm_num : (2 : ℚ) ≠ 0)]
    exact mul_le_mul_of_nonneg_right h1 (le_of_lt hk)
  · have e : floorLog2 num den + k + 1 = (floorLog2 num den + 1) + k := by ring
    rw [e, zpow_add₀ (by norm_num : (2 : ℚ) ≠ 0)]
    exact mul_lt_mul_of_pos_right h2 hk

theorem ulpExp_mono (prec : Nat) (emin : Int) {num den num' den' : Nat} {k k' : Int}
    (hn : num ≠ 0) (hd : den ≠ 0) (hn' : num' ≠ 0) (hd' : den' ≠ 0)
    (h : magnitude num den k ≤ magnitude num' den' k') :
    ulpExp prec emin num den k ≤ ulpExp prec emin num' den' k' := by
  obtain ⟨a1, _⟩ := magnitude_log hn hd k
  obtain ⟨_, b2⟩ := magnitude_log hn' hd' k'
  have hlt : (2 : ℚ) ^ (floorLog2 num den + k) < (2 : ℚ) ^ (floorLog2 num' den' + k' + 1) :=
    lt_of_le_of_lt (le_trans a1 h) b2
  have hexp : floorLog2 num den + k < floorLog2 num' den' + k' + 1 :=
    (zpow_lt_zpow_iff_right₀ (by norm_num : (1 : ℚ) < 2)).mp hlt
  unfold ulpExp
  exact max_le_max (by omega) (le_refl emin)

theorem roundSig_ratio (prec : Nat) (emin : Int) (num : Nat) {den : Nat} (hd : den ≠ 0)
    (k : Int) :
    ∃ N D : Nat, D ≠ 0 ∧ roundSig prec emin num den k = nearestEven N D ∧
      (N : ℚ) / D = magnitude num den k / (2 : ℚ) ^ ulpExp prec emin num den k := by
  have hdq : (den : ℚ) ≠ 0 := by exact_mod_cast hd
  unfold roundSig
  split_ifs with hs
  · refine ⟨_, den, hd, rfl, ?_⟩
    have e : ((2 : ℚ) ^ (k - ulpExp prec emin num den k).toNat)
        = (2 : ℚ) ^ k / (2 : ℚ) ^ ulpExp prec emin num den k := by
      rw [← zpow_natCast, Int.toNat_of_nonneg hs, zpow_sub₀ (by norm_num)]
    unfold magnitude
    push_cast
    rw [e]
    field_simp
    left
    ring
  · refine ⟨num, _, ?_, rfl, ?_⟩
    · exact Nat.mul_ne_zero hd (by positivity)
    · have e : ((2 : ℚ) ^ (ulpExp prec emin num den k - k).toNat)
          = (2 : ℚ) ^ ulpExp prec emin num den k / (2 : ℚ) ^ k := by
        rw [← zpow_natCast, Int.toNat_of_nonneg (by omega), zpow_sub₀ (by norm_num)]
      unfold magnitude
      push_cast
      rw [e]
      field_simp

theorem ulpExp_ge (prec : Nat) (emin : Int) (num den : Nat) (k : Int) :
    emin ≤ ulpExp prec emin num den k ∧
    floorLog2 num den + k - ((prec : Int) - 1) ≤ ulpExp prec emin num den k := by
  unfold ulpExp
  exact ⟨le_max_right _ _, le_max_left _ _⟩

theorem ulpExp_eq_of_gt (prec : Nat) (emin : Int) (num den : Nat) (k : Int)
    (h : emin < ulpExp prec emin num den k) :
    ulpExp prec emin num den k = floorLog2 num den + k - ((prec : Int) - 1) := by
  unfold ulpExp at *
  rcases max_cases (floorLog2 num den + k - ((prec : Int) - 1)) emin with ⟨h1, _⟩ | ⟨h1, _⟩
  · exact h1
  · rw [h1] at h
    exact absurd h (lt_irrefl _)

theorem roundSig_le (prec : Nat) (emin : Int) {num den : Nat} (hn : num ≠ 0) (hd : den ≠ 0)
    (k : Int) : roundSig prec emin num den k ≤ 2 ^ prec := by
  obtain ⟨N, D, hD, hr, hq⟩ := roundSig_ratio prec emin num hd k
  obtain ⟨_, b2⟩ := magnitude_log hn hd k
  obtain ⟨_, g2⟩ := ulpExp_ge prec emin num den k
  have hpe : (0 : ℚ) < (2 : ℚ) ^ ulpExp prec emin num den k := by positivity
  rw [hr]
  apply nearestEven_le hD
  rw [hq, div_le_iff₀ hpe]
  push_cast
  have e : (2 : ℚ) ^ prec * (2 : ℚ) ^ ulpExp prec emin num den k
      = (2 : ℚ) ^ ((prec : Int) + ulpExp prec emin num den k) := by
    rw [zpow_add₀ (by norm_num : (2 : ℚ) ≠ 0), zpow_natCast]
  rw [e]
  have hexp : floorLog2 num den + k + 1 ≤ (prec : Int) + ulpExp prec emin num den k := by omega
  exact le_trans (le_of_lt b2) (zpow_le_zpow_right₀ (by norm_num) hexp)

theorem roundSig_ge (prec : Nat) (hp : 1 ≤ prec) (emin : Int) {num den : Nat} (hn : num ≠ 0)
    (hd : den ≠ 0) (k : Int) (h : emin < ulpExp prec emin num den k) :
    2 ^ (prec - 1) ≤ roundSig prec emin num den k := by
  obtain ⟨N, D, hD, hr, hq⟩ := roundSig_ratio prec emin num hd k
  obtain ⟨b1, _⟩ := magnitude_log hn hd k
  have he := ulpExp_eq_of_gt prec emin num den k h
  have hpe : (0 : ℚ) < (2 : ℚ) ^ ulpExp prec emin num den k := by positivity
  rw [hr]
  apply le_nearestEven hD
  rw [hq, le_div_iff₀ hpe]
  push_cast
  have e : (2 : ℚ) ^ (prec - 1) * (2 : ℚ) ^ ulpExp prec emin num den k
      = (2 : ℚ) ^ (floorLog2 num den + k) := by
    rw [← zpow_natCast, ← zpow_add₀ (by norm_num : (2 : ℚ) ≠ 0)]
    congr 1
    rw [he]
    omega
  rw [e]
  exact b1

theorem roundVal_mono (prec : Nat) (hp : 1 ≤ prec) (emin : Int) {num den num' den' : Nat}
    {k k' : Int} (hn : num ≠ 0) (hd : den ≠ 0) (hn' : num' ≠ 0) (hd' : den' ≠ 0)
    (h : magnitude num den k ≤ magnitude num' den' k') :
    ((roundSig prec emin num den k : Nat) : ℚ) * (2 : ℚ) ^ ulpExp prec emin num den k
      ≤ ((roundSig prec emin num' den' k' : Nat) : ℚ)
          * (2 : ℚ) ^ ulpExp prec emin num' den' k' := by
  have hle := ulpExp_mono prec emin hn hd hn' hd' h
  have hpe : (0 : ℚ) < (2 : ℚ) ^ ulpExp prec emin num den k := by positivity
  have hpe' : (0 : ℚ) < (2 : ℚ) ^ ulpExp prec emin num' den' k' := by positivity
  rcases eq_or_lt_of_le hle with heq | hlt
  · obtain ⟨N, D, hD, hr, hq⟩ := roundSig_ratio prec emin num hd k
    obtain ⟨N', D', hD', hr', hq'⟩ := roundSig_ratio prec emin num' hd' k'
    have hm : nearestEven N D ≤ nearestEven N' D' := by
      apply nearestEven_mono hD hD'
      rw [hq, hq', ← heq]
      exact div_le_div_of_nonneg_right h (le_of_lt hpe)
    rw [hr, hr', ← heq]
    exact mul_le_mul_of_nonneg_right (by exact_mod_cast hm) (le_of_lt hpe)
  · have h1 := roundSig_le prec emin hn hd k
    have h2 := roundSig_ge prec hp emin hn' hd' k'
      (lt_of_le_of_lt (ulpExp_ge prec emin num den k).1 hlt)
    have h1q : ((roundSig prec emin num den k : Nat) : ℚ) ≤ (2 : ℚ) ^ prec := by
      exact_mod_cast h1
    have h2q : (2 : ℚ) ^ (prec - 1) ≤ ((roundSig prec emin num' den' k' : Nat) : ℚ) := by
      exact_mod_cast h2
    have e : (2 : ℚ) ^ prec * (2 : ℚ) ^ ulpExp prec emin num den k
        = (2 : ℚ) ^ (prec - 1) * (2 : ℚ) ^ (ulpExp prec emin num den k + 1) := by
      rw [← zpow_natCast, ← zpow_natCast, ← zpow_add₀ (by norm_num : (2 : ℚ) ≠ 0),
        ← zpow_add₀ (by norm_num : (2 : ℚ) ≠ 0)]
      congr 1
      omega
    have hp1 : (0 : ℚ) < (2 : ℚ) ^ (prec - 1) := by positivity
    calc ((roundSig prec emin num den k : Nat) : ℚ) * (2 : ℚ) ^ ulpExp prec emin num den k
        ≤ (2 : ℚ) ^ prec * (2 : ℚ) ^ ulpExp prec emin num den k :=
          mul_le_mul_of_nonneg_right h1q (le_of_lt hpe)
      _ = (2 : ℚ) ^ (prec - 1) * (2 : ℚ) ^ (ulpExp prec emin num den k + 1) := e
      _ ≤ (2 : ℚ) ^ (prec - 1) * (2 : ℚ) ^ ulpExp prec emin num' den' k' :=
          mul_le_mul_of_nonneg_left (zpow_le_zpow_right₀ (by norm_num) (by omega))
            (le_of_lt hp1)
      _ ≤ ((roundSig prec emin num' den' k' : Nat) : ℚ)
            * (2 : ℚ) ^ ulpExp prec emin num' den' k' :=
          mul_le_mul_of_nonneg_right h2q (le_of_lt hpe')

theorem finishRound_cases (prec : Nat) (hp : 1 ≤ prec) (emax : Int) (neg : Bool) (m : Nat)
    (e : Int) (hm : m ≤ 2 ^ prec) (hge : emax < e → 2 ^ (prec - 1) ≤ m) :
    (finishRound prec emax neg m e = Flt.inf neg ∧
      (2 : ℚ) ^ prec * (2 : ℚ) ^ emax ≤ (m : ℚ) * (2 : ℚ) ^ e) ∨
    (∃ m1 e1, finishRound prec emax neg m e = Flt.fin neg m1 e1 ∧
      (m1 : ℚ) * (2 : ℚ) ^ e1 = (m : ℚ) * (2 : ℚ) ^ e ∧
      (m : ℚ) * (2 : ℚ) ^ e < (2 : ℚ) ^ prec * (2 : ℚ) ^ emax) := by
  have hpp : (0 : ℚ) < (2 : ℚ) ^ prec := by positivity
  have hpe : (0 : ℚ) < (2 : ℚ) ^ e := by positivity
  unfold finishRound
  split_ifs with h1 h2 h3
  · left
    refine ⟨rfl, ?_⟩
    rw [h1]
    push_cast
    exact mul_le_mul_of_nonneg_left (zpow_le_zpow_right₀ (by norm_num) (by omega))
      (le_of_lt hpp)
  · right
    refine ⟨_, _, rfl, ?_, ?_⟩
    · rw [h1]
      push_cast
      rw [← zpow_natCast, ← zpow_natCast, ← zpow_add₀ (by norm_num : (2 : ℚ) ≠ 0),
        ← zpow_add₀ (by norm_num : (2 : ℚ) ≠ 0)]
      congr 1
      omega
    · rw [h1]
      push_cast
      exact mul_lt_mul_of_pos_left (zpow_lt_zpow_right₀ (by norm_num) (by omega)) hpp
  · left
    refine ⟨rfl, ?_⟩
    have h4 : (2 : ℚ) ^ (prec - 1) ≤ (m : ℚ) := by exact_mod_cast hge h3
    have e2 : (2 : ℚ) ^ prec * (2 : ℚ) ^ emax
        = (2 : ℚ) ^ (prec - 1) * (2 : ℚ) ^ (emax + 1) := by
      rw [← zpow_natCast, ← zpow_natCast, ← zpow_add₀ (by norm_num : (2 : ℚ) ≠ 0),
        ← zpow_add₀ (by norm_num : (2 : ℚ) ≠ 0)]
      congr 1
      omega
    have hp1 : (0 : ℚ) < (2 : ℚ) ^ (prec - 1) := by positivity
    calc (2 : ℚ) ^ prec * (2 : ℚ) ^ emax
        = (2 : ℚ) ^ (prec - 1) * (2 : ℚ) ^ (emax + 1) := e2
      _ ≤ (2 : ℚ) ^ (prec - 1) * (2 : ℚ) ^ e :=
          mul_le_mul_of_nonneg_left (zpow_le_zpow_right₀ (by norm_num) (by omega))
            (le_of_lt hp1)
      _ ≤ (m : ℚ) * (2 : ℚ) ^ e := mul_le_mul_of_nonneg_right h4 (le_of_lt hpe)
  · right
    refine ⟨_, _, rfl, rfl, ?_⟩
    have h4 : (m : ℚ) < (2 : ℚ) ^ prec := by
      have : m < 2 ^ prec := lt_of_le_of_ne hm h1
      exact_mod_cast this
    calc (m : ℚ) * (2 : ℚ) ^ e < (2 : ℚ) ^ prec * (2 : ℚ) ^ e :=
          mul_lt_mul_of_pos_right h4 hpe
      _ ≤ (2 : ℚ) ^ prec * (2 : ℚ) ^ emax :=
          mul_le_mul_of_nonneg_left (zpow_le_zpow_right₀ (by norm_num) (by omega))
            (le_of_lt hpp)

theorem finishRound_le (prec : Nat) (hp : 1 ≤ prec) (emax : Int) (m m' : Nat) (e e' : Int)
    (hm : m ≤ 2 ^ prec) (hge : emax < e → 2 ^ (prec - 1) ≤ m)
    (hm' : m' ≤ 2 ^ prec) (hge' : emax < e' → 2 ^ (prec - 1) ≤ m')
    (h : (m : ℚ) * (2 : ℚ) ^ e ≤ (m' : ℚ) * (2 : ℚ) ^ e') :
    Flt.le (finishRound prec emax false m e) (finishRound prec emax false m' e') = true ∧
    Flt.le (finishRound prec emax true m' e') (finishRound prec emax true m e) = true := by
  have c1 := finishRound_cases prec hp emax false m e hm hge
  have c2 := finishRound_cases prec hp emax false m' e' hm' hge'
  have d1 := finishRound_cases prec hp emax true m e hm hge
  have d2 := finishRound_cases prec hp emax true m' e' hm' hge'
  rcases c1 with ⟨r1, v1⟩ | ⟨m1, e1, r1, v1, w1⟩
  · rcases c2 with ⟨r2, v2⟩ | ⟨m2, e2, r2, v2, w2⟩
    · rcases d1 with ⟨s1, _⟩ | ⟨_, _, _, _, w⟩
      · rcases d2 with ⟨s2, _⟩ | ⟨_, _, _, _, w'⟩
        · rw [r1, r2, s1, s2]
          exact ⟨rfl, rfl⟩
        · exact absurd w' (not_lt.mpr v2)
      · exact absurd w (not_lt.mpr v1)
    · exact absurd (lt_of_le_of_lt h w2) (not_lt.mpr v1)
  · rcases c2 with ⟨r2, v2⟩ | ⟨m2, e2, r2, v2, w2⟩
    · rcases d1 with ⟨_, v⟩ | ⟨n1, f1, s1, _, _⟩
      · exact absurd w1 (not_lt.mpr v)
      · rcases d2 with ⟨s2, _⟩ | ⟨_, _, _, _, w'⟩
        · rw [r1, r2, s1, s2]
          exact ⟨rfl, rfl⟩
        · exact absurd w' (not_lt.mpr v2)
    · rcases d1 with ⟨_, v⟩ | ⟨n1, f1, s1, u1, _⟩
      · exact absurd w1 (not_lt.mpr v)
      · rcases d2 with ⟨_, v⟩ | ⟨n2, f2, s2, u2, _⟩
        · exact absurd w2 (not_lt.mpr v)
        · rw [r1, r2, s1, s2, le_iff_toRat, le_iff_toRat]
          simp only [Flt.toRat, Bool.false_eq_true, if_false, if_true]
          constructor
          · rw [v1, v2]
            exact h
          · rw [neg_mul, neg_mul, u1, u2]
            linarith

theorem magnitude_zero_iff {num den : Nat} (hd : den ≠ 0) (k : Int) :
    magnitude num den k = 0 ↔ num = 0 := by
  have hdq : (den : ℚ) ≠ 0 := by exact_mod_cast hd
  have hk : (2 : ℚ) ^ k ≠ 0 := by positivity
  unfold magnitude
  constructor
  · intro h
    rcases mul_eq_zero.mp h with h1 | h1
    · rcases div_eq_zero_iff.mp h1 with h2 | h2
      · exact_mod_cast h2
      · exact absurd h2 hdq
    · exact absurd h1 hk
  · intro h
    rw [h]
    simp

theorem roundMag_mono (prec : Nat) (hp : 1 ≤ prec) (emin emax : Int) (he : emin ≤ emax)
    {num den num' den' : Nat} {k k' : Int} (hd : den ≠ 0) (hd' : den' ≠ 0)
    (h : magnitude num den k ≤ magnitude num' den' k') :
    Flt.le (roundMag prec emin emax false num den k)
      (roundMag prec emin emax false num' den' k') = true ∧
    Flt.le (roundMag prec emin emax true num' den' k')
      (roundMag prec emin emax true num den k) = true := by
  by_cases hn : num = 0
  · have r1 : ∀ b, roundMag prec emin emax b num den k = Flt.fin b 0 emin := by
      intro b
      unfold roundMag
      rw [if_pos hn]
    have s2 := roundMag_hasSign prec emin emax false num' den' k'
    have t2 := roundMag_hasSign prec emin emax true num' den' k'
    rw [r1 false, r1 true]
    constructor
    · apply le_of_not_lt (by simp) (hasSign_ne_nan s2)
      cases hr : roundMag prec emin emax false num' den' k' with
      | nan => rfl
      | inf b =>
        rw [hr] at s2
        have hb : b = false := by simpa [Flt.hasSign] using s2
        subst hb
        rfl
      | fin b n f =>
        rw [hr] at s2
        have hb : b = false := by simpa [Flt.hasSign] using s2
        subst hb
        rw [Bool.eq_false_iff, Ne, lt_iff_toRat]
        simp only [Flt.toRat, Bool.false_eq_true, if_false]
        have : (0 : ℚ) ≤ (n : ℚ) * (2 : ℚ) ^ f := by positivity
        simp
        exact this
    · apply le_of_not_lt (hasSign_ne_nan t2) (by simp)
      cases hr : roundMag prec emin emax true num' den' k' with
      | nan => rfl
      | inf b =>
        rw [hr] at t2
        have hb : b = true := by simpa [Flt.hasSign] using t2
        subst hb
        rfl
      | fin b n f =>
        rw [hr] at t2
        have hb : b = true := by simpa [Flt.hasSign] using t2
        subst hb
        rw [Bool.eq_false_iff, Ne, lt_iff_toRat]
        simp only [Flt.toRat, Bool.false_eq_true, if_false, if_true]
        have : (0 : ℚ) ≤ (n : ℚ) * (2 : ℚ) ^ f := by positivity
        simp
        linarith
  · have hn' : num' ≠ 0 := by
      intro h0
      have hz : magnitude num' den' k' = 0 := (magnitude_zero_iff hd' k').mpr h0
      have hpos := magnitude_pos hn hd k
      rw [hz] at h
      exact absurd hpos (not_lt.mpr h)
    have r1 : ∀ b, roundMag prec emin emax b num den k
        = finishRound prec emax b (roundSig prec emin num den k)
            (ulpExp prec emin num den k) := by
      intro b
      unfold roundMag
      rw [if_neg hn]
    have r2 : ∀ b, roundMag prec emin emax b num' den' k'
        = finishRound prec emax b (roundSig prec emin num' den' k')
            (ulpExp prec emin num' den' k') := by
      intro b
      unfold roundMag
      rw [if_neg hn']
    rw [r1 false, r1 true, r2 false, r2 true]
    exact finishRound_le prec hp emax _ _ _ _ (roundSig_le prec emin hn hd k)
      (fun hlt => roundSig_ge prec hp emin hn hd k (lt_of_le_of_lt he hlt))
      (roundSig_le prec emin hn' hd' k')
      (fun hlt => roundSig_ge prec hp emin hn' hd' k' (lt_of_le_of_lt he hlt))
      (roundVal_mono prec hp emin hn hd hn' hd' h)

theorem ext_fin (a : Bool) (m : Nat) (e : Int) :
    (Flt.fin a m e).ext = (((Flt.fin a m e).toRat : WithTop ℚ) : WithBot (WithTop ℚ)) := rfl

theorem le_iff_ext {x y : Flt} (hx : x ≠ Flt.nan) (hy : y ≠ Flt.nan) :
    Flt.le x y = true ↔ x.ext ≤ y.ext := by
  cases x with
  | nan => exact absurd rfl hx
  | inf a =>
    cases y with
    | nan => exact absurd rfl hy
    | inf b => cases a <;> cases b <;> simp [Flt.le, Flt.lt, Flt.ext]
    | fin b n f => cases a <;> simp [Flt.le, Flt.lt, Flt.ext]
  | fin a m e =>
    cases y with
    | nan => exact absurd rfl hy
    | inf b => cases b <;> simp [Flt.le, Flt.lt, Flt.ext]
    | fin b n f =>
      rw [le_iff_toRat, ext_fin, ext_fin, WithBot.coe_le_coe, WithTop.coe_le_coe]

theorem lt_iff_ext {x y : Flt} (hx : x ≠ Flt.nan) (hy : y ≠ Flt.nan) :
    Flt.lt x y = true ↔ x.ext < y.ext := by
  cases x with
  | nan => exact absurd rfl hx
  | inf a =>
    cases y with
    | nan => exact absurd rfl hy
    | inf b => cases a <;> cases b <;> simp [Flt.lt, Flt.ext]
    | fin b n f => cases a <;> simp [Flt.lt, Flt.ext]
  | fin a m e =>
    cases y with
    | nan => exact absurd rfl hy
    | inf b =>
      cases b
      · simp only [Flt.lt, Flt.ext, Bool.not_false, true_iff]
        exact WithBot.coe_lt_coe.mpr (WithTop.coe_lt_top _)
      · simp [Flt.lt, Flt.ext]
    | fin b n f =>
      rw [lt_iff_toRat, ext_fin, ext_fin, WithBot.coe_lt_coe, WithTop.coe_lt_coe]

theorem le_of_signs {x y : Flt} (hx : x.hasSign true = true) (hy : y.hasSign false = true) :
    Flt.le x y = true :=
  le_of_not_lt (hasSign_ne_nan hx) (hasSign_ne_nan hy) (lt_of_signs hy hx)

theorem round32_zero (sg : Bool) (D : Nat) (k : Int) :
    round32 sg 0 D k = Flt.fin sg 0 (-149) := by
  unfold round32 roundMag
  rw [if_pos rfl]

theorem round32_mono (sg sg' : Bool) {N D N' D' : Nat} {k k' : Int} (hD : D ≠ 0) (hD' : D' ≠ 0)
    (h : (if sg then -magnitude N D k else magnitude N D k)
      ≤ (if sg' then -magnitude N' D' k' else magnitude N' D' k')) :
    Flt.le (round32 sg N D k) (round32 sg' N' D' k') = true := by
  have hm0 : (0 : ℚ) ≤ magnitude N D k := by
    unfold magnitude
    positivity
  have hm0' : (0 : ℚ) ≤ magnitude N' D' k' := by
    unfold magnitude
    positivity
  cases sg with
  | false =>
    cases sg' with
    | false =>
      simp only [Bool.false_eq_true, if_false] at h
      exact (roundMag_mono 24 (by decide) (-149) 104 (by decide) hD hD' h).1
    | true =>
      simp only [Bool.false_eq_true, if_false, if_true] at h
      have z1 : magnitude N D k = 0 := by linarith
      have z2 : magnitude N' D' k' = 0 := by linarith
      have n1 : N = 0 := (magnitude_zero_iff hD k).mp z1
      have n2 : N' = 0 := (magnitude_zero_iff hD' k').mp z2
      rw [n1, n2, round32_zero, round32_zero]
      rfl
  | true =>
    cases sg' with
    | false =>
      exact le_of_signs (round32_hasSign true N D k) (round32_hasSign false N' D' k')
    | true =>
      simp only [if_true] at h
      exact (roundMag_mono 24 (by decide) (-149) 104 (by decide) hD' hD (by linarith)).2

theorem rat_magnitude (q : ℚ) :
    (if decide (q < 0) = true then -magnitude q.num.natAbs q.den 0
      else magnitude q.num.natAbs q.den 0) = q := by
  have hden : (0 : ℚ) < (q.den : ℚ) := by exact_mod_cast q.den_pos
  have hq : (q.num : ℚ) / (q.den : ℚ) = q := Rat.num_div_den q
  unfold magnitude
  simp only [zpow_zero, mul_one, decide_eq_true_eq]
  split_ifs with hneg
  · have hn : q.num < 0 := Rat.num_neg.mpr hneg
    have e : ((q.num.natAbs : Nat) : ℚ) = -(q.num : ℚ) := by
      rw [Nat.cast_natAbs, abs_of_neg hn]
      push_cast
      rfl
    rw [e, neg_div, neg_neg, hq]
  · have hn : 0 ≤ q.num := Rat.num_nonneg.mpr (not_lt.mp hneg)
    have e : ((q.num.natAbs : Nat) : ℚ) = (q.num : ℚ) := by
      rw [Nat.cast_natAbs, abs_of_nonneg hn]
    rw [e, hq]

theorem roundRat32_mono {q q' : ℚ} (h : q ≤ q') :
    Flt.le (roundRat32 q) (roundRat32 q') = true := by
  unfold roundRat32
  apply round32_mono _ _ q.den_nz q'.den_nz
  rw [rat_magnitude, rat_magnitude]
  exact h

theorem round32_ext (sg : Bool) (N : Nat) {D : Nat} (hD : D ≠ 0) (k : Int) :
    (round32 sg N D k).ext
      = (roundRat32 (if sg then -magnitude N D k else magnitude N D k)).ext := by
  have n1 := hasSign_ne_nan (round32_hasSign sg N D k)
  have n2 : roundRat32 (if sg then -magnitude N D k else magnitude N D k) ≠ Flt.nan :=
    hasSign_ne_nan (round32_hasSign _ _ _ _)
  apply le_antisymm
  · rw [← le_iff_ext n1 n2]
    unfold roundRat32
    apply round32_mono _ _ hD (Rat.den_nz _)
    rw [rat_magnitude]
  · rw [← le_iff_ext n2 n1]
    unfold roundRat32
    apply round32_mono _ _ (Rat.den_nz _) hD
    rw [rat_magnitude]

theorem extRound32_mono {x y : WithBot (WithTop ℚ)} (h : x ≤ y) :
    extRound32 x ≤ extRound32 y := by
  have nn : ∀ q : ℚ, roundRat32 q ≠ Flt.nan := fun q =>
    hasSign_ne_nan (round32_hasSign _ _ _ _)
  match x, y, h with
  | none, _, _ => exact bot_le
  | some none, none, h => exact absurd h (not_le.mpr (WithBot.bot_lt_coe _))
  | some none, some none, _ => exact le_refl _
  | some none, some (some q), h =>
    exfalso
    have h1 : ((⊤ : WithTop ℚ) : WithBot (WithTop ℚ)) ≤ ((q : WithTop ℚ) : WithBot (WithTop ℚ)) := h
    rw [WithBot.coe_le_coe] at h1
    exact absurd h1 (by simp)
  | some (some q), none, h => exact absurd h (not_le.mpr (WithBot.bot_lt_coe _))
  | some (some q), some none, _ =>
    show (roundRat32 q).ext ≤ ((⊤ : WithTop ℚ) : WithBot (WithTop ℚ))
    cases hr : roundRat32 q with
    | nan => exact absurd hr (nn q)
    | inf a => cases a <;> simp [Flt.ext]
    | fin a m e => exact WithBot.coe_le_coe.mpr le_top
  | some (some q), some (some q'), h =>
    show (roundRat32 q).ext ≤ (roundRat32 q').ext
    have h1 : ((q : WithTop ℚ) : WithBot (WithTop ℚ)) ≤ ((q' : WithTop ℚ) : WithBot (WithTop ℚ)) := h
    rw [WithBot.coe_le_coe, WithTop.coe_le_coe] at h1
    rw [← le_iff_ext (nn q) (nn q')]
    exact roundRat32_mono h1

theorem ext_top_add (q : ℚ) :
    ((⊤ : WithTop ℚ) : WithBot (WithTop ℚ)) + ((q : WithTop ℚ) : WithBot (WithTop ℚ))
      = ((⊤ : WithTop ℚ) : WithBot (WithTop ℚ)) := by
  rw [← WithBot.coe_add, WithTop.top_add]

theorem ext_add_top (q : ℚ) :
    ((q : WithTop ℚ) : WithBot (WithTop ℚ)) + ((⊤ : WithTop ℚ) : WithBot (WithTop ℚ))
      = ((⊤ : WithTop ℚ) : WithBot (WithTop ℚ)) := by
  rw [← WithBot.coe_add, WithTop.add_top]

theorem ext_top_add_top :
    ((⊤ : WithTop ℚ) : WithBot (WithTop ℚ)) + ((⊤ : WithTop ℚ) : WithBot (WithTop ℚ))
      = ((⊤ : WithTop ℚ) : WithBot (WithTop ℚ)) := by
  rw [← WithBot.coe_add, WithTop.top_add]

theorem ext_coe_add (p q : ℚ) :
    ((p : WithTop ℚ) : WithBot (WithTop ℚ)) + ((q : WithTop ℚ) : WithBot (WithTop ℚ))
      = (((p + q : ℚ) : WithTop ℚ) : WithBot (WithTop ℚ)) := by
  rw [← WithBot.coe_add, ← WithTop.coe_add]

theorem toRat_zero (a : Bool) (e : Int) : (Flt.fin a 0 e).toRat = 0 := by
  simp [Flt.toRat]

theorem scaled_sum_cast (a : Bool) (m : Nat) (e : Int) (b : Bool) (n : Nat) (f : Int) :
    ((scaled a m (e - min e f) + scaled b n (f - min e f) : Int) : ℚ) * (2 : ℚ) ^ (min e f)
      = (Flt.fin a m e).toRat + (Flt.fin b n f).toRat := by
  have hp : ((2 : ℚ) ^ (min e f)) ≠ 0 := by positivity
  push_cast
  rw [scaled_cast a m e _ (min_le_left e f), scaled_cast b n f _ (min_le_right e f)]
  field_simp

theorem signed_magnitude (s : Int) (g : Int) :
    (if decide (s < 0) = true then -magnitude s.natAbs 1 g else magnitude s.natAbs 1 g)
      = (s : ℚ) * (2 : ℚ) ^ g := by
  unfold magnitude
  simp only [decide_eq_true_eq, Nat.cast_one, div_one]
  split_ifs with h
  · rw [Nat.cast_natAbs, abs_of_neg h]
    push_cast
    ring
  · rw [Nat.cast_natAbs, abs_of_nonneg (not_lt.mp h)]

theorem add_ext {x y : Flt} (h : Flt.add round32 (-149) x y ≠ Flt.nan) :
    (Flt.add round32 (-149) x y).ext = extRound32 (x.ext + y.ext) := by
  cases x with
  | nan => exact absurd (by cases y <;> rfl) h
  | inf a =>
    cases y with
    | nan => exact absurd rfl h
    | inf b =>
      by_cases hab : a = b
      · subst hab
        cases a
        · simp only [Flt.add, if_true, Flt.ext, ext_top_add_top]
          rfl
        · simp only [Flt.add, if_true, Flt.ext, WithBot.bot_add]
          rfl
      · simp [Flt.add, hab] at h
    | fin b n f =>
      cases a
      · simp only [Flt.add, Flt.ext, ext_top_add]
        rfl
      · simp only [Flt.add, Flt.ext, WithBot.bot_add]
        rfl
  | fin a m e =>
    cases y with
    | nan => exact absurd rfl h
    | inf b =>
      cases b
      · simp only [Flt.add, Flt.ext, ext_add_top]
        rfl
      · simp only [Flt.add, Flt.ext, WithBot.add_bot]
        rfl
    | fin b n f =>
      have hs := scaled_sum_cast a m e b n f
      rw [ext_fin, ext_fin, ext_coe_add]
      show _ = (roundRat32 _).ext
      simp only [Flt.add]
      split_ifs with h0
      · rw [h0] at hs
        simp only [Int.cast_zero, zero_mul] at hs
        rw [← hs, ext_fin, toRat_zero]
        have e0 : roundRat32 0 = Flt.fin false 0 (-149) := by decide!
        rw [e0, ext_fin, toRat_zero]
      · rw [round32_ext _ _ (by decide), signed_magnitude _ _, hs]

theorem add_ne_nan {x y : Flt} (h : Flt.add round32 (-149) x y ≠ Flt.nan) :
    x ≠ Flt.nan ∧ y ≠ Flt.nan := by
  cases x with
  | nan => exact absurd (by cases y <;> rfl) h
  | inf a =>
    cases y with
    | nan => exact absurd rfl h
    | inf b => simp
    | fin b n f => simp
  | fin a m e =>
    cases y with
    | nan => exact absurd rfl h
    | inf b => simp
    | fin b n f => simp

theorem add_mono {x y x' y' : Flt} (hx : x.ext ≤ x'.ext) (hy : y.ext ≤ y'.ext)
    (h : Flt.add round32 (-149) x y ≠ Flt.nan) (h' : Flt.add round32 (-149) x' y' ≠ Flt.nan) :
    (Flt.add round32 (-149) x y).ext ≤ (Flt.add round32 (-149) x' y').ext := by
  rw [add_ext h, add_ext h']
  exact extRound32_mono (add_le_add hx hy)

theorem add32_mono {x y x' y' : Flt} (hx : x.ext ≤ x'.ext) (hy : y.ext ≤ y'.ext)
    (h : add32 x y ≠ Flt.nan) (h' : add32 x' y' ≠ Flt.nan) :
    (add32 x y).ext ≤ (add32 x' y').ext := add_mono hx hy h h'

theorem neg_antitone {y y' : Flt} (hy : y ≠ Flt.nan) (hy' : y' ≠ Flt.nan)
    (h : y.ext ≤ y'.ext) : y'.neg.ext ≤ y.neg.ext := by
  cases y with
  | nan => exact absurd rfl hy
  | inf a =>
    cases y' with
    | nan => exact absurd rfl hy'
    | inf b => cases a <;> cases b <;> simp_all [Flt.neg, Flt.ext]
    | fin b n f => cases a <;> simp_all [Flt.neg, Flt.ext]
  | fin a m e =>
    cases y' with
    | nan => exact absurd rfl hy'
    | inf b =>
      cases b
      · simp only [Flt.neg, Flt.ext, Bool.not_false]
        exact bot_le
      · simp_all [Flt.neg, Flt.ext]
    | fin b n f =>
      rw [ext_fin, ext_fin, WithBot.coe_le_coe, WithTop.coe_le_coe] at h
      simp only [Flt.neg]
      rw [ext_fin, ext_fin, WithBot.coe_le_coe, WithTop.coe_le_coe]
      simp only [Flt.toRat] at h ⊢
      cases a <;> cases b <;> simp_all <;> linarith

theorem sub32_mono {x y x' y' : Flt} (hx : x.ext ≤ x'.ext) (hy : y'.ext ≤ y.ext)
    (h : sub32 x y ≠ Flt.nan) (h' : sub32 x' y' ≠ Flt.nan) :
    (sub32 x y).ext ≤ (sub32 x' y').ext := by
  have n1 := (add_ne_nan h).2
  have n2 := (add_ne_nan h').2
  have m1 : y ≠ Flt.nan := by
    intro hc
    rw [hc] at n1
    exact n1 rfl
  have m2 : y' ≠ Flt.nan := by
    intro hc
    rw [hc] at n2
    exact n2 rfl
  exact add_mono hx (neg_antitone m2 m1 hy) h h'

theorem ext_le_top {x : Flt} (hx : x ≠ Flt.nan) :
    x.ext ≤ ((⊤ : WithTop ℚ) : WithBot (WithTop ℚ)) := by
  cases x with
  | nan => exact absurd rfl hx
  | inf a => cases a <;> simp [Flt.ext]
  | fin a m e => exact WithBot.coe_le_coe.mpr le_top

theorem ext_sign_false {y : Flt} (hy : y.hasSign false = true) :
    (((0 : ℚ) : WithTop ℚ) : WithBot (WithTop ℚ)) ≤ y.ext := by
  cases y with
  | nan => simp [Flt.hasSign] at hy
  | inf a =>
    have ha : a = false := by simpa [Flt.hasSign] using hy
    subst ha
    exact WithBot.coe_le_coe.mpr le_top
  | fin a m e =>
    have ha : a = false := by simpa [Flt.hasSign] using hy
    subst ha
    rw [ext_fin, WithBot.coe_le_coe, WithTop.coe_le_coe]
    simp only [Flt.toRat, Bool.false_eq_true, if_false]
    positivity

theorem ext_sign_true {y : Flt} (hy : y.hasSign true = true) :
    y.ext ≤ (((0 : ℚ) : WithTop ℚ) : WithBot (WithTop ℚ)) := by
  cases y with
  | nan => simp [Flt.hasSign] at hy
  | inf a =>
    have ha : a = true := by simpa [Flt.hasSign] using hy
    subst ha
    exact bot_le
  | fin a m e =>
    have ha : a = true := by simpa [Flt.hasSign] using hy
    subst ha
    rw [ext_fin, WithBot.coe_le_coe, WithTop.coe_le_coe]
    simp only [Flt.toRat, if_true]
    have : (0 : ℚ) ≤ (m : ℚ) * (2 : ℚ) ^ e := by positivity
    linarith

theorem mul_magnitude (m : Nat) (e : Int) (b : Bool) (n : Nat) (f : Int) :
    (if xor false b = true then -magnitude (m * n) 1 (e + f) else magnitude (m * n) 1 (e + f))
      = (Flt.fin false m e).toRat * (Flt.fin b n f).toRat := by
  unfold magnitude
  simp only [Flt.toRat, Bool.false_eq_true, if_false, Nat.cast_one, div_one, Bool.false_xor]
  rw [zpow_add₀ (by norm_num : (2 : ℚ) ≠ 0)]
  cases b
  · simp only [Bool.false_eq_true, if_false]
    push_cast
    ring
  · simp only [if_true]
    push_cast
    ring

theorem mul_ne_nan_right {K y : Flt} (h : Flt.mul round32 K y ≠ Flt.nan) : y ≠ Flt.nan := by
  intro hy
  subst hy
  cases K <;> exact h rfl

theorem hasSign_cases {y : Flt} (hy : y ≠ Flt.nan) :
    y.hasSign false = true ∨ y.hasSign true = true := by
  cases y with
  | nan => exact absurd rfl hy
  | inf a => cases a <;> simp [Flt.hasSign]
  | fin a m e => cases a <;> simp [Flt.hasSign]

theorem mul_inf_ext {y : Flt} (h : Flt.mul round32 (Flt.inf false) y ≠ Flt.nan) :
    (y.hasSign false = true →
      (Flt.mul round32 (Flt.inf false) y).ext = ((⊤ : WithTop ℚ) : WithBot (WithTop ℚ)) ∧
      (((0 : ℚ) : WithTop ℚ) : WithBot (WithTop ℚ)) < y.ext) ∧
    (y.hasSign true = true →
      (Flt.mul round32 (Flt.inf false) y).ext = ⊥ ∧
      y.ext < (((0 : ℚ) : WithTop ℚ) : WithBot (WithTop ℚ))) := by
  cases y with
  | nan => exact absurd rfl h
  | inf b =>
    cases b
    · refine ⟨fun _ => ⟨rfl, ?_⟩, fun hs => by simp [Flt.hasSign] at hs⟩
      exact WithBot.coe_lt_coe.mpr (WithTop.coe_lt_top _)
    · refine ⟨fun hs => by simp [Flt.hasSign] at hs, fun _ => ⟨rfl, ?_⟩⟩
      exact WithBot.bot_lt_coe _
  | fin b n f =>
    have hn : n ≠ 0 := by
      intro h0
      subst h0
      exact h rfl
    have hpos : (0 : ℚ) < (n : ℚ) * (2 : ℚ) ^ f := by
      have : (0 : ℚ) < (n : ℚ) := by exact_mod_cast Nat.pos_of_ne_zero hn
      positivity
    cases b
    · refine ⟨fun _ => ⟨?_, ?_⟩, fun hs => by simp [Flt.hasSign] at hs⟩
      · simp [Flt.mul, hn, Flt.ext]
      · rw [ext_fin, WithBot.coe_lt_coe, WithTop.coe_lt_coe]
        simpa [Flt.toRat] using hpos
    · refine ⟨fun hs => by simp [Flt.hasSign] at hs, fun _ => ⟨?_, ?_⟩⟩
      · simp [Flt.mul, hn, Flt.ext]
      · rw [ext_fin, WithBot.coe_lt_coe, WithTop.coe_lt_coe]
        simp only [Flt.toRat, if_true]
        linarith

theorem mul32_mono {K y y' : Flt} (hK : K.hasSign false = true) (hle : y.ext ≤ y'.ext)
    (h : mul32 K y ≠ Flt.nan) (h' : mul32 K y' ≠ Flt.nan) :
    (mul32 K y).ext ≤ (mul32 K y').ext := by
  have hy := mul_ne_nan_right h
  have hy' := mul_ne_nan_right h'
  cases K with
  | nan => simp [Flt.hasSign] at hK
  | inf a =>
    have ha : a = false := by simpa [Flt.hasSign] using hK
    subst ha
    have s := mul_inf_ext h
    have s' := mul_inf_ext h'
    show (Flt.mul round32 (Flt.inf false) y).ext ≤ (Flt.mul round32 (Flt.inf false) y').ext
    rcases hasSign_cases hy with p | p
    · rcases hasSign_cases hy' with p' | p'
      · rw [(s.1 p).1, (s'.1 p').1]
      · exfalso
        have c1 := (s.1 p).2
        have c2 := (s'.2 p').2
        exact absurd (lt_of_lt_of_le c1 hle) (not_lt.mpr (le_of_lt c2))
    · rw [(s.2 p).1]
      exact bot_le
  | fin a m e =>
    have ha : a = false := by simpa [Flt.hasSign] using hK
    subst ha
    show (Flt.mul round32 (Flt.fin false m e) y).ext ≤ (Flt.mul round32 (Flt.fin false m e) y').ext
    cases y with
    | nan => exact absurd rfl hy
    | inf b =>
      have hm : m ≠ 0 := by
        intro h0
        subst h0
        exact h rfl
      cases b
      · cases y' with
        | nan => exact absurd rfl hy'
        | inf b' =>
          cases b'
          · exact le_refl _
          · simp [Flt.ext] at hle
        | fin b' n' f' =>
          exfalso
          rw [ext_fin] at hle
          simp only [Flt.ext] at hle
          rw [WithBot.coe_le_coe] at hle
          exact absurd hle (by simp)
      · simp only [Flt.mul, if_neg hm, Bool.false_xor, Flt.ext]
        exact bot_le
    | fin b n f =>
      cases y' with
      | nan => exact absurd rfl hy'
      | inf b' =>
        have hm : m ≠ 0 := by
          intro h0
          subst h0
          exact h' rfl
        cases b'
        · have e1 : Flt.mul round32 (Flt.fin false m e) (Flt.inf false) = Flt.inf false := by
            simp [Flt.mul, hm]
          rw [e1]
          exact ext_le_top h
        · exfalso
          rw [ext_fin] at hle
          simp only [Flt.ext] at hle
          exact absurd hle (not_le.mpr (WithBot.bot_lt_coe _))
      | fin b' n' f' =>
        rw [ext_fin, ext_fin, WithBot.coe_le_coe, WithTop.coe_le_coe] at hle
        simp only [Flt.mul]
        rw [← le_iff_ext (hasSign_ne_nan (round32_hasSign _ _ _ _))
          (hasSign_ne_nan (round32_hasSign _ _ _ _))]
        apply round32_mono _ _ (by decide) (by decide)
        rw [mul_magnitude, mul_magnitude]
        have hc : (0 : ℚ) ≤ (Flt.fin false m e).toRat := by
          simp only [Flt.toRat, Bool.false_eq_true, if_false]
          positivity
        exact mul_le_mul_of_nonneg_left hle hc

theorem clamp32_mono {B L x x' : Flt} (hB : B ≠ Flt.nan) (hL : L ≠ Flt.nan)
    (hLB : L.ext ≤ B.ext) (hx : x ≠ Flt.nan) (hx' : x' ≠ Flt.nan) (hle : x.ext ≤ x'.ext) :
    (if Flt.lt B x then B else if Flt.lt x L then L else x).ext
      ≤ (if Flt.lt B x' then B else if Flt.lt x' L then L else x').ext := by
  have i1 := lt_iff_ext hB hx
  have i2 := lt_iff_ext hx hL
  have i3 := lt_iff_ext hB hx'
  have i4 := lt_iff_ext hx' hL
  by_cases c1 : Flt.lt B x = true
  · have c3 : Flt.lt B x' = true := i3.mpr (lt_of_lt_of_le (i1.mp c1) hle)
    rw [if_pos c1, if_pos c3]
  · rw [if_neg c1]
    have n1 : x.ext ≤ B.ext := not_lt.mp (fun hc => c1 (i1.mpr hc))
    by_cases c2 : Flt.lt x L = true
    · rw [if_pos c2]
      by_cases c3 : Flt.lt B x' = true
      · rw [if_pos c3]
        exact hLB
      · rw [if_neg c3]
        by_cases c4 : Flt.lt x' L = true
        · rw [if_pos c4]
        · rw [if_neg c4]
          exact not_lt.mp (fun hc => c4 (i4.mpr hc))
    · rw [if_neg c2]
      by_cases c3 : Flt.lt B x' = true
      · rw [if_pos c3]
        exact n1
      · rw [if_neg c3]
        by_cases c4 : Flt.lt x' L = true
        · exact absurd (i2.mpr (lt_of_le_of_lt hle (i4.mp c4))) c2
        · rw [if_neg c4]
          exact hle

theorem clamp32_ne_nan {B L x : Flt} (hB : B ≠ Flt.nan) (hL : L ≠ Flt.nan) (hx : x ≠ Flt.nan) :
    (if Flt.lt B x then B else if Flt.lt x L then L else x) ≠ Flt.nan := by
  split_ifs
  · exact hB
  · exact hL
  · exact hx

theorem clamp32_nan (B L : Flt) :
    (if Flt.lt B Flt.nan then B else if Flt.lt Flt.nan L then L else Flt.nan) = Flt.nan := by
  have h1 : Flt.lt B Flt.nan = false := by cases B <;> rfl
  have h2 : Flt.lt Flt.nan L = false := by cases L <;> rfl
  rw [h1, h2]
  rfl

theorem boundIntegral32_mono {Ki x x' : Flt} (hKi : Ki.hasSign false = true)
    (hx : x ≠ Flt.nan) (hx' : x' ≠ Flt.nan) (hle : x.ext ≤ x'.ext) :
    (boundIntegral32 Ki x).ext ≤ (boundIntegral32 Ki x').ext := by
  have hB := upperBound32_hasSign hKi
  have hL := lowerBound32_hasSign hKi
  exact clamp32_mono (hasSign_ne_nan hB) (hasSign_ne_nan hL)
    (le_trans (ext_sign_true hL) (ext_sign_false hB)) hx hx' hle

theorem boundIntegral32_arg_ne_nan {Ki x : Flt} (h : boundIntegral32 Ki x ≠ Flt.nan) :
    x ≠ Flt.nan := by
  intro hx
  subst hx
  exact h (clamp32_nan _ _)

theorem boundOutput32_mono {u u' : Flt} (hu : u ≠ Flt.nan) (hu' : u' ≠ Flt.nan)
    (hle : u.ext ≤ u'.ext) : (boundOutput32 u).ext ≤ (boundOutput32 u').ext := by
  have c1 : ofInt32 9999 = Flt.fin false 10238976 (-10) := by decide!
  have c2 : ofInt32 800 = Flt.fin false 13107200 (-14) := by decide!
  have hLB : (Flt.fin false 13107200 (-14)).ext ≤ (Flt.fin false 10238976 (-10)).ext := by
    rw [ext_fin, ext_fin, WithBot.coe_le_coe, WithTop.coe_le_coe]
    norm_num [Flt.toRat]
  unfold boundOutput32
  rw [c1, c2]
  exact clamp32_mono (by simp) (by simp) hLB hu hu' hle

theorem toHWORD_floor (a : Bool) (m : Nat) (e : Int)
    (h1 : 800 ≤ (Flt.fin a m e).toRat) (h2 : (Flt.fin a m e).toRat ≤ 9999) :
    (Flt.fin a m e).toHWORD = some ⌊(Flt.fin a m e).toRat⌋₊ := by
  have ha : a = false := by
    cases a
    · rfl
    · exfalso
      simp only [Flt.toRat, if_true] at h1
      have : (0 : ℚ) ≤ (m : ℚ) * (2 : ℚ) ^ e := by positivity
      linarith
  subst ha
  have key : (if 0 ≤ e then m * 2 ^ e.toNat else m / 2 ^ (-e).toNat)
      = ⌊(Flt.fin false m e).toRat⌋₊ := by
    simp only [Flt.toRat, Bool.false_eq_true, if_false]
    by_cases he : 0 ≤ e
    · rw [if_pos he]
      have hc : (m : ℚ) * (2 : ℚ) ^ e = ((m * 2 ^ e.toNat : Nat) : ℚ) := by
        push_cast
        rw [← zpow_natCast, Int.toNat_of_nonneg he]
      rw [hc, Nat.floor_natCast]
    · rw [if_neg he]
      have hk : (m : ℚ) * (2 : ℚ) ^ e = (m : ℚ) / ((2 ^ (-e).toNat : Nat) : ℚ) := by
        push_cast
        rw [← zpow_natCast, Int.toNat_of_nonneg (by omega), zpow_neg, div_eq_mul_inv, inv_inv]
      rw [hk, Nat.floor_div_eq_div]
  have hle : ⌊(Flt.fin false m e).toRat⌋₊ ≤ 9999 :=
    Nat.floor_le_of_le (by exact_mod_cast h2)
  simp only [Flt.toHWORD]
  rw [key, if_neg (by simp), if_neg (by omega)]

theorem Kd32_hasSign {Kp : Flt} (h : Flt.lt Flt.zero Kp = true) :
    ((div64 Kp (lit64 100 1)).to32).hasSign false = true := by
  have h100 : lit64 100 1 = Flt.fin false 7036874417766400 (-46) := by decide!
  have h1 := div_hasSign_of_den round64 (-1074) round64_hasSign (lt_zero_hasSign h) false
    7036874417766400 (-46) (by decide)
  rw [← h100] at h1
  exact to32_hasSign h1

theorem le_ne_nan {x y : Flt} (h : Flt.le x y = true) : x ≠ Flt.nan ∧ y ≠ Flt.nan := by
  cases x with
  | nan => simp [Flt.le] at h
  | inf a =>
    cases y with
    | nan => simp [Flt.le] at h
    | inf b => simp
    | fin b n f => simp
  | fin a m e =>
    cases y with
    | nan => simp [Flt.le] at h
    | inf b => simp
    | fin b n f => simp

theorem boundOutput32_fin {u : Flt} (hu : u ≠ Flt.nan) :
    ∃ a m e, boundOutput32 u = Flt.fin a m e ∧ 800 ≤ (Flt.fin a m e).toRat ∧
      (Flt.fin a m e).toRat ≤ 9999 := by
  have c1 : ofInt32 9999 = Flt.fin false 10238976 (-10) := by decide!
  have c2 : ofInt32 800 = Flt.fin false 13107200 (-14) := by decide!
  have v1 : (Flt.fin false 10238976 (-10)).toRat = 9999 := by norm_num [Flt.toRat]
  have v2 : (Flt.fin false 13107200 (-14)).toRat = 800 := by norm_num [Flt.toRat]
  unfold boundOutput32
  rw [c1, c2]
  split_ifs with h1 h2
  · exact ⟨_, _, _, rfl, by rw [v1]; norm_num, by rw [v1]⟩
  · exact ⟨_, _, _, rfl, by rw [v2], by rw [v2]; norm_num⟩
  · cases u with
    | nan => exact absurd rfl hu
    | inf a => cases a <;> simp [Flt.lt] at h1 h2
    | fin a m e =>
      rw [lt_iff_toRat, v1] at h1
      rw [lt_iff_toRat, v2] at h2
      exact ⟨a, m, e, rfl, not_lt.mp h2, not_lt.mp h1⟩

theorem duty32_mono {u u' : Flt} (hu : u ≠ Flt.nan) (hu' : u' ≠ Flt.nan)
    (hle : u.ext ≤ u'.ext) :
    ∃ v v' : Nat, (boundOutput32 u).toHWORD = some v ∧ (boundOutput32 u').toHWORD = some v' ∧
      v ≤ v' := by
  obtain ⟨a, m, e, r, l1, l2⟩ := boundOutput32_fin hu
  obtain ⟨a', m', e', r', l1', l2'⟩ := boundOutput32_fin hu'
  have hm := boundOutput32_mono hu hu' hle
  rw [r, r', ext_fin, ext_fin, WithBot.coe_le_coe, WithTop.coe_le_coe] at hm
  refine ⟨_, _, ?_, ?_, Nat.floor_mono hm⟩
  · rw [r]
    exact toHWORD_floor a m e l1 l2
  · rw [r']
    exact toHWORD_floor a' m' e' l1' l2'

theorem pid32_mono (Kp desired_spd integral_error prev_error spd_a spd_b : Flt)
    (hKp : Flt.lt Flt.zero Kp = true) (hle : Flt.le spd_a spd_b = true)
    (ha : (pid32 Kp desired_spd spd_a integral_error prev_error).temp_output ≠ Flt.nan)
    (hb : (pid32 Kp desired_spd spd_b integral_error prev_error).temp_output ≠ Flt.nan) :
    (∃ va vb : Nat,
      (pid32 Kp desired_spd spd_a integral_error prev_error).OCR = some va ∧
      (pid32 Kp desired_spd spd_b integral_error prev_error).OCR = some vb ∧ vb ≤ va) ∧
    Flt.le (pid32 Kp desired_spd spd_b integral_error prev_error).integral_error
      (pid32 Kp desired_spd spd_a integral_error prev_error).integral_error = true := by
  have sKp := lt_zero_hasSign hKp
  have sKi := Ki32_hasSign hKp
  have sKd := Kd32_hasSign hKp
  obtain ⟨na, nb⟩ := le_ne_nan hle
  have hs : spd_a.ext ≤ spd_b.ext := (le_iff_ext na nb).mp hle
  -- the run at speed a
  have a1 := add_ne_nan ha
  have a2 := add_ne_nan a1.1
  have aErr := mul_ne_nan_right a2.1
  have aI := mul_ne_nan_right a2.2
  have aX := boundIntegral32_arg_ne_nan aI
  have aD := mul_ne_nan_right a1.2
  -- the run at speed b
  have b1 := add_ne_nan hb
  have b2 := add_ne_nan b1.1
  have bErr := mul_ne_nan_right b2.1
  have bI := mul_ne_nan_right b2.2
  have bX := boundIntegral32_arg_ne_nan bI
  have bD := mul_ne_nan_right b1.2
  -- monotonicity
  have mErr := sub32_mono (le_refl desired_spd.ext) hs bErr aErr
  have mX := add32_mono (le_refl integral_error.ext) mErr bX aX
  have mI := boundIntegral32_mono sKi bX aX mX
  have m1 := mul32_mono sKp mErr b2.1 a2.1
  have m2 := mul32_mono sKi mI b2.2 a2.2
  have mD := sub32_mono mErr (le_refl prev_error.ext) bD aD
  have m3 := mul32_mono sKd mD b1.2 a1.2
  have m12 := add32_mono m1 m2 b1.1 a1.1
  have mU := add32_mono m12 m3 hb ha
  obtain ⟨vb, va, hvb, hva, hv⟩ := duty32_mono hb ha mU
  exact ⟨⟨va, vb, hva, hvb, hv⟩, (le_iff_ext bI aI).mpr mI⟩

theorem round32_exact_int (sg : Bool) {N : Nat} (hN : N ≠ 0) (hlt : N < 2 ^ 24) :
    ∃ m e, round32 sg N 1 0 = Flt.fin sg m e ∧ (m : ℚ) * (2 : ℚ) ^ e = (N : ℚ) := by
  have hmag : magnitude N 1 0 = (N : ℚ) := by
    unfold magnitude
    simp
  obtain ⟨l1, l2⟩ := magnitude_log hN (by decide : (1 : Nat) ≠ 0) 0
  rw [hmag] at l1 l2
  have hNq : (N : ℚ) < (2 : ℚ) ^ (24 : Int) := by
    have h : (N : ℚ) < 16777216 := by exact_mod_cast hlt
    have e : (2 : ℚ) ^ (24 : Int) = 16777216 := by norm_num
    rw [e]
    exact h
  have hN1 : (1 : ℚ) ≤ (N : ℚ) := by exact_mod_cast Nat.pos_of_ne_zero hN
  have hfl1 : floorLog2 N 1 + 0 < 24 :=
    (zpow_lt_zpow_iff_right₀ (by norm_num : (1 : ℚ) < 2)).mp (lt_of_le_of_lt l1 hNq)
  have hfl0 : (0 : Int) < floorLog2 N 1 + 0 + 1 := by
    have h1 : (2 : ℚ) ^ (0 : Int) < (2 : ℚ) ^ (floorLog2 N 1 + 0 + 1) := by
      simpa using lt_of_le_of_lt hN1 l2
    exact (zpow_lt_zpow_iff_right₀ (by norm_num : (1 : ℚ) < 2)).mp h1
  have he : ulpExp 24 (-149) N 1 0 = floorLog2 N 1 + 0 - 23 := by
    unfold ulpExp
    push_cast
    rw [max_eq_left (by omega)]
  obtain ⟨N', D', hD', hr, hq⟩ := roundSig_ratio 24 (-149) N (by decide : (1 : Nat) ≠ 0) 0
  rw [hmag, he] at hq
  have hM : (N : ℚ) / (2 : ℚ) ^ (floorLog2 N 1 + 0 - 23)
      = ((N * 2 ^ (23 - (floorLog2 N 1 + 0)).toNat : Nat) : ℚ) := by
    push_cast
    rw [← zpow_natCast, Int.toNat_of_nonneg (by omega), div_eq_mul_inv, ← zpow_neg]
    congr 2
    ring
  rw [hM] at hq
  have hsig : roundSig 24 (-149) N 1 0 = N * 2 ^ (23 - (floorLog2 N 1 + 0)).toNat := by
    rw [hr]
    exact le_antisymm (nearestEven_le hD' _ (le_of_eq hq)) (le_nearestEven hD' _ (le_of_eq hq.symm))
  have hval : ((roundSig 24 (-149) N 1 0 : Nat) : ℚ) * (2 : ℚ) ^ ulpExp 24 (-149) N 1 0
      = (N : ℚ) := by
    rw [hsig, ← hM, he]
    have hp : (2 : ℚ) ^ (floorLog2 N 1 + 0 - 23) ≠ 0 := by positivity
    field_simp
  have hround : round32 sg N 1 0
      = finishRound 24 104 sg (roundSig 24 (-149) N 1 0) (ulpExp 24 (-149) N 1 0) := by
    unfold round32 roundMag
    rw [if_neg hN]
  rcases finishRound_cases 24 (by decide) 104 sg (roundSig 24 (-149) N 1 0)
      (ulpExp 24 (-149) N 1 0) (roundSig_le 24 (-149) hN Nat.one_ne_zero 0)
      (fun hlt2 => roundSig_ge 24 (by decide) (-149) hN Nat.one_ne_zero 0 (by omega))
    with ⟨_, v⟩ | ⟨m1, e1, r, v, _⟩
  · exfalso
    rw [hval] at v
    have h2 : (2 : ℚ) ^ (24 : Int) ≤ (2 : ℚ) ^ 24 * (2 : ℚ) ^ (104 : Int) := by norm_num
    have h3 : (2 : ℚ) ^ 24 * (2 : ℚ) ^ (104 : Int) ≤ (N : ℚ) := v
    linarith
  · exact ⟨m1, e1, by rw [hround, r], by rw [v, hval]⟩

theorem ofInt32_exact (v : Int) (h1 : -16777216 < v) (h2 : v < 16777216) :
    (ofInt32 v).isFin = true ∧ (ofInt32 v).toRat = (v : ℚ) := by
  by_cases h0 : v = 0
  · subst h0
    have e : ofInt32 0 = Flt.fin false 0 (-149) := by decide!
    rw [e]
    exact ⟨rfl, by simp [Flt.toRat]⟩
  · have hN : v.natAbs ≠ 0 := by omega
    have hlt : v.natAbs < 2 ^ 24 := by omega
    obtain ⟨m, e, r, hv⟩ := round32_exact_int (decide (v < 0)) hN hlt
    unfold ofInt32
    rw [r]
    refine ⟨rfl, ?_⟩
    simp only [Flt.toRat, decide_eq_true_eq]
    split_ifs with hneg
    · rw [neg_mul, hv, Nat.cast_natAbs, abs_of_neg hneg]
      push_cast
      ring
    · rw [hv, Nat.cast_natAbs, abs_of_nonneg (not_lt.mp hneg)]

/-! ## Lemmas on the float statements of the handlers -/

theorem filterRun32_snoc (a : Flt) (ds : List Int) (d : Int) :
    filterRun32 a (ds ++ [d]) = filter32 (filterRun32 a ds) (speed32 d) := by
  unfold filterRun32
  rw [List.foldl_append]
  rfl

theorem filterRun32_replicate_succ (a : Flt) (n : Nat) (d : Int) :
    filterRun32 a (List.replicate (n + 1) d)
      = filter32 (filterRun32 a (List.replicate n d)) (speed32 d) := by
  rw [List.replicate_succ', filterRun32_snoc]

theorem filterRun32_stall (n : Nat) :
    filterRun32 Flt.zero (List.replicate (142 + n) 5000) = Flt.fin false 16777212 (-24) := by
  induction n with
  | zero => decide!
  | succ n ih =>
    have e : 142 + (n + 1) = (142 + n) + 1 := by omega
    rw [e, filterRun32_replicate_succ, ih]
    decide!

theorem filterRun32_rise : ∀ n : Nat, n < 142 →
    Flt.lt (filterRun32 Flt.zero (List.replicate n 5000))
      (filterRun32 Flt.zero (List.replicate (n + 1) 5000)) = true := by
  decide!

theorem filterRun32_below_one (n : Nat) :
    Flt.lt (filterRun32 Flt.zero (List.replicate n 5000)) (lit32 1 1) = true := by
  by_cases h : n < 142
  · revert n
    decide!
  · obtain ⟨k, rfl⟩ : ∃ k, n = 142 + k := ⟨n - 142, by omega⟩
    rw [filterRun32_stall]
    decide!

/-! ## Lemmas on the control tick -/

theorem boundOutput_ge (u : ℚ) : 800 ≤ boundOutput u := by
  unfold boundOutput
  split_ifs with h1 h2
  · norm_num
  · norm_num
  · exact not_lt.mp h2

theorem boundOutput_le (u : ℚ) : boundOutput u ≤ 9999 := by
  unfold boundOutput
  split_ifs with h1 h2
  · norm_num
  · norm_num
  · exact not_lt.mp h1

theorem boundOutput_eq_clamp (u : ℚ) : boundOutput u = clamp u 800 9999 := by
  unfold boundOutput clamp
  split_ifs with h1 h2
  · rw [min_eq_left (le_of_lt h1), max_eq_right (by norm_num)]
  · have h3 : u ≤ 9999 := by linarith
    rw [min_eq_right h3, max_eq_left (le_of_lt h2)]
  · rw [min_eq_right (not_lt.mp h1), max_eq_right (not_lt.mp h2)]

theorem toHWORD_eq_floor {x : ℚ} (h0 : 0 ≤ x) (h1 : x < 65536) :
    toHWORD x = ⌊x⌋.toNat := by
  unfold toHWORD
  rw [if_pos h0]
  have h2 : 0 ≤ ⌊x⌋ := Int.floor_nonneg.mpr h0
  have h3 : ⌊x⌋ < 65536 := by
    have : (⌊x⌋ : ℚ) ≤ x := Int.floor_le x
    have h4 : (⌊x⌋ : ℚ) < 65536 := lt_of_le_of_lt this h1
    exact_mod_cast h4
  rw [Int.emod_eq_of_lt h2 h3]

theorem toHWORD_bounds {x : ℚ} (h0 : 800 ≤ x) (h1 : x ≤ 9999) :
    800 ≤ toHWORD x ∧ toHWORD x ≤ 9999 := by
  rw [toHWORD_eq_floor (by linarith) (by linarith)]
  have h2 : (800 : Int) ≤ ⌊x⌋ := Int.le_floor.mpr (by exact_mod_cast h0)
  have h3 : ⌊x⌋ ≤ 9999 := by
    have : (⌊x⌋ : ℚ) ≤ x := Int.floor_le x
    have h4 : (⌊x⌋ : ℚ) ≤ 9999 := le_trans this h1
    exact_mod_cast h4
  omega

theorem boundIntegral_mem {Ki : ℚ} (hKi : 0 < Ki) (x : ℚ) :
    -25000 / Ki ≤ boundIntegral Ki x ∧ boundIntegral Ki x ≤ 25000 / Ki := by
  have hpos : (0 : ℚ) < 25000 / Ki := div_pos (by norm_num) hKi
  have hneg : -25000 / Ki = -(25000 / Ki) := neg_div Ki 25000
  unfold boundIntegral
  rw [if_neg (ne_of_gt hKi)]
  split_ifs with h1 h2
  · constructor <;> linarith
  · constructor <;> linarith
  · exact ⟨not_lt.mp h2, not_lt.mp h1⟩

theorem boundIntegral_eq_clamp {Ki : ℚ} (hKi : 0 < Ki) (x : ℚ) :
    boundIntegral Ki x = clamp x (-25000 / Ki) (25000 / Ki) := by
  have hpos : (0 : ℚ) < 25000 / Ki := div_pos (by norm_num) hKi
  have hneg : -25000 / Ki = -(25000 / Ki) := neg_div Ki 25000
  unfold boundIntegral clamp
  rw [if_neg (ne_of_gt hKi)]
  split_ifs with h1 h2
  · rw [min_eq_left (le_of_lt h1), max_eq_right (by linarith)]
  · have h3 : x ≤ 25000 / Ki := by linarith
    rw [min_eq_right h3, max_eq_left (le_of_lt h2)]
  · rw [min_eq_right (not_lt.mp h1), max_eq_right (not_lt.mp h2)]

/-! ## Claims on the control tick -/

/-- C1 (counterexample): the gain `Kp = 3e38` (a finite `float`), set-point 2,
smoothed speed 0, integral 0 and previous error 1000. The product `Kp*err`
overflows to `+∞` and `Kd*(err-prev_error)` to `-∞`, so `temp_output` is a NaN;
both bounding comparisons are false for a NaN, and the conversion
`(HWORD)temp_output` is undefined: no value in `[800, 9999]` is written. -/
theorem duty_nan_escapes_bounds :
    lit32 (3 * 10 ^ 38) 1 = Flt.fin false 14791142 104 ∧
    (pid32 (lit32 (3 * 10 ^ 38) 1) (lit32 2 1) Flt.zero Flt.zero (lit32 1000 1)).temp_output
      = Flt.nan ∧
    boundOutput32 Flt.nan = Flt.nan ∧
    (pid32 (lit32 (3 * 10 ^ 38) 1) (lit32 2 1) Flt.zero Flt.zero (lit32 1000 1)).OCR = none ∧
    ¬ ∃ v : Nat,
      (pid32 (lit32 (3 * 10 ^ 38) 1) (lit32 2 1) Flt.zero Flt.zero (lit32 1000 1)).OCR = some v ∧
      800 ≤ v ∧ v ≤ 9999 := by
  have h : (pid32 (lit32 (3 * 10 ^ 38) 1) (lit32 2 1) Flt.zero Flt.zero (lit32 1000 1)).OCR
      = none := by decide!
  refine ⟨by decide!, by decide!, by decide!, h, ?_⟩
  rw [h]
  simp

/-- C1 (amended): for every gain, set-point, smoothed speed, integral and
previous error of a wheel for which the controller output `temp_output` of
one run of `Timer5Handler` is not a NaN, the value the run writes to the
wheel's compare registers (`OC3R`, `OC3RS` for the right wheel, `OC2R`,
`OC2RS` for the left) lies in `[800, 9999]`; when `temp_output` is a NaN the
conversion to the register value is undefined. -/
theorem pid32_duty_range (Kp desired_spd spd_avg integral_error prev_error : Flt) :
    ((pid32 Kp desired_spd spd_avg integral_error prev_error).temp_output ≠ Flt.nan →
      ∃ v : Nat, (pid32 Kp desired_spd spd_avg integral_error prev_error).OCR = some v ∧
        800 ≤ v ∧ v ≤ 9999) ∧
    ((pid32 Kp desired_spd spd_avg integral_error prev_error).temp_output = Flt.nan →
      (pid32 Kp desired_spd spd_avg integral_error prev_error).OCR = none) := by
  have e : (pid32 Kp desired_spd spd_avg integral_error prev_error).OCR
      = (boundOutput32
          (pid32 Kp desired_spd spd_avg integral_error prev_error).temp_output).toHWORD :=
    rfl
  constructor
  · intro h
    rw [e]
    exact boundOutput32_range h
  · intro h
    rw [e, h]
    exact boundOutput32_nan

/-- Witness of C1 (amended): the right wheel at boot (gain 2500, set-point
0.75, smoothed speed, integral and previous error 0); the value written is
2081. -/
theorem pid32_duty_range_witness :
    (pid32 (lit32 2500 1) (lit32 3 4) Flt.zero Flt.zero Flt.zero).temp_output ≠ Flt.nan ∧
    (∃ v : Nat, (pid32 (lit32 2500 1) (lit32 3 4) Flt.zero Flt.zero Flt.zero).OCR = some v ∧
      800 ≤ v ∧ v ≤ 9999) ∧
    (pid32 (lit32 2500 1) (lit32 3 4) Flt.zero Flt.zero Flt.zero).OCR = some 2081 :=
  ⟨by decide!,
    (pid32_duty_range (lit32 2500 1) (lit32 3 4) Flt.zero Flt.zero Flt.zero).1 (by decide!),
    by decide!⟩

theorem toHWORD_boundOutput (u : ℚ) :
    toHWORD (boundOutput u) = ⌊clamp u 800 9999⌋.toNat := by
  rw [toHWORD_eq_floor (by linarith [boundOutput_ge u]) (by linarith [boundOutput_le u]),
    boundOutput_eq_clamp]

theorem step_Kp (s : State) (e : Event) : (step s e).Kp = s.Kp := by
  cases e <;> rfl

theorem step_Kp2 (s : State) (e : Event) : (step s e).Kp2 = s.Kp2 := by
  cases e <;> rfl

/-- C3 (counterexample): with the right wheel's gain `Kp = -2500` at boot the
handler leaves the integral at `-100` and writes the duty 9999, while the
controller step of the specification gives the integral `100` and the duty
`800`; with `Kp = 0` the handler leaves the integral at `3/4`, the
specification's step at `0`. -/
theorem nonpositive_gain_not_pidSpec :
    (Timer5Handler negativeGain Pins.low).integral_error = -100 ∧
    (pidSpec negativeGain.Kp negativeGain.desired_spd negativeGain.IC3_spd_avg
      negativeGain.integral_error negativeGain.t5.prev_error).integ = 100 ∧
    (Timer5Handler negativeGain Pins.low).OC3R = 9999 ∧
    (pidSpec negativeGain.Kp negativeGain.desired_spd negativeGain.IC3_spd_avg
      negativeGain.integral_error negativeGain.t5.prev_error).duty = 800 ∧
    (Timer5Handler zeroGain Pins.low).integral_error = 3 / 4 ∧
    (pidSpec zeroGain.Kp zeroGain.desired_spd zeroGain.IC3_spd_avg
      zeroGain.integral_error zeroGain.t5.prev_error).integ = 0 := by
  refine ⟨?_, ?_, ?_, ?_, ?_, ?_⟩
  · norm_num [Timer5Handler, negativeGain, boot, boundIntegral]
  · norm_num [pidSpec, negativeGain, boot, clamp]
  · have h : (Timer5Handler negativeGain Pins.low).OC3R
        = toHWORD (boundOutput (temp_output_pre negativeGain)) := rfl
    have h2 : temp_output_pre negativeGain = 92425 / 4 := by
      norm_num [temp_output_pre, negativeGain, boot, boundIntegral]
    rw [h, h2]
    norm_num [boundOutput, toHWORD]
    rfl
  · norm_num [pidSpec, negativeGain, boot, clamp]
  · norm_num [Timer5Handler, zeroGain, boot, boundIntegral]
  · norm_num [pidSpec, zeroGain, boot, clamp]

/-- C3 (amended): for each wheel whose gain `Kp` is positive, one run of
`Timer5Handler` computes, in exact arithmetic, the controller step of the
specification: `Ki = Kp/10`, `Kd = Kp/100`, `err = setpoint - speed_avg`,
`integ' = clamp(integ + err, ±25000/Ki)`,
`u = Kp*err + Ki*integ' + Kd*(err - prev_err)`, `duty = clamp(u, 800, 9999)`;
the integer part of `duty` is written to the active and the shadow compare
register of the wheel, and `prev_err' = err`. The right wheel's `u` is the
value traced in `hist4`. -/
theorem Timer5Handler_eq_pidSpec (s : State) (p : Pins) :
    (0 < s.Kp →
      (Timer5Handler s p).Ki =
        (pidSpec s.Kp s.desired_spd s.IC3_spd_avg s.integral_error s.t5.prev_error).Ki ∧
      (Timer5Handler s p).Kd =
        (pidSpec s.Kp s.desired_spd s.IC3_spd_avg s.integral_error s.t5.prev_error).Kd ∧
      (Timer5Handler s p).err =
        (pidSpec s.Kp s.desired_spd s.IC3_spd_avg s.integral_error s.t5.prev_error).err ∧
      (Timer5Handler s p).integral_error =
        (pidSpec s.Kp s.desired_spd s.IC3_spd_avg s.integral_error s.t5.prev_error).integ ∧
      (Timer5Handler s p).hist4 s.t5.index =
        (pidSpec s.Kp s.desired_spd s.IC3_spd_avg s.integral_error s.t5.prev_error).u ∧
      ((Timer5Handler s p).OC3R : Int) =
        ⌊(pidSpec s.Kp s.desired_spd s.IC3_spd_avg s.integral_error s.t5.prev_error).duty⌋ ∧
      (Timer5Handler s p).OC3RS = (Timer5Handler s p).OC3R ∧
      (Timer5Handler s p).t5.prev_error =
        (pidSpec s.Kp s.desired_spd s.IC3_spd_avg s.integral_error s.t5.prev_error).err) ∧
    (0 < s.Kp2 →
      (Timer5Handler s p).Ki2 =
        (pidSpec s.Kp2 s.desired_spd2 s.IC2_spd_avg s.integral_error2 s.t5.prev_error2).Ki ∧
      (Timer5Handler s p).Kd2 =
        (pidSpec s.Kp2 s.desired_spd2 s.IC2_spd_avg s.integral_error2 s.t5.prev_error2).Kd ∧
      (Timer5Handler s p).err2 =
        (pidSpec s.Kp2 s.desired_spd2 s.IC2_spd_avg s.integral_error2 s.t5.prev_error2).err ∧
      (Timer5Handler s p).integral_error2 =
        (pidSpec s.Kp2 s.desired_spd2 s.IC2_spd_avg s.integral_error2 s.t5.prev_error2).integ ∧
      ((Timer5Handler s p).OC2R : Int) =
        ⌊(pidSpec s.Kp2 s.desired_spd2 s.IC2_spd_avg s.integral_error2 s.t5.prev_error2).duty⌋ ∧
      (Timer5Handler s p).OC2RS = (Timer5Handler s p).OC2R ∧
      (Timer5Handler s p).t5.prev_error2 =
        (pidSpec s.Kp2 s.desired_spd2 s.IC2_spd_avg s.integral_error2 s.t5.prev_error2).err) := by
  have hfl : ∀ u : ℚ, ((toHWORD (boundOutput u) : Nat) : Int) = ⌊clamp u 800 9999⌋ := by
    intro u
    rw [toHWORD_boundOutput]
    apply Int.toNat_of_nonneg
    apply Int.floor_nonneg.mpr
    rw [← boundOutput_eq_clamp]
    linarith [boundOutput_ge u]
  constructor
  · intro hKp
    have hKi : 0 < s.Kp / 10 := by positivity
    simp only [Timer5Handler, pidSpec, boundIntegral_eq_clamp hKi, Function.update_same, hfl,
      and_self]
  · intro hKp2
    have hKi2 : 0 < s.Kp2 / 10 := by positivity
    simp only [Timer5Handler, pidSpec, boundIntegral_eq_clamp hKi2, hfl, and_self]

/-- Witness of C3 (amended) at the boot state, both wheels. -/
theorem Timer5Handler_eq_pidSpec_witness :
    (0 < boot.Kp ∧ 0 < boot.Kp2) ∧
    ((Timer5Handler boot Pins.low).OC3R : Int) =
      ⌊(pidSpec boot.Kp boot.desired_spd boot.IC3_spd_avg boot.integral_error
        boot.t5.prev_error).duty⌋ ∧
    ((Timer5Handler boot Pins.low).OC2R : Int) =
      ⌊(pidSpec boot.Kp2 boot.desired_spd2 boot.IC2_spd_avg boot.integral_error2
        boot.t5.prev_error2).duty⌋ :=
  have hKp : 0 < boot.Kp := by norm_num [boot]
  have hKp2 : 0 < boot.Kp2 := by norm_num [boot]
  ⟨⟨hKp, hKp2⟩, ((Timer5Handler_eq_pidSpec boot Pins.low).1 hKp).2.2.2.2.2.1,
    ((Timer5Handler_eq_pidSpec boot Pins.low).2 hKp2).2.2.2.2.1⟩

/-! ## Lemmas on the capture handlers -/

theorem wrapInt32_of_range {x : Int} (h1 : -2147483648 ≤ x) (h2 : x < 2147483648) :
    wrapInt32 x = x := by
  unfold wrapInt32
  omega

theorem drainIC2_single (prev_time prev_ov time delta loc : Int) (buf : Nat) :
    drainIC2 prev_time prev_ov time delta loc [buf] =
      if wrapInt32 (((buf % 65536 : Nat) : Int) - prev_time) ≤ 0 ∧ loc = prev_ov then
        (((buf % 65536 : Nat) : Int),
          wrapInt32 (wrapInt32 (((buf % 65536 : Nat) : Int) - prev_time) + 50000),
          wrapInt32 (loc + 1))
      else
        (((buf % 65536 : Nat) : Int), wrapInt32 (((buf % 65536 : Nat) : Int) - prev_time), loc) := by
  simp only [drainIC2]

/-! ## Claims on the capture handlers -/

/-- C4 (evaluation at the failing input): an edge on each wheel at counter
value 49000, the overflow event serviced, then an edge on each wheel at
counter value 2000. Both handlers pass the interval `-47000` to the speed
computation, which is not strictly positive. -/
theorem capture_delta_nonpositive :
    (run boot [.ic2 [49000], .ic3 [49000], .t3, .ic2 [2000], .ic3 [2000]]).delta_time2
      = -47000 ∧
    (run boot [.ic2 [49000], .ic3 [49000], .t3, .ic2 [2000], .ic3 [2000]]).delta_time3
      = -47000 ∧
    ¬ (0 < (run boot [.ic2 [49000], .ic3 [49000], .t3, .ic2 [2000], .ic3 [2000]]).delta_time2) ∧
    ¬ (0 < (run boot [.ic2 [49000], .ic3 [49000], .t3, .ic2 [2000], .ic3 [2000]]).delta_time3) := by
  decide

/-- C5 (evaluation at the failing input): edge A at counter value 49000 with
overflow count 12, the counter wraps and the overflow event is serviced
(count 13), edge B at counter value 2000. The true separation is 3000 µs; the
handler reports `delta_time2 = -47000`. -/
theorem capture_serviced_overflow_delta :
    (run boot (List.replicate 12 .t3 ++ [.ic2 [49000]])).ic2.prev_time = 49000 ∧
    (run boot (List.replicate 12 .t3 ++ [.ic2 [49000]])).ic2.prev_T3_OV_Count_Local = 12 ∧
    (run boot (List.replicate 12 .t3 ++ [.ic2 [49000], .t3])).T3_OV_Count = 13 ∧
    (run boot (List.replicate 12 .t3 ++ [.ic2 [49000], .t3, .ic2 [2000]])).delta_time2
      = -47000 ∧
    (run boot (List.replicate 12 .t3 ++ [.ic2 [49000], .t3, .ic2 [2000]])).delta_time2
      ≠ (2000 + 50000) - 49000 := by
  decide

/-- C6: unserviced-overflow correction. For a capture event of the left wheel
with a single FIFO timestamp `latest`, previous capture `prev` with
`0 ≤ latest ≤ prev < 50000`, and overflow snapshot equal to the stored
`prev_ov`, the handler reports `delta_time2 = latest - prev + 50000`, a value
in `(0, 50000]`, and stores `prev_ov = snapshot + 1` (the `int` increment of
the local copy, which is `snapshot + 1` unless the snapshot is `INT_MAX`). In
particular `prev = 49000`, `latest = 2000` gives `3000`, and snapshot 12 is
stored as 13. -/
theorem IC2_unserviced_overflow (s : State) (latest : Nat)
    (hle : (latest : Int) ≤ s.ic2.prev_time) (hlt : s.ic2.prev_time < 50000)
    (hov : wrapInt32 (s.T3_OV_Count : Int) = s.ic2.prev_T3_OV_Count_Local) :
    (_IC2_IntHandler s [latest]).delta_time2 = (latest : Int) - s.ic2.prev_time + 50000 ∧
    0 < (_IC2_IntHandler s [latest]).delta_time2 ∧
    (_IC2_IntHandler s [latest]).delta_time2 ≤ 50000 ∧
    (_IC2_IntHandler s [latest]).ic2.prev_T3_OV_Count_Local
      = wrapInt32 (wrapInt32 (s.T3_OV_Count : Int) + 1) ∧
    (wrapInt32 (s.T3_OV_Count : Int) < 2147483647 →
      (_IC2_IntHandler s [latest]).ic2.prev_T3_OV_Count_Local
        = wrapInt32 (s.T3_OV_Count : Int) + 1) ∧
    (s.ic2.prev_time = 49000 → latest = 2000 →
      (_IC2_IntHandler s [latest]).delta_time2 = 3000) ∧
    (s.T3_OV_Count = 12 → (_IC2_IntHandler s [latest]).ic2.prev_T3_OV_Count_Local = 13) := by
  have hmod : ((latest % 65536 : Nat) : Int) = (latest : Int) := by omega
  have hraw : wrapInt32 ((latest : Int) - s.ic2.prev_time) = (latest : Int) - s.ic2.prev_time :=
    wrapInt32_of_range (by omega) (by omega)
  have hcond : wrapInt32 (((latest % 65536 : Nat) : Int) - s.ic2.prev_time) ≤ 0 ∧
      wrapInt32 (s.T3_OV_Count : Int) = s.ic2.prev_T3_OV_Count_Local := by
    rw [hmod, hraw]
    exact ⟨by omega, hov⟩
  have hdelta : (_IC2_IntHandler s [latest]).delta_time2
      = (latest : Int) - s.ic2.prev_time + 50000 := by
    simp only [_IC2_IntHandler, drainIC2_single, if_pos hcond]
    rw [hmod, hraw]
    exact wrapInt32_of_range (by omega) (by omega)
  have hov1 : (_IC2_IntHandler s [latest]).ic2.prev_T3_OV_Count_Local
      = wrapInt32 (wrapInt32 (s.T3_OV_Count : Int) + 1) := by
    simp only [_IC2_IntHandler, drainIC2_single, if_pos hcond]
  refine ⟨hdelta, ?_, ?_, hov1, ?_, ?_, ?_⟩
  · rw [hdelta]; omega
  · rw [hdelta]; omega
  · intro hmax
    rw [hov1]
    apply wrapInt32_of_range
    · unfold wrapInt32; omega
    · omega
  · intro h1 h2
    rw [hdelta, h1, h2]
    norm_num
  · intro h
    rw [hov1, h]
    decide

/-- Witness of C6: edge A at counter value 49000 with overflow count 12, then
edge B at counter value 2000 before the overflow event has run. -/
theorem IC2_unserviced_overflow_witness :
    ((2000 : Nat) : Int) ≤ (run boot (List.replicate 12 .t3 ++ [.ic2 [49000]])).ic2.prev_time ∧
    (run boot (List.replicate 12 .t3 ++ [.ic2 [49000]])).ic2.prev_time < 50000 ∧
    wrapInt32 ((run boot (List.replicate 12 .t3 ++ [.ic2 [49000]])).T3_OV_Count : Int)
      = (run boot (List.replicate 12 .t3 ++ [.ic2 [49000]])).ic2.prev_T3_OV_Count_Local ∧
    (_IC2_IntHandler (run boot (List.replicate 12 .t3 ++ [.ic2 [49000]])) [2000]).delta_time2
      = 3000 ∧
    (_IC2_IntHandler (run boot (List.replicate 12 .t3 ++ [.ic2 [49000]]))
      [2000]).ic2.prev_T3_OV_Count_Local = 13 :=
by
  have h1 : ((2000 : Nat) : Int)
      ≤ (run boot (List.replicate 12 .t3 ++ [.ic2 [49000]])).ic2.prev_time := by decide
  have h2 : (run boot (List.replicate 12 .t3 ++ [.ic2 [49000]])).ic2.prev_time < 50000 := by
    decide
  have h3 : wrapInt32 ((run boot (List.replicate 12 .t3 ++ [.ic2 [49000]])).T3_OV_Count : Int)
      = (run boot (List.replicate 12 .t3 ++ [.ic2 [49000]])).ic2.prev_T3_OV_Count_Local := by
    decide
  have h4 : (run boot (List.replicate 12 .t3 ++ [.ic2 [49000]])).ic2.prev_time = 49000 := by
    decide
  have h5 : (run boot (List.replicate 12 .t3 ++ [.ic2 [49000]])).T3_OV_Count = 12 := by
    decide
  have h := IC2_unserviced_overflow (run boot (List.replicate 12 .t3 ++ [.ic2 [49000]])) 2000
  have h6 := h h1
  have h7 := h6 h2
  have h8 := h7 h3
  have h9 := h8.2.2.2.2.2.1 h4
  exact ⟨h1, h2, h3, h9 rfl, h8.2.2.2.2.2.2 h5⟩

/-- C7 (evaluation at the failing input): previous capture 49000, overflow
snapshot equal to the stored `prev_ov`, FIFO holding the timestamps 1000 and
6000. The drain loop corrects at the first timestamp and increments the local
overflow count, so at the newest timestamp the correction is not applied: the
handler reports `delta_time2 = -43000`, while the procedure of the
specification on the newest timestamp alone gives `7000`. -/
theorem drain_differs_from_newest_only :
    (run boot [.ic2 [49000]]).ic2.prev_time = 49000 ∧
    wrapInt32 ((run boot [.ic2 [49000]]).T3_OV_Count : Int)
      = (run boot [.ic2 [49000]]).ic2.prev_T3_OV_Count_Local ∧
    (_IC2_IntHandler (run boot [.ic2 [49000]]) [1000, 6000]).delta_time2 = -43000 ∧
    (_IC3_IntHandler (run boot [.ic3 [49000]]) [1000, 6000]).delta_time3 = -43000 ∧
    captureSpec (run boot [.ic2 [49000]]).ic2.prev_time
      (run boot [.ic2 [49000]]).ic2.prev_T3_OV_Count_Local
      (wrapInt32 ((run boot [.ic2 [49000]]).T3_OV_Count : Int)) 6000 = (7000, 1) ∧
    (_IC2_IntHandler (run boot [.ic2 [49000]]) [1000, 6000]).delta_time2
      ≠ (captureSpec (run boot [.ic2 [49000]]).ic2.prev_time
          (run boot [.ic2 [49000]]).ic2.prev_T3_OV_Count_Local
          (wrapInt32 ((run boot [.ic2 [49000]]).T3_OV_Count : Int)) 6000).1 := by
  decide

theorem convexForm_cons (a0 x : ℚ) (xs : List ℚ) :
    convexForm a0 (x :: xs) = convexForm (alpha * x + beta * a0) xs := by
  unfold convexForm alpha beta
  rw [List.length_cons, Finset.sum_range_succ']
  have hsum : ∑ k ∈ Finset.range xs.length,
        1 / 10 * ((9 : ℚ) / 10) ^ (xs.length + 1 - 1 - (k + 1)) * (x :: xs).getD (k + 1) 0
      = ∑ k ∈ Finset.range xs.length, 1 / 10 * (9 / 10) ^ (xs.length - 1 - k) * xs.getD k 0 := by
    apply Finset.sum_congr rfl
    intro k _
    have hk : xs.length + 1 - 1 - (k + 1) = xs.length - 1 - k := by omega
    rw [hk, List.getD_cons_succ]
  have h0 : xs.length + 1 - 1 - 0 = xs.length := by omega
  rw [hsum, h0, List.getD_cons_zero]
  ring

theorem run_cons (s : State) (e : Event) (es : List Event) :
    run s (e :: es) = run (step s e) es := rfl

theorem run_IC2_spd_avg (es : List Event) : ∀ s : State,
    (run s es).IC2_spd_avg = convexForm s.IC2_spd_avg (ic2Samples s es) := by
  induction es with
  | nil => intro s; simp [run, ic2Samples, convexForm]
  | cons e es ih =>
    intro s
    rw [run_cons, ih]
    cases e with
    | ic2 fifo => simp only [ic2Samples, convexForm_cons]; rfl
    | ic3 fifo => rfl
    | t3 => rfl
    | t5 p => rfl

theorem run_IC3_spd_avg (es : List Event) : ∀ s : State,
    (run s es).IC3_spd_avg = convexForm s.IC3_spd_avg (ic3Samples s es) := by
  induction es with
  | nil => intro s; simp [run, ic3Samples, convexForm]
  | cons e es ih =>
    intro s
    rw [run_cons, ih]
    cases e with
    | ic2 fifo => rfl
    | ic3 fifo => simp only [ic3Samples, convexForm_cons]; rfl
    | t3 => rfl
    | t5 p => rfl

theorem convexForm_mem (lo hi : ℚ) (xs : List ℚ) : ∀ a0 : ℚ,
    lo ≤ a0 → a0 ≤ hi → (∀ x ∈ xs, lo ≤ x ∧ x ≤ hi) →
    lo ≤ convexForm a0 xs ∧ convexForm a0 xs ≤ hi := by
  induction xs with
  | nil => intro a0 h1 h2 _; simpa [convexForm] using And.intro h1 h2
  | cons x xs ih =>
    intro a0 h1 h2 hx
    rw [convexForm_cons]
    have hx0 := hx x (List.mem_cons_self x xs)
    apply ih
    · unfold alpha beta; linarith [hx0.1]
    · unfold alpha beta; linarith [hx0.2]
    · intro y hy
      exact hx y (List.mem_cons_of_mem x hy)

theorem convexForm_ones (xs : List ℚ) : ∀ a0 : ℚ, (∀ x ∈ xs, x = 1) →
    convexForm a0 xs = 1 - (9 / 10) ^ xs.length * (1 - a0) := by
  induction xs with
  | nil => intro a0 _; simp [convexForm]
  | cons x xs ih =>
    intro a0 hx
    rw [convexForm_cons, ih _ (fun y hy => hx y (List.mem_cons_of_mem x hy)),
      hx x (List.mem_cons_self x xs), List.length_cons]
    unfold alpha beta
    ring

theorem ic2Samples_of_deltas (es : List Event) : ∀ s : State,
    (∀ d ∈ ic2Deltas s es, d = 5000) →
    (∀ x ∈ ic2Samples s es, x = 1) ∧ (ic2Samples s es).length = (ic2Deltas s es).length := by
  induction es with
  | nil => intro s _; simp [ic2Samples, ic2Deltas]
  | cons e es ih =>
    intro s hd
    cases e with
    | ic2 fifo =>
      simp only [ic2Deltas, List.mem_cons, forall_eq_or_imp] at hd
      have h := ih _ hd.2
      have hs : (_IC2_IntHandler s fifo).IC2_speed = 1 := by
        have hgen : (_IC2_IntHandler s fifo).IC2_speed =
            if (_IC2_IntHandler s fifo).delta_time2 > 500
            then 5000 / ((_IC2_IntHandler s fifo).delta_time2 : ℚ) else 2 := rfl
        rw [hgen, hd.1]
        norm_num
      simp only [ic2Samples, ic2Deltas, List.mem_cons, forall_eq_or_imp, List.length_cons]
      exact ⟨⟨hs, h.1⟩, by rw [h.2]⟩
    | ic3 fifo => exact ih _ hd
    | t3 => exact ih _ hd
    | t5 p => exact ih _ hd

theorem run_constant_interval (s : State) (es : List Event)
    (h0 : s.IC2_spd_avg = 0) (hd : ∀ d ∈ ic2Deltas s es, d = 5000) :
    (run s es).IC2_spd_avg = 1 - (9 / 10) ^ (ic2Deltas s es).length := by
  have h := ic2Samples_of_deltas es s hd
  rw [run_IC2_spd_avg, convexForm_ones _ _ h.1, h0, h.2]
  ring

/-! ## Claims on the smoothing filter -/

theorem Timer5Handler_OC3R (s : State) (p : Pins) :
    (Timer5Handler s p).OC3R = toHWORD (boundOutput (temp_output_pre s)) ∧
    (Timer5Handler s p).OC3RS = toHWORD (boundOutput (temp_output_pre s)) := ⟨rfl, rfl⟩

theorem Timer5Handler_OC2R (s : State) (p : Pins) :
    (Timer5Handler s p).OC2R = toHWORD (boundOutput (temp_output2_pre s)) ∧
    (Timer5Handler s p).OC2RS = toHWORD (boundOutput (temp_output2_pre s)) := ⟨rfl, rfl⟩

theorem Timer5Handler_hist4 (s : State) (p : Pins) :
    (Timer5Handler s p).hist4 s.t5.index = temp_output_pre s := by
  simp only [Timer5Handler, temp_output_pre, Function.update_same]

theorem temp_output_pre_boot : temp_output_pre boot = 8325 / 4 := by
  norm_num [temp_output_pre, boot, boundIntegral]

theorem temp_output2_pre_boot : temp_output2_pre boot = 1665 := by
  norm_num [temp_output2_pre, boot, boundIntegral]

/-! ## Claims on the first control tick -/

/-- C11 (counterexample): on the first control tick after boot the left
controller's output before saturation is not 1900 and the right controller's
is not 2375. -/
theorem cold_start_not_as_claimed :
    temp_output2_pre boot ≠ 1900 ∧ temp_output_pre boot ≠ 2375 ∧
    (Timer5Handler boot Pins.low).hist4 boot.t5.index ≠ 2375 ∧
    (Timer5Handler boot Pins.low).OC2R ≠ 1900 ∧
    (Timer5Handler boot Pins.low).OC3R ≠ 2375 := by
  have hR := temp_output_pre_boot
  have hL := temp_output2_pre_boot
  refine ⟨by rw [hL]; norm_num, by rw [hR]; norm_num, ?_, ?_, ?_⟩
  · rw [Timer5Handler_hist4, hR]; norm_num
  · rw [(Timer5Handler_OC2R boot Pins.low).1, hL]; norm_num [boundOutput, toHWORD]; decide
  · rw [(Timer5Handler_OC3R boot Pins.low).1, hR]; norm_num [boundOutput, toHWORD]; decide

/-- C11 (amended): on the first control tick after boot (integrals 0, previous
errors 0, smoothed speeds 0, `Kp = Kp2 = 2500`, set-points 0.60 left and 0.75
right) the errors are 0.60 and 0.75, the integrals become 0.60 and 0.75, the
left controller's output before saturation is `1500 + 150 + 15 = 1665` and the
right controller's is `1875 + 187.5 + 18.75 = 2081.25` (the value traced in
`hist4`, with the three terms in `hist1`, `hist2`, `hist3`); saturation changes
neither, and the registers receive 1665 and 2081. -/
theorem cold_start_outputs (p : Pins) :
    (Timer5Handler boot p).err2 = 3 / 5 ∧ (Timer5Handler boot p).err = 3 / 4 ∧
    (Timer5Handler boot p).integral_error2 = 3 / 5 ∧
    (Timer5Handler boot p).integral_error = 3 / 4 ∧
    (temp_output2_pre boot = 1500 + 150 + 15 ∧ temp_output2_pre boot = 1665) ∧
    (temp_output_pre boot = 1875 + 375 / 2 + 75 / 4 ∧ temp_output_pre boot = 8325 / 4) ∧
    ((Timer5Handler boot p).hist1 boot.t5.index = 1875 ∧
      (Timer5Handler boot p).hist2 boot.t5.index = 375 / 2 ∧
      (Timer5Handler boot p).hist3 boot.t5.index = 75 / 4 ∧
      (Timer5Handler boot p).hist4 boot.t5.index = 8325 / 4) ∧
    (boundOutput (temp_output2_pre boot) = temp_output2_pre boot ∧
      boundOutput (temp_output_pre boot) = temp_output_pre boot) ∧
    ((Timer5Handler boot p).OC2R = 1665 ∧ (Timer5Handler boot p).OC2RS = 1665 ∧
      (Timer5Handler boot p).OC3R = 2081 ∧ (Timer5Handler boot p).OC3RS = 2081) := by
  have hR := temp_output_pre_boot
  have hL := temp_output2_pre_boot
  have hbR : boundOutput (temp_output_pre boot) = temp_output_pre boot := by
    rw [hR]; norm_num [boundOutput]
  have hbL : boundOutput (temp_output2_pre boot) = temp_output2_pre boot := by
    rw [hL]; norm_num [boundOutput]
  have h2 : toHWORD (boundOutput (temp_output2_pre boot)) = 1665 := by
    rw [hbL, hL]; norm_num [toHWORD]; rfl
  have h3 : toHWORD (boundOutput (temp_output_pre boot)) = 2081 := by
    rw [hbR, hR]; norm_num [toHWORD]; rfl
  refine ⟨?_, ?_, ?_, ?_, ⟨by rw [hL]; norm_num, hL⟩, ⟨by rw [hR]; norm_num, hR⟩,
    ⟨?_, ?_, ?_, ?_⟩, ⟨hbL, hbR⟩, ?_, ?_, ?_, ?_⟩
  · norm_num [Timer5Handler, boot]
  · norm_num [Timer5Handler, boot]
  · norm_num [Timer5Handler, boot, boundIntegral]
  · norm_num [Timer5Handler, boot, boundIntegral]
  · norm_num [Timer5Handler, boot]
  · norm_num [Timer5Handler, boot, boundIntegral]
  · norm_num [Timer5Handler, boot]
  · rw [Timer5Handler_hist4, hR]
  · rw [(Timer5Handler_OC2R boot p).1, h2]
  · rw [(Timer5Handler_OC2R boot p).2, h2]
  · rw [(Timer5Handler_OC3R boot p).1, h3]
  · rw [(Timer5Handler_OC3R boot p).2, h3]

/-! ## Lemmas on the stalled wheel -/

theorem boundOutput_mono {u v : ℚ} (h : u ≤ v) : boundOutput u ≤ boundOutput v := by
  rw [boundOutput_eq_clamp, boundOutput_eq_clamp]
  exact max_le_max le_rfl (min_le_min le_rfl h)

theorem toHWORD_boundOutput_mono {u v : ℚ} (h : u ≤ v) :
    toHWORD (boundOutput u) ≤ toHWORD (boundOutput v) := by
  rw [toHWORD_eq_floor (by linarith [boundOutput_ge u]) (by linarith [boundOutput_le u]),
    toHWORD_eq_floor (by linarith [boundOutput_ge v]) (by linarith [boundOutput_le v])]
  exact Int.toNat_le_toNat (Int.floor_mono (boundOutput_mono h))

theorem toHWORD_boundOutput_max {u : ℚ} (h : 9999 ≤ u) : toHWORD (boundOutput u) = 9999 := by
  have hb : boundOutput u = 9999 := le_antisymm (boundOutput_le u)
    (le_trans (by norm_num [boundOutput]) (boundOutput_mono h))
  rw [hb]
  norm_num [toHWORD]
  rfl

theorem toHWORD_boundOutput_lt {u : ℚ} (h : u < 9999) : toHWORD (boundOutput u) < 9999 := by
  have hb : boundOutput u < 9999 := by
    unfold boundOutput
    split_ifs with h1 h2
    · linarith
    · norm_num
    · exact h
  rw [toHWORD_eq_floor (by linarith [boundOutput_ge u]) (by linarith)]
  have h1 : ⌊boundOutput u⌋ < 9999 := by
    have : (⌊boundOutput u⌋ : ℚ) ≤ boundOutput u := Int.floor_le _
    have h2 : (⌊boundOutput u⌋ : ℚ) < 9999 := lt_of_le_of_lt this hb
    exact_mod_cast h2
  have h0 : 0 ≤ ⌊boundOutput u⌋ := Int.floor_nonneg.mpr (by linarith [boundOutput_ge u])
  omega

theorem boundIntegral_stall {sp : ℚ} (hsp : 0 ≤ sp) (n : ℕ) :
    boundIntegral (2500 / 10) (min (sp * (n : ℚ)) 100 + sp) = min (sp * ((n + 1 : ℕ) : ℚ)) 100 := by
  have hn : (0 : ℚ) ≤ (n : ℚ) := Nat.cast_nonneg n
  have hprod : 0 ≤ sp * (n : ℚ) := mul_nonneg hsp hn
  have hcast : ((n + 1 : ℕ) : ℚ) = (n : ℚ) + 1 := by push_cast; ring
  rw [hcast]
  unfold boundIntegral
  rw [if_neg (by norm_num)]
  have e1 : (25000 : ℚ) / (2500 / 10) = 100 := by norm_num
  have e2 : (-25000 : ℚ) / (2500 / 10) = -100 := by norm_num
  rw [e1, e2]
  rcases le_total (sp * (n : ℚ)) 100 with h | h
  · rw [min_eq_left h]
    have e3 : sp * (n : ℚ) + sp = sp * ((n : ℚ) + 1) := by ring
    rw [e3]
    split_ifs with h1 h2
    · rw [min_eq_right (le_of_lt h1)]
    · exfalso; rw [← e3] at h2; linarith
    · rw [min_eq_left (not_lt.mp h1)]
  · rw [min_eq_right h]
    have h3 : 100 ≤ sp * ((n : ℚ) + 1) := by linarith [mul_add sp (n : ℚ) 1]
    rw [min_eq_right h3]
    split_ifs with h1 h2
    · rfl
    · exfalso; linarith
    · linarith [not_lt.mp h1]

theorem stallOutput_mono (sp : ℚ) (h0 : 0 ≤ sp) (h1 : sp ≤ 1) {n m : ℕ}
    (hn : 1 ≤ n) (hnm : n ≤ m) : stallOutput sp n ≤ stallOutput sp m := by
  unfold stallOutput
  have hcast : (n : ℚ) ≤ (m : ℚ) := by exact_mod_cast hnm
  have hmin : min (sp * (n : ℚ)) 100 ≤ min (sp * (m : ℚ)) 100 :=
    min_le_min (mul_le_mul_of_nonneg_left hcast h0) le_rfl
  by_cases hn1 : n = 1
  · by_cases hm1 : m = 1
    · rw [hn1, hm1]
    · rw [if_pos hn1, if_neg hm1, hn1]
      have hm2 : (2 : ℚ) ≤ (m : ℚ) := by
        have : 2 ≤ m := by omega
        exact_mod_cast this
      have hA : min (sp * ((1 : ℕ) : ℚ)) 100 ≤ sp := by
        simp
      have hB : min (2 * sp) 100 ≤ min (sp * (m : ℚ)) 100 :=
        min_le_min (by nlinarith) le_rfl
      have hC : (275 : ℚ) / 250 * sp ≤ min (2 * sp) 100 := le_min (by linarith) (by linarith)
      linarith
  · have hm1 : m ≠ 1 := by omega
    rw [if_neg hn1, if_neg hm1]
    linarith

theorem stallInv_boot : StallInv 0 boot := by
  unfold StallInv
  norm_num [boot]

theorem stallInv_tick (n : ℕ) (s : State) (p : Pins) (h : StallInv n s) :
    StallInv (n + 1) (Timer5Handler s p) := by
  obtain ⟨hKp, hKp2, hd, hd2, hv3, hv2, hi, hi2, hp, hp2, _, _⟩ := h
  have hR : temp_output_pre s = stallOutput (3 / 4) (n + 1) := by
    simp only [temp_output_pre, stallOutput, hKp, hd, hv3, hi, hp, sub_zero]
    rw [boundIntegral_stall (by norm_num) n]
    by_cases hn : n = 0
    · simp [hn]; norm_num
    · simp [hn]; norm_num
  have hL : temp_output2_pre s = stallOutput (3 / 5) (n + 1) := by
    simp only [temp_output2_pre, stallOutput, hKp2, hd2, hv2, hi2, hp2, sub_zero]
    rw [boundIntegral_stall (by norm_num) n]
    by_cases hn : n = 0
    · simp [hn]; norm_num
    · simp [hn]; norm_num
  have hiR : (Timer5Handler s p).integral_error = min (3 / 4 * ((n + 1 : ℕ) : ℚ)) 100 := by
    simp only [Timer5Handler, hKp, hd, hv3, hi, sub_zero]
    exact boundIntegral_stall (by norm_num) n
  have hiL : (Timer5Handler s p).integral_error2 = min (3 / 5 * ((n + 1 : ℕ) : ℚ)) 100 := by
    simp only [Timer5Handler, hKp2, hd2, hv2, hi2, sub_zero]
    exact boundIntegral_stall (by norm_num) n
  refine ⟨hKp, hKp2, hd, hd2, hv3, hv2, hiR, hiL, ?_, ?_, ?_, ?_⟩
  · simp only [Timer5Handler, hd, hv3, sub_zero, Nat.succ_ne_zero, if_false]
  · simp only [Timer5Handler, hd2, hv2, sub_zero, Nat.succ_ne_zero, if_false]
  · intro h0; omega
  · intro _
    rw [← hR, ← hL]
    exact ⟨rfl, rfl, rfl, rfl⟩

theorem stallInv_run (es : List Event) : ∀ (n : ℕ) (s : State),
    (∀ e ∈ es, e.isCapture = false) → StallInv n s → StallInv (n + ticks es) (run s es) := by
  induction es with
  | nil => intro n s _ h; simpa [ticks, run] using h
  | cons e es ih =>
    intro n s hes h
    have hrest : ∀ e' ∈ es, e'.isCapture = false :=
      fun e' he' => hes e' (List.mem_cons_of_mem e he')
    have he := hes e (List.mem_cons_self e es)
    cases e with
    | ic2 fifo => simp [Event.isCapture] at he
    | ic3 fifo => simp [Event.isCapture] at he
    | t3 =>
      have h1 : StallInv n (step s .t3) := h
      have h2 := ih n _ hrest h1
      have e1 : ticks (Event.t3 :: es) = ticks es := by simp [ticks, Event.isTick]
      rw [e1, run_cons]
      exact h2
    | t5 p =>
      have h1 : StallInv (n + 1) (step s (.t5 p)) := stallInv_tick n s p h
      have h2 := ih (n + 1) _ hrest h1
      have e1 : ticks (Event.t5 p :: es) = ticks es + 1 := by simp [ticks, Event.isTick]
      have e2 : n + (ticks es + 1) = n + 1 + ticks es := by omega
      rw [e1, run_cons, e2]
      exact h2

theorem ticks_append (es es' : List Event) : ticks (es ++ es') = ticks es + ticks es' := by
  simp [ticks]

/-! ## Claim on the stalled wheel -/

/-- C12: stall. Starting from the boot state with no capture events (only
control ticks and overflow events), the duty in each compare register is
non-decreasing along the run, the right wheel's duty is 9999 from the 44th
tick on and below 9999 before, the left wheel's duty is 9999 from the 57th
tick on and below 9999 before, the smoothed speeds stay 0 and neither integral
exceeds 100. -/
theorem stall_duty_saturates (es es' : List Event)
    (hes : ∀ e ∈ es, e.isCapture = false) (hes' : ∀ e ∈ es', e.isCapture = false) :
    ((run boot es).OC3R ≤ (run boot (es ++ es')).OC3R ∧
      (run boot es).OC3RS ≤ (run boot (es ++ es')).OC3RS ∧
      (run boot es).OC2R ≤ (run boot (es ++ es')).OC2R ∧
      (run boot es).OC2RS ≤ (run boot (es ++ es')).OC2RS) ∧
    (44 ≤ ticks es → (run boot es).OC3R = 9999 ∧ (run boot es).OC3RS = 9999) ∧
    (ticks es < 44 → (run boot es).OC3R < 9999 ∧ (run boot es).OC3RS < 9999) ∧
    (57 ≤ ticks es → (run boot es).OC2R = 9999 ∧ (run boot es).OC2RS = 9999) ∧
    (ticks es < 57 → (run boot es).OC2R < 9999 ∧ (run boot es).OC2RS < 9999) ∧
    ((run boot es).IC3_spd_avg = 0 ∧ (run boot es).IC2_spd_avg = 0) ∧
    ((run boot es).integral_error ≤ 100 ∧ (run boot es).integral_error2 ≤ 100) := by
  have hall : ∀ e ∈ es ++ es', e.isCapture = false := by
    intro e he
    rcases List.mem_append.mp he with h | h
    · exact hes e h
    · exact hes' e h
  have h1 := stallInv_run es 0 boot hes stallInv_boot
  have h2 := stallInv_run (es ++ es') 0 boot hall stallInv_boot
  rw [Nat.zero_add] at h1 h2
  rw [ticks_append] at h2
  obtain ⟨_, _, _, _, hv3, hv2, hi, hi2, _, _, hz, hd⟩ := h1
  obtain ⟨_, _, _, _, _, _, _, _, _, _, _, hd'⟩ := h2
  have hcast : ∀ n : ℕ, (0 : ℚ) ≤ (n : ℚ) := fun n => Nat.cast_nonneg n
  refine ⟨?_, ?_, ?_, ?_, ?_, ⟨hv3, hv2⟩, ?_, ?_⟩
  · rcases Nat.eq_zero_or_pos (ticks es) with h0 | hpos
    · obtain ⟨a, b, c, d⟩ := hz h0
      rw [a, b, c, d]
      exact ⟨Nat.zero_le _, Nat.zero_le _, Nat.zero_le _, Nat.zero_le _⟩
    · obtain ⟨a, b, c, d⟩ := hd hpos
      obtain ⟨a', b', c', d'⟩ := hd' (by omega)
      rw [a, b, c, d, a', b', c', d']
      have mR := toHWORD_boundOutput_mono
        (stallOutput_mono (3 / 4) (by norm_num) (by norm_num) hpos
          (Nat.le_add_right (ticks es) (ticks es')))
      have mL := toHWORD_boundOutput_mono
        (stallOutput_mono (3 / 5) (by norm_num) (by norm_num) hpos
          (Nat.le_add_right (ticks es) (ticks es')))
      exact ⟨mR, mR, mL, mL⟩
  · intro h44
    obtain ⟨a, b, _, _⟩ := hd (by omega)
    have hge : (9999 : ℚ) ≤ stallOutput (3 / 4) (ticks es) := by
      unfold stallOutput
      have hc : (44 : ℚ) ≤ (ticks es : ℚ) := by exact_mod_cast h44
      have hm : (33 : ℚ) ≤ min (3 / 4 * (ticks es : ℚ)) 100 := le_min (by linarith) (by norm_num)
      have hD : (0 : ℚ) ≤ 25 * (if ticks es = 1 then (3 : ℚ) / 4 else 0) := by
        split_ifs <;> norm_num
      linarith
    rw [a, b, toHWORD_boundOutput_max hge]
    exact ⟨rfl, rfl⟩
  · intro h44
    rcases Nat.eq_zero_or_pos (ticks es) with h0 | hpos
    · obtain ⟨a, b, _, _⟩ := hz h0
      rw [a, b]
      exact ⟨by norm_num, by norm_num⟩
    · obtain ⟨a, b, _, _⟩ := hd hpos
      have hlt : stallOutput (3 / 4) (ticks es) < 9999 := by
        unfold stallOutput
        have hc : (ticks es : ℚ) ≤ 43 := by
          have : ticks es ≤ 43 := by omega
          exact_mod_cast this
        have hm : min (3 / 4 * (ticks es : ℚ)) 100 ≤ 3 / 4 * (ticks es : ℚ) := min_le_left _ _
        have hD : 25 * (if ticks es = 1 then (3 : ℚ) / 4 else 0) ≤ 75 / 4 := by
          split_ifs <;> norm_num
        linarith
      rw [a, b]
      exact ⟨toHWORD_boundOutput_lt hlt, toHWORD_boundOutput_lt hlt⟩
  · intro h57
    obtain ⟨_, _, c, d⟩ := hd (by omega)
    have hge : (9999 : ℚ) ≤ stallOutput (3 / 5) (ticks es) := by
      unfold stallOutput
      have hc : (57 : ℚ) ≤ (ticks es : ℚ) := by exact_mod_cast h57
      have hm : (171 : ℚ) / 5 ≤ min (3 / 5 * (ticks es : ℚ)) 100 :=
        le_min (by linarith) (by norm_num)
      have hD : (0 : ℚ) ≤ 25 * (if ticks es = 1 then (3 : ℚ) / 5 else 0) := by
        split_ifs <;> norm_num
      linarith
    rw [c, d, toHWORD_boundOutput_max hge]
    exact ⟨rfl, rfl⟩
  · intro h57
    rcases Nat.eq_zero_or_pos (ticks es) with h0 | hpos
    · obtain ⟨_, _, c, d⟩ := hz h0
      rw [c, d]
      exact ⟨by norm_num, by norm_num⟩
    · obtain ⟨_, _, c, d⟩ := hd hpos
      have hlt : stallOutput (3 / 5) (ticks es) < 9999 := by
        unfold stallOutput
        have hc : (ticks es : ℚ) ≤ 56 := by
          have : ticks es ≤ 56 := by omega
          exact_mod_cast this
        have hm : min (3 / 5 * (ticks es : ℚ)) 100 ≤ 3 / 5 * (ticks es : ℚ) := min_le_left _ _
        have hD : 25 * (if ticks es = 1 then (3 : ℚ) / 5 else 0) ≤ 15 := by
          split_ifs <;> norm_num
        linarith
      rw [c, d]
      exact ⟨toHWORD_boundOutput_lt hlt, toHWORD_boundOutput_lt hlt⟩
  · rw [hi]; exact min_le_right _ _
  · rw [hi2]; exact min_le_right _ _

/-- Witness of C12: two control ticks with an overflow event between them,
then one more tick. -/
theorem stall_duty_saturates_witness :
    (∀ e ∈ [Event.t5 Pins.low, Event.t3, Event.t5 Pins.low], e.isCapture = false) ∧
    (∀ e ∈ [Event.t5 Pins.low], e.isCapture = false) ∧
    (run boot [Event.t5 Pins.low, Event.t3, Event.t5 Pins.low]).OC3R
      ≤ (run boot ([Event.t5 Pins.low, Event.t3, Event.t5 Pins.low]
          ++ [Event.t5 Pins.low])).OC3R ∧
    (run boot [Event.t5 Pins.low, Event.t3, Event.t5 Pins.low]).integral_error ≤ 100 := by
  have h1 : ∀ e ∈ [Event.t5 Pins.low, Event.t3, Event.t5 Pins.low], e.isCapture = false := by
    simp [Event.isCapture]
  have h2 : ∀ e ∈ [Event.t5 Pins.low], e.isCapture = false := by
    simp [Event.isCapture]
  have h := stall_duty_saturates [Event.t5 Pins.low, Event.t3, Event.t5 Pins.low]
    [Event.t5 Pins.low]
  have h3 := h h1
  have h4 := h3 h2
  exact ⟨h1, h2, h4.1.1, h4.2.2.2.2.2.2.1⟩

/-! ## Lemmas on perfect tracking -/

theorem run_append (s : State) (es es' : List Event) :
    run s (es ++ es') = run (run s es) es' := by
  simp [run, List.foldl_append]

theorem Timer5Handler_index (s : State) (p : Pins)
    (h0 : 0 ≤ s.t5.index) (h1 : s.t5.index < 500) :
    (Timer5Handler s p).t5.index = (s.t5.index + 1) % 500 := by
  simp only [Timer5Handler]
  rw [wrapInt32_of_range (by omega) (by omega)]
  split_ifs with h <;> omega

theorem run_index (es : List Event) : ∀ s : State,
    0 ≤ s.t5.index → s.t5.index < 500 →
    (run s es).t5.index = (s.t5.index + (ticks es : Int)) % 500 := by
  induction es with
  | nil =>
    intro s h0 h1
    simp only [run, List.foldl_nil, ticks, List.countP_nil]
    omega
  | cons e es ih =>
    intro s h0 h1
    rw [run_cons]
    cases e with
    | ic2 fifo =>
      have e1 : ticks (Event.ic2 fifo :: es) = ticks es := by simp [ticks, Event.isTick]
      rw [e1]; exact ih _ h0 h1
    | ic3 fifo =>
      have e1 : ticks (Event.ic3 fifo :: es) = ticks es := by simp [ticks, Event.isTick]
      rw [e1]; exact ih _ h0 h1
    | t3 =>
      have e1 : ticks (Event.t3 :: es) = ticks es := by simp [ticks, Event.isTick]
      rw [e1]; exact ih _ h0 h1
    | t5 p =>
      have e1 : ticks (Event.t5 p :: es) = ticks es + 1 := by simp [ticks, Event.isTick]
      have hi := Timer5Handler_index s p h0 h1
      have h2 := ih (step s (.t5 p)) (by show 0 ≤ (Timer5Handler s p).t5.index; omega)
        (by show (Timer5Handler s p).t5.index < 500; omega)
      rw [h2, e1]
      show ((Timer5Handler s p).t5.index + (ticks es : Int)) % 500 = _
      rw [hi]
      push_cast
      omega

theorem Timer5Handler_traceSlot (s : State) (p : Pins) :
    traceSlot (Timer5Handler s p) s.t5.index = traceRecord s := by
  simp only [traceSlot, traceRecord, Timer5Handler, Function.update_same]

theorem Timer5Handler_traceSlot_ne (s : State) (p : Pins) (i : Int) (h : i ≠ s.t5.index) :
    traceSlot (Timer5Handler s p) i = traceSlot s i := by
  simp only [traceSlot, Timer5Handler, Function.update_noteq h]

theorem run_traceSlot_kept (es : List Event) : ∀ (s : State) (a : Int) (d : ℕ),
    0 ≤ a → a < 500 → s.t5.index = (a + 1 + (d : Int)) % 500 → d + ticks es < 500 →
    traceSlot (run s es) a = traceSlot s a := by
  induction es with
  | nil => intro s a d _ _ _ _; rfl
  | cons e es ih =>
    intro s a d ha0 ha1 hidx hd
    rw [run_cons]
    cases e with
    | ic2 fifo =>
      have e1 : ticks (Event.ic2 fifo :: es) = ticks es := by simp [ticks, Event.isTick]
      rw [e1] at hd
      exact ih (step s (.ic2 fifo)) a d ha0 ha1 hidx hd
    | ic3 fifo =>
      have e1 : ticks (Event.ic3 fifo :: es) = ticks es := by simp [ticks, Event.isTick]
      rw [e1] at hd
      exact ih (step s (.ic3 fifo)) a d ha0 ha1 hidx hd
    | t3 =>
      have e1 : ticks (Event.t3 :: es) = ticks es := by simp [ticks, Event.isTick]
      rw [e1] at hd
      exact ih (step s .t3) a d ha0 ha1 hidx hd
    | t5 p =>
      have e1 : ticks (Event.t5 p :: es) = ticks es + 1 := by simp [ticks, Event.isTick]
      rw [e1] at hd
      have h0 : 0 ≤ s.t5.index := by omega
      have h1 : s.t5.index < 500 := by omega
      have hi := Timer5Handler_index s p h0 h1
      have hne : a ≠ s.t5.index := by omega
      have hstep : traceSlot (step s (.t5 p)) a = traceSlot s a :=
        Timer5Handler_traceSlot_ne s p a hne
      have h2 := ih (step s (.t5 p)) a (d + 1) ha0 ha1
        (by show (Timer5Handler s p).t5.index = _; rw [hi]; push_cast; omega) (by omega)
      rw [h2, hstep]

theorem run_boot_index (es : List Event) :
    (run boot es).t5.index = ((ticks es % 500 : ℕ) : Int) := by
  have h := run_index es boot (by decide) (by decide)
  rw [h]
  have : boot.t5.index = 0 := rfl
  rw [this]
  push_cast
  omega

/-! ## Claims on the trace -/

/-- C14: the trace is a ring of 500 slots. After any event sequence from boot
containing `k` control ticks the trace index is `k mod 500`, so the next tick
(tick number `k`, counting from 0) writes its record to slot `k mod 500` of
`hist0 .. hist5` and changes no other slot; capture and overflow events write
no slot. The record stays in its slot as long as fewer than 500 further ticks
have run, so after `n ≥ 500` ticks the arrays hold the records of the 500 most
recent ticks; and the tick 500 steps later (number `k + 500`) writes its own
record over it. -/
theorem trace_ring (es1 es2 es3 : List Event) (p q : Pins) :
    (run boot es1).t5.index = ((ticks es1 % 500 : ℕ) : Int) ∧
    traceSlot (run boot (es1 ++ [Event.t5 p])) ((ticks es1 % 500 : ℕ) : Int)
      = traceRecord (run boot es1) ∧
    (∀ i : Int, i ≠ ((ticks es1 % 500 : ℕ) : Int) →
      traceSlot (run boot (es1 ++ [Event.t5 p])) i = traceSlot (run boot es1) i) ∧
    (∀ (s : State) (fifo : List Nat) (i : Int),
      traceSlot (_IC2_IntHandler s fifo) i = traceSlot s i ∧
      traceSlot (_IC3_IntHandler s fifo) i = traceSlot s i ∧
      traceSlot (Timer3Handler s) i = traceSlot s i) ∧
    (ticks es2 < 500 →
      traceSlot (run boot (es1 ++ Event.t5 p :: es2)) ((ticks es1 % 500 : ℕ) : Int)
        = traceRecord (run boot es1)) ∧
    (ticks es3 = ticks es1 + 500 →
      traceSlot (run boot (es3 ++ [Event.t5 q])) ((ticks es1 % 500 : ℕ) : Int)
        = traceRecord (run boot es3)) := by
  have hidx := run_boot_index es1
  have hone : ∀ (es : List Event) (r : Pins),
      run boot (es ++ [Event.t5 r]) = Timer5Handler (run boot es) r := by
    intro es r
    rw [run_append]
    rfl
  refine ⟨hidx, ?_, ?_, ?_, ?_, ?_⟩
  · rw [hone, ← hidx]
    exact Timer5Handler_traceSlot _ _
  · intro i hi
    rw [hone]
    exact Timer5Handler_traceSlot_ne _ _ i (by rw [hidx]; exact hi)
  · intro s fifo i
    exact ⟨rfl, rfl, rfl⟩
  · intro h2
    have e1 : run boot (es1 ++ Event.t5 p :: es2)
        = run (Timer5Handler (run boot es1) p) es2 := by
      rw [run_append]
      rfl
    have h0 : (0 : Int) ≤ (run boot es1).t5.index := by rw [hidx]; omega
    have h1 : (run boot es1).t5.index < 500 := by rw [hidx]; omega
    have hi := Timer5Handler_index (run boot es1) p h0 h1
    have hk := run_traceSlot_kept es2 (Timer5Handler (run boot es1) p)
      ((ticks es1 % 500 : ℕ) : Int) 0 (by omega) (by omega)
      (by rw [hi, hidx]; push_cast; omega) (by omega)
    rw [e1, hk, ← hidx]
    exact Timer5Handler_traceSlot _ _
  · intro h3
    have hidx3 := run_boot_index es3
    have e3 : ((ticks es1 % 500 : ℕ) : Int) = (run boot es3).t5.index := by
      rw [hidx3, h3]
      push_cast
      omega
    rw [hone, e3]
    exact Timer5Handler_traceSlot _ _

/-- Witness of C14: 501 control ticks from boot; the record of tick 1 is still
in slot 1 after the following 499 ticks. -/
theorem trace_ring_witness :
    ticks (List.replicate 499 (Event.t5 Pins.low)) < 500 ∧
    traceSlot (run boot ([Event.t5 Pins.low] ++ Event.t5 Pins.low ::
        List.replicate 499 (Event.t5 Pins.low)))
      ((ticks [Event.t5 Pins.low] % 500 : ℕ) : Int)
      = traceRecord (run boot [Event.t5 Pins.low]) := by
  have h1 : ticks (List.replicate 499 (Event.t5 Pins.low)) < 500 := by
    unfold ticks
    rw [List.countP_replicate]
    simp only [Event.isTick, if_true]
    omega
  exact ⟨h1, (trace_ring [Event.t5 Pins.low] (List.replicate 499 (Event.t5 Pins.low)) []
    Pins.low Pins.low).2.2.2.2.1 h1⟩

/-- C15: the trace record written by one run of `Timer5Handler` at the current
index is `hist0` = right smoothed speed, `hist1 = Kp * err`, `hist2 = Ki *
integ` with the integral after bounding, `hist3 = Kd * (err - prev_err)`,
`hist4` = the right controller's output before saturation, `hist5` = left
smoothed speed, where `err`, `Ki`, `Kd` and the integral are the values of the
program variables after the run. In exact arithmetic `hist4 = hist1 + hist2 +
hist3`, and the duty written to `OC3R` and `OC3RS` is `clamp(hist4, 800, 9999)`
converted to the register's integer type (its integer part). -/
theorem trace_record_content (s : State) (p : Pins) :
    (Timer5Handler s p).hist0 s.t5.index = s.IC3_spd_avg ∧
    (Timer5Handler s p).err = s.desired_spd - s.IC3_spd_avg ∧
    (Timer5Handler s p).hist1 s.t5.index = s.Kp * (Timer5Handler s p).err ∧
    (Timer5Handler s p).hist2 s.t5.index
      = (Timer5Handler s p).Ki * (Timer5Handler s p).integral_error ∧
    (Timer5Handler s p).hist3 s.t5.index
      = (Timer5Handler s p).Kd * ((Timer5Handler s p).err - s.t5.prev_error) ∧
    (Timer5Handler s p).hist4 s.t5.index = temp_output_pre s ∧
    (Timer5Handler s p).hist5 s.t5.index = s.IC2_spd_avg ∧
    (Timer5Handler s p).hist4 s.t5.index
      = (Timer5Handler s p).hist1 s.t5.index + (Timer5Handler s p).hist2 s.t5.index
        + (Timer5Handler s p).hist3 s.t5.index ∧
    (Timer5Handler s p).OC3R = toHWORD (clamp ((Timer5Handler s p).hist4 s.t5.index) 800 9999) ∧
    (Timer5Handler s p).OC3RS = toHWORD (clamp ((Timer5Handler s p).hist4 s.t5.index) 800 9999) ∧
    (((Timer5Handler s p).OC3R : ℚ) ≤ clamp ((Timer5Handler s p).hist4 s.t5.index) 800 9999 ∧
      clamp ((Timer5Handler s p).hist4 s.t5.index) 800 9999
        < ((Timer5Handler s p).OC3R : ℚ) + 1) := by
  have h4 := Timer5Handler_hist4 s p
  have hO := Timer5Handler_OC3R s p
  have hfl : ((toHWORD (boundOutput (temp_output_pre s)) : ℕ) : ℚ)
      = ((⌊boundOutput (temp_output_pre s)⌋ : Int) : ℚ) := by
    rw [toHWORD_eq_floor (by linarith [boundOutput_ge (temp_output_pre s)])
      (by linarith [boundOutput_le (temp_output_pre s)])]
    have h0 : 0 ≤ ⌊boundOutput (temp_output_pre s)⌋ :=
      Int.floor_nonneg.mpr (by linarith [boundOutput_ge (temp_output_pre s)])
    have := Int.toNat_of_nonneg h0
    exact_mod_cast this
  refine ⟨?_, rfl, ?_, ?_, ?_, h4, ?_, ?_, ?_, ?_, ?_, ?_⟩
  · simp only [Timer5Handler, Function.update_same]
  · simp only [Timer5Handler, Function.update_same]
  · simp only [Timer5Handler, Function.update_same]
  · simp only [Timer5Handler, Function.update_same]
  · simp only [Timer5Handler, Function.update_same]
  · simp only [Timer5Handler, Function.update_same]
  · rw [h4, hO.1, boundOutput_eq_clamp]
  · rw [h4, hO.2, boundOutput_eq_clamp]
  · rw [h4, hO.1, hfl, ← boundOutput_eq_clamp]
    exact Int.floor_le _
  · rw [h4, hO.1, hfl, ← boundOutput_eq_clamp]
    exact Int.lt_floor_add_one _

/-! ## Lemmas on frame conditions -/

theorem step_controlView (s : State) (e : Event) (h : e.isTick = false) :
    controlView (step s e) = controlView s := by
  cases e with
  | ic2 fifo => rfl
  | ic3 fifo => rfl
  | t3 => rfl
  | t5 p => simp [Event.isTick] at h

theorem run_controlView (es : List Event) : ∀ s : State,
    (∀ e ∈ es, e.isTick = false) → controlView (run s es) = controlView s := by
  induction es with
  | nil => intro s _; rfl
  | cons e es ih =>
    intro s hes
    rw [run_cons, ih _ (fun e' he' => hes e' (List.mem_cons_of_mem e he'))]
    exact step_controlView s e (hes e (List.mem_cons_self e es))

theorem run_spd_avg_no_capture (es : List Event) : ∀ s : State,
    (∀ e ∈ es, e.isCapture = false) →
    (run s es).IC3_spd_avg = s.IC3_spd_avg ∧ (run s es).IC2_spd_avg = s.IC2_spd_avg ∧
    (run s es).IC3_speed = s.IC3_speed ∧ (run s es).IC2_speed = s.IC2_speed ∧
    (run s es).delta_time3 = s.delta_time3 ∧ (run s es).delta_time2 = s.delta_time2 ∧
    (run s es).IC3Counter = s.IC3Counter ∧ (run s es).IC2Counter = s.IC2Counter := by
  induction es with
  | nil => intro s _; exact ⟨rfl, rfl, rfl, rfl, rfl, rfl, rfl, rfl⟩
  | cons e es ih =>
    intro s hes
    have hrest : ∀ e' ∈ es, e'.isCapture = false :=
      fun e' he' => hes e' (List.mem_cons_of_mem e he')
    have he := hes e (List.mem_cons_self e es)
    rw [run_cons]
    cases e with
    | ic2 fifo => simp [Event.isCapture] at he
    | ic3 fifo => simp [Event.isCapture] at he
    | t3 => exact ih _ hrest
    | t5 p => exact ih _ hrest

theorem run_T3_OV_Count (es : List Event) : ∀ s : State,
    (run s es).T3_OV_Count
      = if overflows es = 0 then s.T3_OV_Count
        else (s.T3_OV_Count + overflows es) % 4294967296 := by
  induction es with
  | nil => intro s; simp [run, overflows]
  | cons e es ih =>
    intro s
    rw [run_cons, ih]
    cases e with
    | ic2 fifo =>
      have e1 : overflows (Event.ic2 fifo :: es) = overflows es := by
        simp [overflows, Event.isOverflow]
      rw [e1]; rfl
    | ic3 fifo =>
      have e1 : overflows (Event.ic3 fifo :: es) = overflows es := by
        simp [overflows, Event.isOverflow]
      rw [e1]; rfl
    | t5 p =>
      have e1 : overflows (Event.t5 p :: es) = overflows es := by
        simp [overflows, Event.isOverflow]
      rw [e1]; rfl
    | t3 =>
      have e1 : overflows (Event.t3 :: es) = overflows es + 1 := by
        simp [overflows, Event.isOverflow]
      have e2 : (step s Event.t3).T3_OV_Count = (s.T3_OV_Count + 1) % 4294967296 := rfl
      rw [e1, e2, if_neg (Nat.succ_ne_zero _)]
      split_ifs with h0
      · rw [h0]
      · omega

/-! ## Claims on frame conditions -/

/-- C16: capture events and overflow events never change the PWM duty or the
PID state. For every state and FIFO content, `_IC2_IntHandler`,
`_IC3_IntHandler` and `Timer3Handler` leave `OC2R`, `OC2RS`, `OC3R`, `OC3RS`,
both integrals, both previous errors, the gains and the trace index
(`controlView`) unchanged; so every event sequence without a control tick
leaves them, and in particular the four duty registers, as they were. -/
theorem capture_overflow_frame (s : State) (fifo : List Nat) (es : List Event) :
    controlView (_IC2_IntHandler s fifo) = controlView s ∧
    controlView (_IC3_IntHandler s fifo) = controlView s ∧
    controlView (Timer3Handler s) = controlView s ∧
    ((∀ e ∈ es, e.isTick = false) →
      controlView (run s es) = controlView s ∧
      (run s es).OC2R = s.OC2R ∧ (run s es).OC2RS = s.OC2RS ∧
      (run s es).OC3R = s.OC3R ∧ (run s es).OC3RS = s.OC3RS) := by
  refine ⟨rfl, rfl, rfl, ?_⟩
  intro hes
  have h := run_controlView es s hes
  have h1 : (controlView (run s es)).1 = (controlView s).1 := by rw [h]
  simp only [controlView, Prod.mk.injEq] at h1
  exact ⟨h, h1.1, h1.2.1, h1.2.2.1, h1.2.2.2⟩

/-- Witness of C16: after one control tick from boot, captures on both wheels
and an overflow event leave the duty registers as the tick wrote them. -/
theorem capture_overflow_frame_witness :
    (∀ e ∈ [Event.ic2 [4000], Event.ic3 [4100], Event.t3, Event.ic2 [9000]],
      e.isTick = false) ∧
    (run (Timer5Handler boot Pins.low)
      [Event.ic2 [4000], Event.ic3 [4100], Event.t3, Event.ic2 [9000]]).OC3R
      = (Timer5Handler boot Pins.low).OC3R := by
  have hes : ∀ e ∈ [Event.ic2 [4000], Event.ic3 [4100], Event.t3, Event.ic2 [9000]],
      e.isTick = false := by
    simp [Event.isTick]
  exact ⟨hes, ((capture_overflow_frame (Timer5Handler boot Pins.low) []
    [Event.ic2 [4000], Event.ic3 [4100], Event.t3, Event.ic2 [9000]]).2.2.2 hes).2.2.2.1⟩

/-- C17: the control tick never changes the speed estimate or the capture
state. One run of `Timer5Handler` leaves `IC2_spd_avg`, `IC3_spd_avg`,
`IC2_speed`, `IC3_speed`, the capture deltas, the edge counters, `T3_OV_Count`
and the other capture variables (`captureView`, and the handlers' statics)
unchanged; so over every event sequence without capture events the smoothed
and instantaneous speeds, deltas and edge counters keep their values, and every
tick after it computes its errors from the same stale smoothed speeds. -/
theorem control_tick_frame (s : State) (p : Pins) (es : List Event) :
    captureView (Timer5Handler s p) = captureView s ∧
    (Timer5Handler s p).ic2 = s.ic2 ∧ (Timer5Handler s p).ic3 = s.ic3 ∧
    ((∀ e ∈ es, e.isCapture = false) →
      ((run s es).IC3_spd_avg = s.IC3_spd_avg ∧ (run s es).IC2_spd_avg = s.IC2_spd_avg ∧
        (run s es).IC3_speed = s.IC3_speed ∧ (run s es).IC2_speed = s.IC2_speed ∧
        (run s es).delta_time3 = s.delta_time3 ∧ (run s es).delta_time2 = s.delta_time2 ∧
        (run s es).IC3Counter = s.IC3Counter ∧ (run s es).IC2Counter = s.IC2Counter) ∧
      (Timer5Handler (run s es) p).err = (run s es).desired_spd - s.IC3_spd_avg ∧
      (Timer5Handler (run s es) p).err2 = (run s es).desired_spd2 - s.IC2_spd_avg) := by
  refine ⟨rfl, rfl, rfl, ?_⟩
  intro hes
  have h := run_spd_avg_no_capture es s hes
  refine ⟨h, ?_, ?_⟩
  · show (run s es).desired_spd - (run s es).IC3_spd_avg = _
    rw [h.1]
  · show (run s es).desired_spd2 - (run s es).IC2_spd_avg = _
    rw [h.2.1]

/-- Witness of C17: after a capture on each wheel from boot, three control
ticks and an overflow event leave the smoothed speeds unchanged. -/
theorem control_tick_frame_witness :
    (∀ e ∈ [Event.t5 Pins.low, Event.t3, Event.t5 Pins.low, Event.t5 Pins.low],
      e.isCapture = false) ∧
    (run (run boot [Event.ic2 [4000], Event.ic3 [4100]])
      [Event.t5 Pins.low, Event.t3, Event.t5 Pins.low, Event.t5 Pins.low]).IC3_spd_avg
      = (run boot [Event.ic2 [4000], Event.ic3 [4100]]).IC3_spd_avg := by
  have hes : ∀ e ∈ [Event.t5 Pins.low, Event.t3, Event.t5 Pins.low, Event.t5 Pins.low],
      e.isCapture = false := by
    simp [Event.isCapture]
  exact ⟨hes, ((control_tick_frame (run boot [Event.ic2 [4000], Event.ic3 [4100]]) Pins.low
    [Event.t5 Pins.low, Event.t3, Event.t5 Pins.low, Event.t5 Pins.low]).2.2.2 hes).1.1⟩

/-- C18: the overflow counter `T3_OV_Count` is changed only by the overflow
event. `Timer3Handler` sets it to `(T3_OV_Count + 1) mod 2^32` and changes no
other program variable; neither capture handler nor `Timer5Handler` writes it.
Over every event sequence containing `k` overflow events it becomes
`(T3_OV_Count + k) mod 2^32`; from boot it is `k mod 2^32`, which is the number
of overflow events serviced while `k < 2^32`; and as long as
`T3_OV_Count + k < 2^32` (no wrap) it has not decreased. -/
theorem overflow_counter_frame (s : State) (fifo : List Nat) (p : Pins) (es : List Event) :
    (Timer3Handler s).T3_OV_Count = (s.T3_OV_Count + 1) % 4294967296 ∧
    Timer3Handler s = { s with T3_OV_Count := (s.T3_OV_Count + 1) % 4294967296 } ∧
    (_IC2_IntHandler s fifo).T3_OV_Count = s.T3_OV_Count ∧
    (_IC3_IntHandler s fifo).T3_OV_Count = s.T3_OV_Count ∧
    (Timer5Handler s p).T3_OV_Count = s.T3_OV_Count ∧
    (overflows es = 0 → (run s es).T3_OV_Count = s.T3_OV_Count) ∧
    (s.T3_OV_Count < 4294967296 →
      (run s es).T3_OV_Count = (s.T3_OV_Count + overflows es) % 4294967296) ∧
    (s.T3_OV_Count + overflows es < 4294967296 →
      (run s es).T3_OV_Count = s.T3_OV_Count + overflows es ∧
      s.T3_OV_Count ≤ (run s es).T3_OV_Count) ∧
    (run boot es).T3_OV_Count = overflows es % 4294967296 ∧
    (overflows es < 4294967296 → (run boot es).T3_OV_Count = overflows es) := by
  have h := run_T3_OV_Count es s
  have hb := run_T3_OV_Count es boot
  have hb0 : boot.T3_OV_Count = 0 := rfl
  rw [hb0] at hb
  refine ⟨rfl, rfl, rfl, rfl, rfl, ?_, ?_, ?_, ?_, ?_⟩
  · intro h0; rw [h, if_pos h0]
  · intro hlt
    rw [h]
    split_ifs with h0
    · rw [h0]; omega
    · rfl
  · intro hlt
    rw [h]
    split_ifs with h0 <;> omega
  · rw [hb]
    split_ifs with h0
    · rw [h0]
    · rw [Nat.zero_add]
  · intro hlt
    rw [hb]
    split_ifs with h0 <;> omega

/-- Witness of C18: two overflow events among captures and a control tick,
from boot. -/
theorem overflow_counter_frame_witness :
    boot.T3_OV_Count < 4294967296 ∧
    boot.T3_OV_Count + overflows [Event.t3, Event.ic2 [4000], Event.t5 Pins.low, Event.t3]
      < 4294967296 ∧
    (run boot [Event.t3, Event.ic2 [4000], Event.t5 Pins.low, Event.t3]).T3_OV_Count
      = boot.T3_OV_Count + overflows [Event.t3, Event.ic2 [4000], Event.t5 Pins.low, Event.t3] ∧
    (run boot [Event.t3, Event.ic2 [4000], Event.t5 Pins.low, Event.t3]).T3_OV_Count = 2 := by
  have h1 : boot.T3_OV_Count < 4294967296 := by decide
  have h2 : boot.T3_OV_Count
      + overflows [Event.t3, Event.ic2 [4000], Event.t5 Pins.low, Event.t3] < 4294967296 := by
    decide
  have h := overflow_counter_frame boot [] Pins.low
    [Event.t3, Event.ic2 [4000], Event.t5 Pins.low, Event.t3]
  have h3 := h.2.2.2.2.2.2.2.1 h2
  have h4 : overflows [Event.t3, Event.ic2 [4000], Event.t5 Pins.low, Event.t3] < 4294967296 := by
    decide
  have h5 := h.2.2.2.2.2.2.2.2.2 h4
  have h6 : overflows [Event.t3, Event.ic2 [4000], Event.t5 Pins.low, Event.t3] = 2 := by
    decide
  exact ⟨h1, h2, h3.1, by rw [h5, h6]⟩

/-! ## Lemmas on the composite time -/

theorem IC2Time_eq (s : State) (fifo : List Nat) :
    (_IC2_IntHandler s fifo).IC2Time
      = ofInt32 (compositeTime (_IC2_IntHandler s fifo).ic2.prev_T3_OV_Count_Local
          (_IC2_IntHandler s fifo).ic2.prev_time) := rfl

theorem IC3Time_eq (s : State) (fifo : List Nat) :
    (_IC3_IntHandler s fifo).IC3Time
      = ofInt32 (compositeTime (_IC3_IntHandler s fifo).ic3.prev_T3_OV_Count_Local
          (_IC3_IntHandler s fifo).ic3.prev_time) := rfl

theorem compositeTime_exact (ov t : Int) (h0 : 0 ≤ ov) (h1 : 0 ≤ t)
    (h3 : ov * 50000 + t < 2147483648) : compositeTime ov t = ov * 50000 + t := by
  unfold compositeTime
  exact wrapInt32_of_range (by nlinarith) h3

theorem run_replicate_t3 (n : ℕ) : ∀ s : State,
    run s (List.replicate n Event.t3)
      = { s with T3_OV_Count :=
            if n = 0 then s.T3_OV_Count else (s.T3_OV_Count + n) % 4294967296 } := by
  induction n with
  | zero => intro s; rfl
  | succ n ih =>
    intro s
    rw [List.replicate_succ, run_cons, ih]
    have key : (if n = 0 then (step s Event.t3).T3_OV_Count
          else ((step s Event.t3).T3_OV_Count + n) % 4294967296)
        = (if n + 1 = 0 then s.T3_OV_Count else (s.T3_OV_Count + (n + 1)) % 4294967296) := by
      have e2 : (step s Event.t3).T3_OV_Count = (s.T3_OV_Count + 1) % 4294967296 := rfl
      rw [e2, if_neg (Nat.succ_ne_zero n)]
      split_ifs with h0
      · rw [h0]
      · omega
    show { s with T3_OV_Count := (if n = 0 then (step s Event.t3).T3_OV_Count
          else ((step s Event.t3).T3_OV_Count + n) % 4294967296) } = _
    rw [key]

/-! ## Claims on the composite time -/

/-- C19 (counterexample): after 42950 overflow events from boot (about 35.8
minutes) a left-wheel capture at counter value 1000 has overflow count 42950
and counter value 1000, for which `42950 * 50000 + 1000 < 2^32`; the `int`
expression of the handler yields `-2147466296`, not `2147501000`, and the
`float` variable `IC2Time` receives that negative value converted to `float`,
which is `-2147466240`. -/
theorem composite_time_wraps :
    (run boot (List.replicate 42950 Event.t3)).T3_OV_Count = 42950 ∧
    (_IC2_IntHandler (run boot (List.replicate 42950 Event.t3))
      [1000]).ic2.prev_T3_OV_Count_Local = 42950 ∧
    (_IC2_IntHandler (run boot (List.replicate 42950 Event.t3)) [1000]).ic2.prev_time = 1000 ∧
    (42950 : Int) * 50000 + 1000 < 4294967296 ∧
    compositeTime 42950 1000 = -2147466296 ∧
    compositeTime 42950 1000 ≠ 42950 * 50000 + 1000 ∧
    (_IC2_IntHandler (run boot (List.replicate 42950 Event.t3)) [1000]).IC2Time
      = Flt.fin true 16777080 7 ∧
    (Flt.fin true 16777080 7).toRat = -2147466240 := by
  have hs := run_replicate_t3 42950 boot
  have h1 : (_IC2_IntHandler (run boot (List.replicate 42950 Event.t3))
      [1000]).ic2.prev_T3_OV_Count_Local = 42950 := by
    rw [hs]; decide
  have h2 : (_IC2_IntHandler (run boot (List.replicate 42950 Event.t3))
      [1000]).ic2.prev_time = 1000 := by
    rw [hs]; decide
  have h3 : compositeTime 42950 1000 = -2147466296 := by decide
  have h4 : (_IC2_IntHandler (run boot (List.replicate 42950 Event.t3)) [1000]).IC2Time
      = Flt.fin true 16777080 7 := by
    rw [IC2Time_eq, h1, h2, h3]
    decide!
  refine ⟨?_, h1, h2, by norm_num, h3, by decide, h4, ?_⟩
  · rw [hs]; decide
  · norm_num [Flt.toRat]

/-- C19 (amended): the `int` expression of the composite time is exact up to
`2^31` µs. For every overflow count `ov ≥ 0` and counter value `t` in
`[0, 50000)` with `ov * 50000 + t < 2^31` the `int` expression
`T3_OV_Count_Local*50000 + time` has the mathematical value `ov * 50000 + t`.
Each capture handler evaluates the expression on its final local overflow
count and timestamp and assigns the value, converted to `float`, to `IC2Time`
/ `IC3Time`; the conversion is exact for every value of magnitude below
`2^24` and keeps 24 significant bits above, so that `2147451000` is held as
`2147451008`. -/
theorem composite_time_exact (s : State) (fifo : List Nat) :
    (∀ ov t : Int, 0 ≤ ov → 0 ≤ t → t < 50000 → ov * 50000 + t < 2147483648 →
      compositeTime ov t = ov * 50000 + t) ∧
    (_IC2_IntHandler s fifo).IC2Time
      = ofInt32 (compositeTime (_IC2_IntHandler s fifo).ic2.prev_T3_OV_Count_Local
          (_IC2_IntHandler s fifo).ic2.prev_time) ∧
    (_IC3_IntHandler s fifo).IC3Time
      = ofInt32 (compositeTime (_IC3_IntHandler s fifo).ic3.prev_T3_OV_Count_Local
          (_IC3_IntHandler s fifo).ic3.prev_time) ∧
    (∀ v : Int, -16777216 < v → v < 16777216 →
      (ofInt32 v).isFin = true ∧ (ofInt32 v).toRat = (v : ℚ)) ∧
    ofInt32 2147451000 = Flt.fin false 16776961 7 ∧
    (Flt.fin false 16776961 7).toRat = 2147451008 := by
  refine ⟨fun ov t h0 h1 _ h3 => compositeTime_exact ov t h0 h1 h3, rfl, rfl,
    fun v h1 h2 => ofInt32_exact v h1 h2, by decide!, ?_⟩
  norm_num [Flt.toRat]

/-- Witness of C19 (amended): overflow count 42949 and counter value 1000, the
operands of the left-wheel handler run from the boot state with overflow count
42949 and FIFO content 1000: the `int` expression is 2147451000. -/
theorem composite_time_exact_witness :
    (0 : Int) ≤ 42949 ∧ (0 : Int) ≤ 1000 ∧ (1000 : Int) < 50000 ∧
    (42949 : Int) * 50000 + 1000 < 2147483648 ∧
    (_IC2_IntHandler { boot with T3_OV_Count := 42949 } [1000]).ic2.prev_T3_OV_Count_Local
      = 42949 ∧
    (_IC2_IntHandler { boot with T3_OV_Count := 42949 } [1000]).ic2.prev_time = 1000 ∧
    compositeTime 42949 1000 = 42949 * 50000 + 1000 :=
  ⟨by decide, by decide, by decide, by decide, by decide, by decide,
    (composite_time_exact boot []).1 42949 1000 (by decide) (by decide) (by decide) (by decide)⟩

/-! ## Lemmas on single-timestamp captures -/

theorem IC2_single_corrected (s : State) (t1 : Nat)
    (hle : (t1 : Int) ≤ s.ic2.prev_time) (hlt : s.ic2.prev_time < 50000)
    (hov : wrapInt32 (s.T3_OV_Count : Int) = s.ic2.prev_T3_OV_Count_Local) :
    (_IC2_IntHandler s [t1]).ic2.prev_T3_OV_Count_Local
      = wrapInt32 (wrapInt32 (s.T3_OV_Count : Int) + 1) ∧
    (_IC2_IntHandler s [t1]).ic2.prev_time = (t1 : Int) := by
  have hmod1 : ((t1 % 65536 : Nat) : Int) = (t1 : Int) := by omega
  have hraw : wrapInt32 ((t1 : Int) - s.ic2.prev_time) = (t1 : Int) - s.ic2.prev_time :=
    wrapInt32_of_range (by omega) (by omega)
  have hcond : wrapInt32 (((t1 % 65536 : Nat) : Int) - s.ic2.prev_time) ≤ 0 ∧
      wrapInt32 (s.T3_OV_Count : Int) = s.ic2.prev_T3_OV_Count_Local := by
    rw [hmod1, hraw]
    exact ⟨by omega, hov⟩
  constructor
  · simp only [_IC2_IntHandler, drainIC2_single, if_pos hcond]
  · simp only [_IC2_IntHandler, drainIC2_single, if_pos hcond]
    exact hmod1

theorem IC2_single_later (s : State) (latest : Nat) (h16 : latest < 65536)
    (h0 : 0 ≤ s.ic2.prev_time) (hgt : s.ic2.prev_time < (latest : Int)) :
    (_IC2_IntHandler s [latest]).delta_time2 = (latest : Int) - s.ic2.prev_time ∧
    (_IC2_IntHandler s [latest]).ic2.prev_T3_OV_Count_Local
      = wrapInt32 (s.T3_OV_Count : Int) := by
  have hmod2 : ((latest % 65536 : Nat) : Int) = (latest : Int) := by omega
  have hraw2 : wrapInt32 ((latest : Int) - s.ic2.prev_time) = (latest : Int) - s.ic2.prev_time :=
    wrapInt32_of_range (by omega) (by omega)
  have hncond : ¬ (wrapInt32 (((latest % 65536 : Nat) : Int) - s.ic2.prev_time) ≤ 0 ∧
      wrapInt32 (s.T3_OV_Count : Int) = s.ic2.prev_T3_OV_Count_Local) := by
    rw [hmod2, hraw2]
    intro h
    omega
  constructor
  · simp only [_IC2_IntHandler, drainIC2_single, if_neg hncond]
    rw [hmod2, hraw2]
  · simp only [_IC2_IntHandler, drainIC2_single, if_neg hncond]

theorem Timer3Handler_T3_OV_Count (x : State) :
    (Timer3Handler x).T3_OV_Count = (x.T3_OV_Count + 1) % 4294967296 := rfl

theorem Timer3Handler_ic2 (x : State) : (Timer3Handler x).ic2 = x.ic2 := rfl

theorem IC2_T3_OV_Count (x : State) (fifo : List Nat) :
    (_IC2_IntHandler x fifo).T3_OV_Count = x.T3_OV_Count := rfl

theorem wrapInt32_succ_mod (n : ℕ) :
    wrapInt32 (((n + 1) % 4294967296 : ℕ) : Int) = wrapInt32 (wrapInt32 (n : Int) + 1) := by
  unfold wrapInt32
  push_cast
  have h1 : ((n : Int) + 1) % 4294967296 + 2147483648
      ≡ (n : Int) + 1 + 2147483648 [ZMOD 4294967296] :=
    Int.ModEq.add_right _ (Int.mod_modEq _ _)
  have h2 : ((n : Int) + 2147483648) % 4294967296 - 2147483648 + 1 + 2147483648
      ≡ (n : Int) + 1 + 2147483648 [ZMOD 4294967296] := by
    have h3 : ((n : Int) + 2147483648) % 4294967296 ≡ (n : Int) + 2147483648
        [ZMOD 4294967296] := Int.mod_modEq _ _
    have h4 := Int.ModEq.add_right (1 : Int) h3
    have e1 : ((n : Int) + 2147483648) % 4294967296 - 2147483648 + 1 + 2147483648
        = ((n : Int) + 2147483648) % 4294967296 + 1 := by ring
    have e2 : (n : Int) + 1 + 2147483648 = (n : Int) + 2147483648 + 1 := by ring
    rw [e1, e2]
    exact h4
  have h5 := h1.trans h2.symm
  unfold Int.ModEq at h5
  rw [h5]

/-! ## Claim on the self-consistency of the stored overflow count -/

/-- C21: after a left-wheel capture that applied the local overflow correction
(single timestamp `t1 ≤ prev < 50000`, snapshot equal to the stored `prev_ov`,
so that `prev_ov` becomes the incremented snapshot) and after the delayed
overflow event (`Timer3Handler`), the next capture takes a snapshot equal to
the stored `prev_ov`; for a next edge later in the counter period
(`latest > t1`) it reports `delta_time2 = latest - t1` and leaves the stored
`prev_ov` as it is (no correction). -/
theorem stored_overflow_consistent (s : State) (t1 latest : Nat)
    (hle : (t1 : Int) ≤ s.ic2.prev_time) (hlt : s.ic2.prev_time < 50000)
    (hov : wrapInt32 (s.T3_OV_Count : Int) = s.ic2.prev_T3_OV_Count_Local)
    (hlate : t1 < latest) (h16 : latest < 65536) :
    (_IC2_IntHandler s [t1]).ic2.prev_T3_OV_Count_Local
      = wrapInt32 (wrapInt32 (s.T3_OV_Count : Int) + 1) ∧
    (_IC2_IntHandler s [t1]).ic2.prev_time = (t1 : Int) ∧
    (Timer3Handler (_IC2_IntHandler s [t1])).T3_OV_Count
      = (s.T3_OV_Count + 1) % 4294967296 ∧
    wrapInt32 ((Timer3Handler (_IC2_IntHandler s [t1])).T3_OV_Count : Int)
      = (Timer3Handler (_IC2_IntHandler s [t1])).ic2.prev_T3_OV_Count_Local ∧
    (_IC2_IntHandler (Timer3Handler (_IC2_IntHandler s [t1])) [latest]).delta_time2
      = (latest : Int) - (t1 : Int) ∧
    (_IC2_IntHandler (Timer3Handler (_IC2_IntHandler s [t1])) [latest]).ic2.prev_T3_OV_Count_Local
      = (Timer3Handler (_IC2_IntHandler s [t1])).ic2.prev_T3_OV_Count_Local := by
  obtain ⟨hov1, hpt⟩ := IC2_single_corrected s t1 hle hlt hov
  have hT : (Timer3Handler (_IC2_IntHandler s [t1])).T3_OV_Count
      = (s.T3_OV_Count + 1) % 4294967296 := by
    rw [Timer3Handler_T3_OV_Count, IC2_T3_OV_Count]
  have hsnap : wrapInt32 ((Timer3Handler (_IC2_IntHandler s [t1])).T3_OV_Count : Int)
      = (Timer3Handler (_IC2_IntHandler s [t1])).ic2.prev_T3_OV_Count_Local := by
    rw [hT, Timer3Handler_ic2, hov1]
    exact wrapInt32_succ_mod s.T3_OV_Count
  have hpt2 : (Timer3Handler (_IC2_IntHandler s [t1])).ic2.prev_time = (t1 : Int) := by
    rw [Timer3Handler_ic2, hpt]
  have hl := IC2_single_later (Timer3Handler (_IC2_IntHandler s [t1])) latest h16
    (by rw [hpt2]; omega) (by rw [hpt2]; omega)
  refine ⟨hov1, hpt, hT, hsnap, ?_, ?_⟩
  · rw [hl.1, hpt2]
  · rw [hl.2, hsnap]

/-- Witness of C21: previous edge at 49000 with overflow count 12, corrected
capture at 2000, overflow event, next edge at 7000: the interval is 5000. -/
theorem stored_overflow_consistent_witness :
    ((2000 : Nat) : Int) ≤ (run boot (List.replicate 12 .t3 ++ [.ic2 [49000]])).ic2.prev_time ∧
    (run boot (List.replicate 12 .t3 ++ [.ic2 [49000]])).ic2.prev_time < 50000 ∧
    wrapInt32 ((run boot (List.replicate 12 .t3 ++ [.ic2 [49000]])).T3_OV_Count : Int)
      = (run boot (List.replicate 12 .t3 ++ [.ic2 [49000]])).ic2.prev_T3_OV_Count_Local ∧
    (_IC2_IntHandler (Timer3Handler (_IC2_IntHandler
      (run boot (List.replicate 12 .t3 ++ [.ic2 [49000]])) [2000])) [7000]).delta_time2
      = ((7000 : Nat) : Int) - ((2000 : Nat) : Int) := by
  have h1 : ((2000 : Nat) : Int)
      ≤ (run boot (List.replicate 12 .t3 ++ [.ic2 [49000]])).ic2.prev_time := by decide
  have h2 : (run boot (List.replicate 12 .t3 ++ [.ic2 [49000]])).ic2.prev_time < 50000 := by
    decide
  have h3 : wrapInt32 ((run boot (List.replicate 12 .t3 ++ [.ic2 [49000]])).T3_OV_Count : Int)
      = (run boot (List.replicate 12 .t3 ++ [.ic2 [49000]])).ic2.prev_T3_OV_Count_Local := by
    decide
  have h := stored_overflow_consistent (run boot (List.replicate 12 .t3 ++ [.ic2 [49000]]))
    2000 7000
  have h4 := h h1
  have h5 := h4 h2
  have h6 := h5 h3
  have h7 := h6 (by decide)
  have h8 := h7 (by decide)
  exact ⟨h1, h2, h3, h8.2.2.2.2.1⟩

/-! ## Lemmas on the edge train with constant interval -/

theorem ic2Deltas_append (es1 : List Event) : ∀ (s : State) (es2 : List Event),
    ic2Deltas s (es1 ++ es2) = ic2Deltas s es1 ++ ic2Deltas (run s es1) es2 := by
  induction es1 with
  | nil => intro s es2; rfl
  | cons e es ih =>
    intro s es2
    cases e with
    | ic2 fifo =>
      show (_IC2_IntHandler s fifo).delta_time2 :: ic2Deltas (_IC2_IntHandler s fifo) (es ++ es2)
        = ((_IC2_IntHandler s fifo).delta_time2 :: ic2Deltas (_IC2_IntHandler s fifo) es)
          ++ ic2Deltas (run (_IC2_IntHandler s fifo) es) es2
      rw [ih]
      rfl
    | ic3 fifo => exact ih _ _
    | t3 => exact ih _ _
    | t5 p => exact ih _ _

theorem IC2_single_prev_time (s : State) (t : Nat) :
    (_IC2_IntHandler s [t]).ic2.prev_time = ((t % 65536 : Nat) : Int) := by
  simp only [_IC2_IntHandler, drainIC2_single]
  split_ifs <;> rfl

theorem IC2_single_corrected_delta (s : State) (t1 : Nat)
    (hle : (t1 : Int) ≤ s.ic2.prev_time) (hlt : s.ic2.prev_time < 50000)
    (hov : wrapInt32 (s.T3_OV_Count : Int) = s.ic2.prev_T3_OV_Count_Local) :
    (_IC2_IntHandler s [t1]).delta_time2 = (t1 : Int) - s.ic2.prev_time + 50000 := by
  have hmod : ((t1 % 65536 : Nat) : Int) = (t1 : Int) := by omega
  have hraw : wrapInt32 ((t1 : Int) - s.ic2.prev_time) = (t1 : Int) - s.ic2.prev_time :=
    wrapInt32_of_range (by omega) (by omega)
  have hcond : wrapInt32 (((t1 % 65536 : Nat) : Int) - s.ic2.prev_time) ≤ 0 ∧
      wrapInt32 (s.T3_OV_Count : Int) = s.ic2.prev_T3_OV_Count_Local := by
    rw [hmod, hraw]
    exact ⟨by omega, hov⟩
  simp only [_IC2_IntHandler, drainIC2_single, if_pos hcond]
  rw [hmod, hraw]
  exact wrapInt32_of_range (by omega) (by omega)

theorem edgeEvents_step (n : Nat) (s : State)
    (h1 : s.ic2.prev_time = ((5000 * (n % 10) : Nat) : Int))
    (h2 : wrapInt32 (s.T3_OV_Count : Int) = s.ic2.prev_T3_OV_Count_Local) :
    ic2Deltas s (edgeEvents n) = [5000] ∧
    (run s (edgeEvents n)).ic2.prev_time = ((5000 * ((n + 1) % 10) : Nat) : Int) ∧
    wrapInt32 ((run s (edgeEvents n)).T3_OV_Count : Int)
      = (run s (edgeEvents n)).ic2.prev_T3_OV_Count_Local := by
  by_cases hw : (n + 1) % 10 = 0
  · have hn : n % 10 = 9 := by omega
    have he : edgeEvents n = [.ic2 [0], .t3] := by
      unfold edgeEvents
      rw [if_pos hw]
    have hp : s.ic2.prev_time = 45000 := by
      rw [h1, hn]
      rfl
    have hle : ((0 : Nat) : Int) ≤ s.ic2.prev_time := by rw [hp]; decide
    have hlt : s.ic2.prev_time < 50000 := by rw [hp]; decide
    have hd := IC2_single_corrected_delta s 0 hle hlt h2
    have hc := IC2_single_corrected s 0 hle hlt h2
    rw [he, hw]
    refine ⟨?_, ?_, ?_⟩
    · show [(_IC2_IntHandler s [0]).delta_time2] = [5000]
      rw [hd, hp]
      rfl
    · show (Timer3Handler (_IC2_IntHandler s [0])).ic2.prev_time = _
      rw [Timer3Handler_ic2, hc.2]
    · show wrapInt32 ((Timer3Handler (_IC2_IntHandler s [0])).T3_OV_Count : Int)
        = (Timer3Handler (_IC2_IntHandler s [0])).ic2.prev_T3_OV_Count_Local
      rw [Timer3Handler_ic2, hc.1, Timer3Handler_T3_OV_Count, IC2_T3_OV_Count,
        wrapInt32_succ_mod]
  · have he : edgeEvents n = [.ic2 [5000 * ((n + 1) % 10)]] := by
      unfold edgeEvents
      rw [if_neg hw]
    have hr : n % 10 + 1 = (n + 1) % 10 := by omega
    have h16 : 5000 * ((n + 1) % 10) < 65536 := by omega
    have h0 : 0 ≤ s.ic2.prev_time := by rw [h1]; omega
    have hgt : s.ic2.prev_time < ((5000 * ((n + 1) % 10) : Nat) : Int) := by
      rw [h1]
      omega
    have hl := IC2_single_later s (5000 * ((n + 1) % 10)) h16 h0 hgt
    rw [he]
    refine ⟨?_, ?_, ?_⟩
    · show [(_IC2_IntHandler s [5000 * ((n + 1) % 10)]).delta_time2] = [5000]
      have hdiff : ((5000 * ((n + 1) % 10) : Nat) : Int) - ((5000 * (n % 10) : Nat) : Int)
          = 5000 := by omega
      rw [hl.1, h1, hdiff]
    · show (_IC2_IntHandler s [5000 * ((n + 1) % 10)]).ic2.prev_time = _
      rw [IC2_single_prev_time]
      omega
    · show wrapInt32 ((_IC2_IntHandler s [5000 * ((n + 1) % 10)]).T3_OV_Count : Int)
        = (_IC2_IntHandler s [5000 * ((n + 1) % 10)]).ic2.prev_T3_OV_Count_Local
      rw [hl.2, IC2_T3_OV_Count]

theorem edgeTrain_deltas (n : Nat) :
    ic2Deltas boot (edgeTrain n) = List.replicate n 5000 ∧
    (run boot (edgeTrain n)).ic2.prev_time = ((5000 * (n % 10) : Nat) : Int) ∧
    wrapInt32 ((run boot (edgeTrain n)).T3_OV_Count : Int)
      = (run boot (edgeTrain n)).ic2.prev_T3_OV_Count_Local := by
  induction n with
  | zero => exact ⟨rfl, rfl, rfl⟩
  | succ n ih =>
    have hs := edgeEvents_step n (run boot (edgeTrain n)) ih.2.1 ih.2.2
    have e : edgeTrain (n + 1) = edgeTrain n ++ edgeEvents n := rfl
    rw [e, ic2Deltas_append, run_append, ih.1, hs.1]
    exact ⟨(List.replicate_succ' n 5000).symm, hs.2.1, hs.2.2⟩

theorem eq_replicate_of_deltas (l : List Int) (h : ∀ d ∈ l, d = 5000) :
    l = List.replicate l.length 5000 :=
  List.eq_replicate_iff.mpr ⟨rfl, h⟩

/-! ## Claim on the edge train with constant interval -/

/-- C10 (counterexample): nine left-wheel edges 5000 µs apart from boot, the
counter wraps and the overflow event is serviced, then the tenth edge at
counter value 0, again 5000 µs after the ninth: the handler passes `-45000`
to the speed computation and sets the instantaneous speed to 2, not 1. In
the arithmetic of the program, with every interval 5000, the smoothed speed
after the first capture is `13421773 / 2^27`, not `1 - 0.9`; after 142
captures and after 143 captures it is the same `16777212 / 2^24`, so it is not
strictly increasing; and from capture 142 on it is never within `1 / 2^23`
of 1. -/
theorem constant_train_not_as_claimed :
    (_IC2_IntHandler (run boot [.ic2 [5000], .ic2 [10000], .ic2 [15000], .ic2 [20000],
      .ic2 [25000], .ic2 [30000], .ic2 [35000], .ic2 [40000], .ic2 [45000], .t3])
      [0]).delta_time2 = -45000 ∧
    (_IC2_IntHandler (run boot [.ic2 [5000], .ic2 [10000], .ic2 [15000], .ic2 [20000],
      .ic2 [25000], .ic2 [30000], .ic2 [35000], .ic2 [40000], .ic2 [45000], .t3])
      [0]).IC2_speed = 2 ∧
    filterRun32 Flt.zero [5000] = Flt.fin false 13421773 (-27) ∧
    (Flt.fin false 13421773 (-27)).toRat ≠ 1 - (9 / 10) ^ 1 ∧
    filterRun32 Flt.zero (List.replicate 142 5000) = Flt.fin false 16777212 (-24) ∧
    filterRun32 Flt.zero (List.replicate 143 5000) = Flt.fin false 16777212 (-24) ∧
    (∀ n : Nat, 142 ≤ n →
      ¬ |(filterRun32 Flt.zero (List.replicate n 5000)).toRat - 1| < 1 / 2 ^ 23) := by
  have hd : (_IC2_IntHandler (run boot [.ic2 [5000], .ic2 [10000], .ic2 [15000], .ic2 [20000],
      .ic2 [25000], .ic2 [30000], .ic2 [35000], .ic2 [40000], .ic2 [45000], .t3])
      [0]).delta_time2 = -45000 := by decide!
  have hgen : ∀ (t : State) (f : List Nat), (_IC2_IntHandler t f).IC2_speed =
      if (_IC2_IntHandler t f).delta_time2 > 500
      then 5000 / ((_IC2_IntHandler t f).delta_time2 : ℚ) else 2 := fun _ _ => rfl
  refine ⟨hd, ?_, by decide!, ?_, filterRun32_stall 0, filterRun32_stall 1, ?_⟩
  · rw [hgen, hd]
    norm_num
  · norm_num [Flt.toRat]
  · intro n hn
    obtain ⟨k, rfl⟩ : ∃ k, n = 142 + k := ⟨n - 142, by omega⟩
    rw [filterRun32_stall]
    norm_num [Flt.toRat, abs_lt]

/-- C10 (amended): the edge train with constant interval 5000 µs from boot in
which every tenth edge falls on the counter's wrap and the overflow event runs
after that edge's capture passes the interval 5000 to the speed computation at
every capture. Over every run in which all captures pass the interval 5000,
every capture yields the instantaneous speed 1, exactly also in the arithmetic
of the program. From the smoothed speed 0, in exact arithmetic the smoothed
speed after `n` such captures is `1 - 0.9 ^ n`: it never exceeds 1, it is
strictly larger after more captures, and for every `eps > 0` there is `N`
such that after `n ≥ N` captures it is within `eps` of 1. In the arithmetic of
the program it is `13421773 / 2^27` after the first capture, strictly larger
after each of the first 142 captures, equal to `16777212 / 2^24 = 1 - 1/2^22`
after every number `n ≥ 142` of captures, and always below 1. -/
theorem constant_interval_train :
    (∀ n : Nat, ic2Deltas boot (edgeTrain n) = List.replicate n 5000) ∧
    (∀ (s : State) (es : List Event), (∀ d ∈ ic2Deltas s es, d = 5000) →
      (∀ x ∈ ic2Samples s es, x = 1) ∧
      (ic2Samples s es).length = (ic2Deltas s es).length ∧
      filterRun32 Flt.zero (ic2Deltas s es)
        = filterRun32 Flt.zero (List.replicate (ic2Deltas s es).length 5000)) ∧
    (speed32 5000 = Flt.fin false 8388608 (-23) ∧ (Flt.fin false 8388608 (-23)).toRat = 1) ∧
    (∀ (s : State) (es : List Event), s.IC2_spd_avg = 0 →
      (∀ d ∈ ic2Deltas s es, d = 5000) →
      (run s es).IC2_spd_avg = 1 - (9 / 10) ^ (ic2Deltas s es).length ∧
      (run s es).IC2_spd_avg ≤ 1) ∧
    (∀ (s1 s2 : State) (es1 es2 : List Event), s1.IC2_spd_avg = 0 → s2.IC2_spd_avg = 0 →
      (∀ d ∈ ic2Deltas s1 es1, d = 5000) → (∀ d ∈ ic2Deltas s2 es2, d = 5000) →
      (ic2Deltas s1 es1).length < (ic2Deltas s2 es2).length →
      (run s1 es1).IC2_spd_avg < (run s2 es2).IC2_spd_avg) ∧
    (∀ eps : ℚ, 0 < eps → ∃ N : ℕ, ∀ (s : State) (es : List Event), s.IC2_spd_avg = 0 →
      (∀ d ∈ ic2Deltas s es, d = 5000) → N ≤ (ic2Deltas s es).length →
      |(run s es).IC2_spd_avg - 1| < eps) ∧
    filterRun32 Flt.zero [5000] = Flt.fin false 13421773 (-27) ∧
    (∀ n : Nat, n < 142 →
      Flt.lt (filterRun32 Flt.zero (List.replicate n 5000))
        (filterRun32 Flt.zero (List.replicate (n + 1) 5000)) = true) ∧
    (∀ n : Nat, 142 ≤ n →
      filterRun32 Flt.zero (List.replicate n 5000) = Flt.fin false 16777212 (-24)) ∧
    (Flt.fin false 16777212 (-24)).toRat = 1 - 1 / 2 ^ 22 ∧
    (∀ n : Nat, Flt.lt (filterRun32 Flt.zero (List.replicate n 5000)) (lit32 1 1) = true) := by
  refine ⟨fun n => (edgeTrain_deltas n).1, ?_, ⟨by decide!, by norm_num [Flt.toRat]⟩, ?_, ?_, ?_,
    by decide!, filterRun32_rise, ?_, by norm_num [Flt.toRat], filterRun32_below_one⟩
  · intro s es hd
    have h := ic2Samples_of_deltas es s hd
    refine ⟨h.1, h.2, ?_⟩
    exact congrArg (filterRun32 Flt.zero) (eq_replicate_of_deltas _ hd)
  · intro s es h0 hd
    refine ⟨run_constant_interval s es h0 hd, ?_⟩
    rw [run_constant_interval s es h0 hd]
    have : (0 : ℚ) ≤ (9 / 10) ^ (ic2Deltas s es).length := by positivity
    linarith
  · intro s1 s2 es1 es2 h1 h2 hd1 hd2 hlt
    rw [run_constant_interval s1 es1 h1 hd1, run_constant_interval s2 es2 h2 hd2]
    have := pow_lt_pow_right_of_lt_one₀ (show (0 : ℚ) < 9 / 10 by norm_num)
      (show (9 : ℚ) / 10 < 1 by norm_num) hlt
    linarith
  · intro eps heps
    obtain ⟨N, hN⟩ := exists_pow_lt_of_lt_one heps (show (9 : ℚ) / 10 < 1 by norm_num)
    refine ⟨N, ?_⟩
    intro s es h0 hd hle
    rw [run_constant_interval s es h0 hd]
    have hpow : ((9 : ℚ) / 10) ^ (ic2Deltas s es).length ≤ (9 / 10) ^ N :=
      pow_le_pow_of_le_one (by norm_num) (by norm_num) hle
    have hnn : (0 : ℚ) ≤ (9 / 10) ^ (ic2Deltas s es).length := by positivity
    rw [abs_lt]
    constructor <;> linarith
  · intro n hn
    obtain ⟨k, rfl⟩ : ∃ k, n = 142 + k := ⟨n - 142, by omega⟩
    exact filterRun32_stall k

/-- Witness of C10 (amended): the first twenty edges of the edge train from
boot, across two wraps of the counter. -/
theorem constant_interval_train_witness :
    boot.IC2_spd_avg = 0 ∧
    (∀ d ∈ ic2Deltas boot (edgeTrain 20), d = 5000) ∧
    (∀ x ∈ ic2Samples boot (edgeTrain 20), x = 1) ∧
    (run boot (edgeTrain 20)).IC2_spd_avg = 1 - (9 / 10) ^ 20 ∧
    Flt.lt (filterRun32 Flt.zero (List.replicate 20 5000))
      (filterRun32 Flt.zero (List.replicate (20 + 1) 5000)) = true := by
  have h0 : boot.IC2_spd_avg = 0 := rfl
  have he : ic2Deltas boot (edgeTrain 20) = List.replicate 20 5000 :=
    constant_interval_train.1 20
  have hd : ∀ d ∈ ic2Deltas boot (edgeTrain 20), d = 5000 := by
    intro d hmem
    rw [he] at hmem
    exact List.eq_of_mem_replicate hmem
  have hlen : (ic2Deltas boot (edgeTrain 20)).length = 20 := by
    rw [he, List.length_replicate]
  have h := (constant_interval_train.2.2.2.1 boot (edgeTrain 20) h0 hd).1
  rw [hlen] at h
  exact ⟨h0, hd, (constant_interval_train.2.1 boot (edgeTrain 20) hd).1, h,
    constant_interval_train.2.2.2.2.2.2.2.1 20 (by decide)⟩



/-! ## Lemmas on the edge counters -/

theorem run_IC2Counter (es : List Event) : ∀ s : State,
    (run s es).IC2Counter
      = if ic2Events es = 0 then s.IC2Counter
        else (s.IC2Counter + ic2Events es) % 4294967296 := by
  induction es with
  | nil => intro s; simp [run, ic2Events]
  | cons e es ih =>
    intro s
    rw [run_cons, ih]
    cases e with
    | ic3 fifo =>
      have e1 : ic2Events (Event.ic3 fifo :: es) = ic2Events es := by
        simp [ic2Events, Event.isIC2]
      rw [e1]; rfl
    | t3 =>
      have e1 : ic2Events (Event.t3 :: es) = ic2Events es := by
        simp [ic2Events, Event.isIC2]
      rw [e1]; rfl
    | t5 p =>
      have e1 : ic2Events (Event.t5 p :: es) = ic2Events es := by
        simp [ic2Events, Event.isIC2]
      rw [e1]; rfl
    | ic2 fifo =>
      have e1 : ic2Events (Event.ic2 fifo :: es) = ic2Events es + 1 := by
        simp [ic2Events, Event.isIC2]
      have e2 : (step s (Event.ic2 fifo)).IC2Counter = (s.IC2Counter + 1) % 4294967296 := rfl
      rw [e1, e2, if_neg (Nat.succ_ne_zero _)]
      split_ifs with h0
      · rw [h0]
      · omega

theorem run_IC3Counter (es : List Event) : ∀ s : State,
    (run s es).IC3Counter
      = if ic3Events es = 0 then s.IC3Counter
        else (s.IC3Counter + ic3Events es) % 4294967296 := by
  induction es with
  | nil => intro s; simp [run, ic3Events]
  | cons e es ih =>
    intro s
    rw [run_cons, ih]
    cases e with
    | ic2 fifo =>
      have e1 : ic3Events (Event.ic2 fifo :: es) = ic3Events es := by
        simp [ic3Events, Event.isIC3]
      rw [e1]; rfl
    | t3 =>
      have e1 : ic3Events (Event.t3 :: es) = ic3Events es := by
        simp [ic3Events, Event.isIC3]
      rw [e1]; rfl
    | t5 p =>
      have e1 : ic3Events (Event.t5 p :: es) = ic3Events es := by
        simp [ic3Events, Event.isIC3]
      rw [e1]; rfl
    | ic3 fifo =>
      have e1 : ic3Events (Event.ic3 fifo :: es) = ic3Events es + 1 := by
        simp [ic3Events, Event.isIC3]
      have e2 : (step s (Event.ic3 fifo)).IC3Counter = (s.IC3Counter + 1) % 4294967296 := rfl
      rw [e1, e2, if_neg (Nat.succ_ne_zero _)]
      split_ifs with h0
      · rw [h0]
      · omega

theorem ic2Timestamps_single (es : List Event) :
    (∀ fifo, Event.ic2 fifo ∈ es → fifo.length = 1) → ic2Timestamps es = ic2Events es := by
  induction es with
  | nil => intro _; rfl
  | cons e es ih =>
    intro h
    have hrest := ih (fun fifo hf => h fifo (List.mem_cons_of_mem e hf))
    cases e with
    | ic2 fifo =>
      have h1 := h fifo (List.mem_cons_self _ _)
      have e1 : ic2Events (Event.ic2 fifo :: es) = ic2Events es + 1 := by
        simp [ic2Events, Event.isIC2]
      have e2 : ic2Timestamps (Event.ic2 fifo :: es) = fifo.length + ic2Timestamps es := rfl
      rw [e1, e2, h1, hrest]
      omega
    | ic3 fifo =>
      have e1 : ic2Events (Event.ic3 fifo :: es) = ic2Events es := by
        simp [ic2Events, Event.isIC2]
      have e2 : ic2Timestamps (Event.ic3 fifo :: es) = ic2Timestamps es := rfl
      rw [e1, e2, hrest]
    | t3 =>
      have e1 : ic2Events (Event.t3 :: es) = ic2Events es := by
        simp [ic2Events, Event.isIC2]
      have e2 : ic2Timestamps (Event.t3 :: es) = ic2Timestamps es := rfl
      rw [e1, e2, hrest]
    | t5 p =>
      have e1 : ic2Events (Event.t5 p :: es) = ic2Events es := by
        simp [ic2Events, Event.isIC2]
      have e2 : ic2Timestamps (Event.t5 p :: es) = ic2Timestamps es := rfl
      rw [e1, e2, hrest]

theorem ic3Timestamps_single (es : List Event) :
    (∀ fifo, Event.ic3 fifo ∈ es → fifo.length = 1) → ic3Timestamps es = ic3Events es := by
  induction es with
  | nil => intro _; rfl
  | cons e es ih =>
    intro h
    have hrest := ih (fun fifo hf => h fifo (List.mem_cons_of_mem e hf))
    cases e with
    | ic3 fifo =>
      have h1 := h fifo (List.mem_cons_self _ _)
      have e1 : ic3Events (Event.ic3 fifo :: es) = ic3Events es + 1 := by
        simp [ic3Events, Event.isIC3]
      have e2 : ic3Timestamps (Event.ic3 fifo :: es) = fifo.length + ic3Timestamps es := rfl
      rw [e1, e2, h1, hrest]
      omega
    | ic2 fifo =>
      have e1 : ic3Events (Event.ic2 fifo :: es) = ic3Events es := by
        simp [ic3Events, Event.isIC3]
      have e2 : ic3Timestamps (Event.ic2 fifo :: es) = ic3Timestamps es := rfl
      rw [e1, e2, hrest]
    | t3 =>
      have e1 : ic3Events (Event.t3 :: es) = ic3Events es := by
        simp [ic3Events, Event.isIC3]
      have e2 : ic3Timestamps (Event.t3 :: es) = ic3Timestamps es := rfl
      rw [e1, e2, hrest]
    | t5 p =>
      have e1 : ic3Events (Event.t5 p :: es) = ic3Events es := by
        simp [ic3Events, Event.isIC3]
      have e2 : ic3Timestamps (Event.t5 p :: es) = ic3Timestamps es := rfl
      rw [e1, e2, hrest]

/-! ## Claims on the edge counters -/

/-- C22 (counterexample): one left-wheel capture event from boot whose FIFO
holds two timestamps leaves `IC2Counter = 1` while two timestamps were drained;
one with an empty FIFO leaves `IC2Counter = 1` while none was drained; the same
holds for the right wheel. -/
theorem edge_counter_not_timestamps :
    (run boot [Event.ic2 [1000, 2000]]).IC2Counter = 1 ∧
    ic2Timestamps [Event.ic2 [1000, 2000]] = 2 ∧
    (run boot [Event.ic2 [1000, 2000]]).IC2Counter ≠ ic2Timestamps [Event.ic2 [1000, 2000]] ∧
    (run boot [Event.ic3 [1000, 2000]]).IC3Counter ≠ ic3Timestamps [Event.ic3 [1000, 2000]] ∧
    (run boot [Event.ic2 []]).IC2Counter ≠ ic2Timestamps [Event.ic2 []] := by
  decide

/-- C22 (amended): after any sequence of events since boot, a channel's edge
counter (`IC2Counter` / `IC3Counter`) equals the number of capture events (runs
of the channel's handler) modulo `2^32`; when every capture event of the
channel found exactly one timestamp in the FIFO, that number is the total
number of timestamps drained, and the counter equals it as long as it is below
`2^32`. -/
theorem edge_counter_counts_events (es : List Event) :
    (run boot es).IC2Counter = ic2Events es % 4294967296 ∧
    (run boot es).IC3Counter = ic3Events es % 4294967296 ∧
    ((∀ fifo, Event.ic2 fifo ∈ es → fifo.length = 1) →
      ic2Timestamps es = ic2Events es ∧
      (ic2Timestamps es < 4294967296 → (run boot es).IC2Counter = ic2Timestamps es)) ∧
    ((∀ fifo, Event.ic3 fifo ∈ es → fifo.length = 1) →
      ic3Timestamps es = ic3Events es ∧
      (ic3Timestamps es < 4294967296 → (run boot es).IC3Counter = ic3Timestamps es)) := by
  have h2 : (run boot es).IC2Counter = ic2Events es % 4294967296 := by
    rw [run_IC2Counter]
    have hb : boot.IC2Counter = 0 := rfl
    rw [hb]
    split_ifs with h0
    · rw [h0]
    · rw [Nat.zero_add]
  have h3 : (run boot es).IC3Counter = ic3Events es % 4294967296 := by
    rw [run_IC3Counter]
    have hb : boot.IC3Counter = 0 := rfl
    rw [hb]
    split_ifs with h0
    · rw [h0]
    · rw [Nat.zero_add]
  refine ⟨h2, h3, ?_, ?_⟩
  · intro h
    have e := ic2Timestamps_single es h
    refine ⟨e, ?_⟩
    intro hlt
    rw [h2, ← e]
    exact Nat.mod_eq_of_lt hlt
  · intro h
    have e := ic3Timestamps_single es h
    refine ⟨e, ?_⟩
    intro hlt
    rw [h3, ← e]
    exact Nat.mod_eq_of_lt hlt

/-- Witness of C22 (amended): three single-timestamp captures on the left wheel
among other events. -/
theorem edge_counter_counts_events_witness :
    (∀ fifo, Event.ic2 fifo ∈ [Event.ic2 [1000], Event.t3, Event.ic2 [6000],
      Event.ic3 [6100, 6200], Event.t5 Pins.low, Event.ic2 [11000]] → fifo.length = 1) ∧
    ic2Timestamps [Event.ic2 [1000], Event.t3, Event.ic2 [6000],
      Event.ic3 [6100, 6200], Event.t5 Pins.low, Event.ic2 [11000]] < 4294967296 ∧
    (run boot [Event.ic2 [1000], Event.t3, Event.ic2 [6000],
      Event.ic3 [6100, 6200], Event.t5 Pins.low, Event.ic2 [11000]]).IC2Counter
      = ic2Timestamps [Event.ic2 [1000], Event.t3, Event.ic2 [6000],
        Event.ic3 [6100, 6200], Event.t5 Pins.low, Event.ic2 [11000]] := by
  have h1 : ∀ fifo, Event.ic2 fifo ∈ [Event.ic2 [1000], Event.t3, Event.ic2 [6000],
      Event.ic3 [6100, 6200], Event.t5 Pins.low, Event.ic2 [11000]] → fifo.length = 1 := by
    intro fifo hf
    simp at hf
    rcases hf with h | h | h <;> rw [h] <;> rfl
  have h2 : ic2Timestamps [Event.ic2 [1000], Event.t3, Event.ic2 [6000],
      Event.ic3 [6100, 6200], Event.t5 Pins.low, Event.ic2 [11000]] < 4294967296 := by
    decide
  have h := (edge_counter_counts_events [Event.ic2 [1000], Event.t3, Event.ic2 [6000],
      Event.ic3 [6100, 6200], Event.t5 Pins.low, Event.ic2 [11000]]).2.2.1 h1
  exact ⟨h1, h2, h.2 h2⟩

/-! ## Claim on the independence of the two controllers -/

/-- C23: the two PID controllers are independent. Two runs of `Timer5Handler`
from states that agree on the left wheel's inputs (`Kp2`, `desired_spd2`,
`IC2_spd_avg`, `integral_error2`, previous left error), whatever the right
wheel's inputs, the rest of the state and the pin readings, end with equal left
duty (`OC2R`, `OC2RS`), left integral, left previous error, left error and left
gains; and symmetrically for the right wheel. -/
theorem pid_controllers_independent (s1 s2 : State) (p1 p2 : Pins) :
    (s1.Kp2 = s2.Kp2 → s1.desired_spd2 = s2.desired_spd2 →
      s1.IC2_spd_avg = s2.IC2_spd_avg → s1.integral_error2 = s2.integral_error2 →
      s1.t5.prev_error2 = s2.t5.prev_error2 →
      (Timer5Handler s1 p1).OC2R = (Timer5Handler s2 p2).OC2R ∧
      (Timer5Handler s1 p1).OC2RS = (Timer5Handler s2 p2).OC2RS ∧
      (Timer5Handler s1 p1).integral_error2 = (Timer5Handler s2 p2).integral_error2 ∧
      (Timer5Handler s1 p1).t5.prev_error2 = (Timer5Handler s2 p2).t5.prev_error2 ∧
      (Timer5Handler s1 p1).err2 = (Timer5Handler s2 p2).err2 ∧
      (Timer5Handler s1 p1).Ki2 = (Timer5Handler s2 p2).Ki2 ∧
      (Timer5Handler s1 p1).Kd2 = (Timer5Handler s2 p2).Kd2) ∧
    (s1.Kp = s2.Kp → s1.desired_spd = s2.desired_spd →
      s1.IC3_spd_avg = s2.IC3_spd_avg → s1.integral_error = s2.integral_error →
      s1.t5.prev_error = s2.t5.prev_error →
      (Timer5Handler s1 p1).OC3R = (Timer5Handler s2 p2).OC3R ∧
      (Timer5Handler s1 p1).OC3RS = (Timer5Handler s2 p2).OC3RS ∧
      (Timer5Handler s1 p1).integral_error = (Timer5Handler s2 p2).integral_error ∧
      (Timer5Handler s1 p1).t5.prev_error = (Timer5Handler s2 p2).t5.prev_error ∧
      (Timer5Handler s1 p1).err = (Timer5Handler s2 p2).err ∧
      (Timer5Handler s1 p1).Ki = (Timer5Handler s2 p2).Ki ∧
      (Timer5Handler s1 p1).Kd = (Timer5Handler s2 p2).Kd) := by
  constructor
  · intro h1 h2 h3 h4 h5
    simp only [Timer5Handler, h1, h2, h3, h4, h5, and_self]
  · intro h1 h2 h3 h4 h5
    simp only [Timer5Handler, h1, h2, h3, h4, h5, and_self]

/-- Witness of C23: the boot state and `rightChanged`, which differs from it in
the right wheel's gain, set-point, smoothed speed, integral and previous error. -/
theorem pid_controllers_independent_witness :
    boot.Kp2 = rightChanged.Kp2 ∧ boot.Kp ≠ rightChanged.Kp ∧
    (Timer5Handler boot Pins.low).OC2R = (Timer5Handler rightChanged Pins.btn1High).OC2R ∧
    (Timer5Handler boot Pins.low).integral_error2
      = (Timer5Handler rightChanged Pins.btn1High).integral_error2 := by
  have h := (pid_controllers_independent boot rightChanged Pins.low Pins.btn1High).1
  have h1 := h rfl
  have h2 := h1 rfl
  have h3 := h2 rfl
  have h4 := h3 rfl
  have h5 := h4 rfl
  exact ⟨rfl, by norm_num [boot, rightChanged], h5.1, h5.2.2.1⟩

/-! ## Lemmas on the two drain loops -/

theorem wrapInt32_range (x : Int) : -2147483648 ≤ wrapInt32 x ∧ wrapInt32 x < 2147483648 := by
  unfold wrapInt32
  constructor
  · have := Int.emod_nonneg (x + 2147483648) (by norm_num : (4294967296 : Int) ≠ 0)
    linarith
  · have := Int.emod_lt_of_pos (x + 2147483648) (by norm_num : (0 : Int) < 4294967296)
    linarith

theorem wrapInt32_succ_ne {x : Int} (h1 : -2147483648 ≤ x) (h2 : x < 2147483648) :
    wrapInt32 (x + 1) ≠ x := by
  by_cases h : x + 1 < 2147483648
  · rw [wrapInt32_of_range (by linarith) h]
    intro h3
    linarith
  · have hx : x = 2147483647 := by linarith [not_lt.mp h]
    rw [hx]
    decide

theorem drainIC3_eq_drainIC2 (prev_time prev_ov : Int) (fifo : List Nat) :
    ∀ (time delta loc : Int) (c : Nat),
    (drainIC3 prev_time prev_ov time delta loc c fifo).1
      = (drainIC2 prev_time prev_ov time delta loc fifo).1 ∧
    (drainIC3 prev_time prev_ov time delta loc c fifo).2.1
      = (drainIC2 prev_time prev_ov time delta loc fifo).2.1 ∧
    (drainIC3 prev_time prev_ov time delta loc c fifo).2.2.1
      = (drainIC2 prev_time prev_ov time delta loc fifo).2.2 := by
  induction fifo with
  | nil => intro time delta loc c; exact ⟨rfl, rfl, rfl⟩
  | cons buf rest ih =>
    intro time delta loc c
    simp only [drainIC2, drainIC3]
    split_ifs with h
    · exact ih _ _ _ _
    · exact ih _ _ _ _

theorem drainIC3_of_ne (prev_time prev_ov : Int) (fifo : List Nat) :
    ∀ (time delta loc : Int) (c : Nat), loc ≠ prev_ov →
    (drainIC3 prev_time prev_ov time delta loc c fifo).2.2 = (loc, c) := by
  induction fifo with
  | nil => intro time delta loc c _; rfl
  | cons buf rest ih =>
    intro time delta loc c hne
    simp only [drainIC3]
    rw [if_neg (fun h => hne h.2)]
    exact ih _ _ _ _ hne

theorem drainIC3_counter (prev_time prev_ov : Int) (fifo : List Nat) :
    ∀ (time delta loc : Int) (c : Nat), -2147483648 ≤ loc → loc < 2147483648 →
    (drainIC3 prev_time prev_ov time delta loc c fifo).2.2.2
      = if (drainIC3 prev_time prev_ov time delta loc c fifo).2.2.1 = loc then c
        else wrapUInt32 (c + 1) := by
  induction fifo with
  | nil => intro time delta loc c _ _; simp [drainIC3]
  | cons buf rest ih =>
    intro time delta loc c h1 h2
    simp only [drainIC3]
    split_ifs with h h3 h4
    · exfalso
      have hne : wrapInt32 (loc + 1) ≠ prev_ov := by
        rw [← h.2]; exact wrapInt32_succ_ne h1 h2
      rw [drainIC3_of_ne _ _ _ _ _ _ _ hne] at h3
      exact wrapInt32_succ_ne h1 h2 h3
    · have hne : wrapInt32 (loc + 1) ≠ prev_ov := by
        rw [← h.2]; exact wrapInt32_succ_ne h1 h2
      rw [drainIC3_of_ne _ _ _ _ _ _ _ hne]
    · have := ih (((buf % 65536 : Nat) : Int)) (wrapInt32 (((buf % 65536 : Nat) : Int)
        - prev_time)) loc c h1 h2
      rw [this, if_pos h4]
    · have := ih (((buf % 65536 : Nat) : Int)) (wrapInt32 (((buf % 65536 : Nat) : Int)
        - prev_time)) loc c h1 h2
      rw [this, if_neg h4]

/-! ## Claim on the two capture channels -/

/-- C24: the two capture channels are the same function up to channel
identity. For equal prior channel state (handler statics, capture delta,
smoothed speed, edge counter), equal overflow counter and equal FIFO content,
`_IC2_IntHandler` and `_IC3_IntHandler` produce equal delta, composite time,
instantaneous and smoothed speed, edge count, statics (`time`, `prev_time`,
`prev_ov`) and watched time. The difference is `IC3OVCounter`: the left
handler leaves it alone, the right handler increments it (modulo `2^32`)
exactly when it applied the local overflow correction, and its value has no
influence on the other results of the right handler. -/
theorem capture_channels_equal (s2 s3 : State) (fifo : List Nat)
    (hst : s2.ic2 = s3.ic3) (hd : s2.delta_time2 = s3.delta_time3)
    (ha : s2.IC2_spd_avg = s3.IC3_spd_avg) (hc : s2.IC2Counter = s3.IC3Counter)
    (hT : s2.T3_OV_Count = s3.T3_OV_Count) :
    (_IC2_IntHandler s2 fifo).delta_time2 = (_IC3_IntHandler s3 fifo).delta_time3 ∧
    (_IC2_IntHandler s2 fifo).IC2Time = (_IC3_IntHandler s3 fifo).IC3Time ∧
    (_IC2_IntHandler s2 fifo).IC2_speed = (_IC3_IntHandler s3 fifo).IC3_speed ∧
    (_IC2_IntHandler s2 fifo).IC2_spd_avg = (_IC3_IntHandler s3 fifo).IC3_spd_avg ∧
    (_IC2_IntHandler s2 fifo).IC2Counter = (_IC3_IntHandler s3 fifo).IC3Counter ∧
    (_IC2_IntHandler s2 fifo).ic2 = (_IC3_IntHandler s3 fifo).ic3 ∧
    (_IC2_IntHandler s2 fifo).time2 = (_IC3_IntHandler s3 fifo).time3 ∧
    (_IC2_IntHandler s2 fifo).IC3OVCounter = s2.IC3OVCounter ∧
    (_IC3_IntHandler s3 fifo).IC3OVCounter
      = (if (_IC3_IntHandler s3 fifo).ic3.prev_T3_OV_Count_Local
            = wrapInt32 (s3.T3_OV_Count : Int)
         then s3.IC3OVCounter else wrapUInt32 (s3.IC3OVCounter + 1)) ∧
    (∀ c : Nat,
      (_IC3_IntHandler { s3 with IC3OVCounter := c } fifo).delta_time3
        = (_IC3_IntHandler s3 fifo).delta_time3 ∧
      (_IC3_IntHandler { s3 with IC3OVCounter := c } fifo).IC3_spd_avg
        = (_IC3_IntHandler s3 fifo).IC3_spd_avg ∧
      (_IC3_IntHandler { s3 with IC3OVCounter := c } fifo).IC3Time
        = (_IC3_IntHandler s3 fifo).IC3Time ∧
      (_IC3_IntHandler { s3 with IC3OVCounter := c } fifo).ic3
        = (_IC3_IntHandler s3 fifo).ic3) := by
  have key := drainIC3_eq_drainIC2 s3.ic3.prev_time s3.ic3.prev_T3_OV_Count_Local fifo
    s3.ic3.time s3.delta_time3 (wrapInt32 (s3.T3_OV_Count : Int)) s3.IC3OVCounter
  have hr := wrapInt32_range (s3.T3_OV_Count : Int)
  have hcnt := drainIC3_counter s3.ic3.prev_time s3.ic3.prev_T3_OV_Count_Local fifo
    s3.ic3.time s3.delta_time3 (wrapInt32 (s3.T3_OV_Count : Int)) s3.IC3OVCounter hr.1 hr.2
  obtain ⟨k1, k2, k3⟩ := key
  refine ⟨?_, ?_, ?_, ?_, ?_, ?_, ?_, rfl, hcnt, ?_⟩
  · simp only [_IC2_IntHandler, _IC3_IntHandler, hst, hd, hT, k2]
  · simp only [_IC2_IntHandler, _IC3_IntHandler, hst, hd, hT, k1, k3]
  · simp only [_IC2_IntHandler, _IC3_IntHandler, hst, hd, hT, k2]
  · simp only [_IC2_IntHandler, _IC3_IntHandler, hst, hd, hT, ha, k2]
  · simp only [_IC2_IntHandler, _IC3_IntHandler, hc]
  · simp only [_IC2_IntHandler, _IC3_IntHandler, hst, hd, hT, k1, k3]
  · simp only [_IC2_IntHandler, _IC3_IntHandler, hst, hd, hT, k1]
  · intro c
    obtain ⟨c1, c2, c3⟩ := drainIC3_eq_drainIC2 s3.ic3.prev_time
      s3.ic3.prev_T3_OV_Count_Local fifo s3.ic3.time s3.delta_time3
      (wrapInt32 (s3.T3_OV_Count : Int)) c
    refine ⟨?_, ?_, ?_, ?_⟩
    · simp only [_IC3_IntHandler, k2, c2]
    · simp only [_IC3_IntHandler, k2, c2]
    · simp only [_IC3_IntHandler, k1, k3, c1, c3]
    · simp only [_IC3_IntHandler, k1, k3, c1, c3]

/-- Witness of C24: both channels at boot, FIFO holding one timestamp. -/
theorem capture_channels_equal_witness :
    boot.ic2 = boot.ic3 ∧ boot.delta_time2 = boot.delta_time3 ∧
    boot.IC2_spd_avg = boot.IC3_spd_avg ∧ boot.IC2Counter = boot.IC3Counter ∧
    (_IC2_IntHandler boot [4000]).delta_time2 = (_IC3_IntHandler boot [4000]).delta_time3 ∧
    (_IC2_IntHandler boot [4000]).IC2_spd_avg = (_IC3_IntHandler boot [4000]).IC3_spd_avg := by
  have h := capture_channels_equal boot boot [4000]
  have h1 := h rfl
  have h2 := h1 rfl
  have h3 := h2 rfl
  have h4 := h3 rfl
  have h5 := h4 rfl
  exact ⟨rfl, rfl, rfl, rfl, h5.1, h5.2.2.2.1⟩

/-! ## Claim on the trace index -/

/-- C25: the trace index is always a valid slot. From boot (index 0), after
every event sequence the index lies in `[0, 499]`; a control tick moves it to
`(index + 1) mod 500`, the other events leave it; every tick writes its trace
record at that index and nowhere else, so no cell of `hist0 .. hist5` outside
`[0, 499]` is ever written. -/
theorem trace_index_in_bounds (es : List Event) (p : Pins) :
    boot.t5.index = 0 ∧
    (0 ≤ (run boot es).t5.index ∧ (run boot es).t5.index ≤ 499) ∧
    (Timer5Handler (run boot es) p).t5.index = ((run boot es).t5.index + 1) % 500 ∧
    (0 ≤ (Timer5Handler (run boot es) p).t5.index ∧
      (Timer5Handler (run boot es) p).t5.index ≤ 499) ∧
    (∀ (fifo : List Nat),
      (_IC2_IntHandler (run boot es) fifo).t5.index = (run boot es).t5.index ∧
      (_IC3_IntHandler (run boot es) fifo).t5.index = (run boot es).t5.index ∧
      (Timer3Handler (run boot es)).t5.index = (run boot es).t5.index) ∧
    (∀ i : Int, i ≠ (run boot es).t5.index →
      traceSlot (Timer5Handler (run boot es) p) i = traceSlot (run boot es) i) ∧
    (∀ i : Int, (i < 0 ∨ 499 < i) → traceSlot (run boot es) i = traceSlot boot i) := by
  have hidx := run_boot_index es
  have h0 : (0 : Int) ≤ (run boot es).t5.index := by rw [hidx]; omega
  have h1 : (run boot es).t5.index < 500 := by rw [hidx]; omega
  have hi := Timer5Handler_index (run boot es) p h0 h1
  refine ⟨rfl, ⟨h0, by omega⟩, hi, ⟨by omega, by omega⟩, fun _ => ⟨rfl, rfl, rfl⟩,
    fun i hne => Timer5Handler_traceSlot_ne _ _ i hne, ?_⟩
  intro i hout
  clear hidx h0 h1 hi
  induction es using List.reverseRecOn with
  | nil => rfl
  | append_singleton es e ih =>
    rw [run_append]
    have hidx := run_boot_index es
    cases e with
    | ic2 fifo => exact ih
    | ic3 fifo => exact ih
    | t3 => exact ih
    | t5 q =>
      have hne : i ≠ (run boot es).t5.index := by rw [hidx]; omega
      have hstep : traceSlot (run (run boot es) [Event.t5 q]) i = traceSlot (run boot es) i :=
        Timer5Handler_traceSlot_ne (run boot es) q i hne
      rw [hstep, ih]

/-- Witness of C25: after two control ticks from boot the cell just past the
arrays, index 500, is as at boot. -/
theorem trace_index_in_bounds_witness :
    ((500 : Int) < 0 ∨ (499 : Int) < 500) ∧
    traceSlot (run boot [Event.t5 Pins.low, Event.t5 Pins.btn1High]) 500
      = traceSlot boot 500 := by
  have h0 : ((500 : Int) < 0 ∨ (499 : Int) < 500) := Or.inr (by norm_num)
  exact ⟨h0, (trace_index_in_bounds [Event.t5 Pins.low, Event.t5 Pins.btn1High]
    Pins.low).2.2.2.2.2.2 500 h0⟩

/-! ## Lemmas on the bounds of the speed estimate -/

theorem speed_expr_bounds (d : Int) :
    (0 : ℚ) < (if d > 500 then 5000 / (d : ℚ) else 2) ∧
    (if d > 500 then 5000 / (d : ℚ) else 2) ≤ 5000 / 501 := by
  split_ifs with h
  · have h1 : (501 : ℚ) ≤ (d : ℚ) := by
      have : (501 : Int) ≤ d := by omega
      exact_mod_cast this
    constructor
    · apply div_pos (by norm_num) (by linarith)
    · exact div_le_div_of_nonneg_left (by norm_num) (by norm_num) h1
  · constructor <;> norm_num

theorem ic2Samples_bounds (es : List Event) : ∀ s : State,
    ∀ x ∈ ic2Samples s es, 0 ≤ x ∧ x ≤ 5000 / 501 := by
  induction es with
  | nil => intro s x hx; simp [ic2Samples] at hx
  | cons e es ih =>
    intro s x hx
    cases e with
    | ic2 fifo =>
      simp only [ic2Samples, List.mem_cons] at hx
      rcases hx with h | h
      · rw [h]
        have hb := speed_expr_bounds (_IC2_IntHandler s fifo).delta_time2
        exact ⟨le_of_lt hb.1, hb.2⟩
      · exact ih _ x h
    | ic3 fifo => exact ih _ x hx
    | t3 => exact ih _ x hx
    | t5 p => exact ih _ x hx

theorem ic3Samples_bounds (es : List Event) : ∀ s : State,
    ∀ x ∈ ic3Samples s es, 0 ≤ x ∧ x ≤ 5000 / 501 := by
  induction es with
  | nil => intro s x hx; simp [ic3Samples] at hx
  | cons e es ih =>
    intro s x hx
    cases e with
    | ic3 fifo =>
      simp only [ic3Samples, List.mem_cons] at hx
      rcases hx with h | h
      · rw [h]
        have hb := speed_expr_bounds (_IC3_IntHandler s fifo).delta_time3
        exact ⟨le_of_lt hb.1, hb.2⟩
      · exact ih _ x h
    | ic2 fifo => exact ih _ x hx
    | t3 => exact ih _ x hx
    | t5 p => exact ih _ x hx

/-! ## Claim on the bounds of the speed estimate -/

/-- C28: the speed estimate is bounded whatever the captures deliver. For every
state and FIFO content, hence for every interval (positive, zero or negative)
passed to the speed computation, the instantaneous speed set by a capture
handler satisfies `0 < speed_inst ≤ 5000/501 < 10`; therefore, starting from a
smoothed speed of 0, after every sequence of events `0 ≤ speed_avg ≤ 5000/501
< 10` (both wheels). -/
theorem speed_estimate_bounded (s : State) (fifo : List Nat) (es : List Event) :
    (0 < (_IC2_IntHandler s fifo).IC2_speed ∧
      (_IC2_IntHandler s fifo).IC2_speed ≤ 5000 / 501) ∧
    (0 < (_IC3_IntHandler s fifo).IC3_speed ∧
      (_IC3_IntHandler s fifo).IC3_speed ≤ 5000 / 501) ∧
    (∀ d : Int, (0 : ℚ) < (if d > 500 then 5000 / (d : ℚ) else 2) ∧
      (if d > 500 then 5000 / (d : ℚ) else 2) ≤ 5000 / 501) ∧
    ((5000 : ℚ) / 501 < 10) ∧
    (s.IC2_spd_avg = 0 →
      0 ≤ (run s es).IC2_spd_avg ∧ (run s es).IC2_spd_avg ≤ 5000 / 501 ∧
      (run s es).IC2_spd_avg < 10) ∧
    (s.IC3_spd_avg = 0 →
      0 ≤ (run s es).IC3_spd_avg ∧ (run s es).IC3_spd_avg ≤ 5000 / 501 ∧
      (run s es).IC3_spd_avg < 10) := by
  refine ⟨speed_expr_bounds _, speed_expr_bounds _, speed_expr_bounds, by norm_num, ?_, ?_⟩
  · intro h0
    have h := convexForm_mem 0 (5000 / 501) (ic2Samples s es) s.IC2_spd_avg
      (by rw [h0]) (by rw [h0]; norm_num) (ic2Samples_bounds es s)
    rw [← run_IC2_spd_avg] at h
    exact ⟨h.1, h.2, lt_of_le_of_lt h.2 (by norm_num)⟩
  · intro h0
    have h := convexForm_mem 0 (5000 / 501) (ic3Samples s es) s.IC3_spd_avg
      (by rw [h0]) (by rw [h0]; norm_num) (ic3Samples_bounds es s)
    rw [← run_IC3_spd_avg] at h
    exact ⟨h.1, h.2, lt_of_le_of_lt h.2 (by norm_num)⟩

/-- Witness of C28: from boot, a serviced wrap (negative interval), a short
interval and a regular one. -/
theorem speed_estimate_bounded_witness :
    boot.IC2_spd_avg = 0 ∧
    (0 ≤ (run boot [Event.ic2 [49000], Event.t3, Event.ic2 [2000], Event.ic2 [2100],
        Event.ic2 [7100]]).IC2_spd_avg ∧
      (run boot [Event.ic2 [49000], Event.t3, Event.ic2 [2000], Event.ic2 [2100],
        Event.ic2 [7100]]).IC2_spd_avg < 10) := by
  have h := (speed_estimate_bounded boot [] [Event.ic2 [49000], Event.t3, Event.ic2 [2000],
    Event.ic2 [2100], Event.ic2 [7100]]).2.2.2.2.1 rfl
  exact ⟨rfl, h.1, h.2.2⟩

/-! ## Claim on the monotonicity of the controller -/

/-- C29 (counterexample): gain `Kp = 3e38`, set-point 2, integral 0 and
previous error 1000. For the smoothed speed 0 the controller output is a NaN
and the conversion to the duty is undefined; for the higher smoothed speed
1.5 the output is `-∞` and the duty is 800: the lower speed is not answered
with a duty at least as high as that of the higher speed. -/
theorem duty_not_antitone_at_overflow :
    Flt.lt Flt.zero (lit32 (3 * 10 ^ 38) 1) = true ∧
    Flt.le Flt.zero (lit32 3 2) = true ∧
    (pid32 (lit32 (3 * 10 ^ 38) 1) (lit32 2 1) Flt.zero Flt.zero (lit32 1000 1)).temp_output
      = Flt.nan ∧
    (pid32 (lit32 (3 * 10 ^ 38) 1) (lit32 2 1) Flt.zero Flt.zero (lit32 1000 1)).OCR = none ∧
    (pid32 (lit32 (3 * 10 ^ 38) 1) (lit32 2 1) (lit32 3 2) Flt.zero (lit32 1000 1)).temp_output
      = Flt.inf true ∧
    (pid32 (lit32 (3 * 10 ^ 38) 1) (lit32 2 1) (lit32 3 2) Flt.zero (lit32 1000 1)).OCR
      = some 800 ∧
    ¬ ∃ va vb : Nat,
      (pid32 (lit32 (3 * 10 ^ 38) 1) (lit32 2 1) Flt.zero Flt.zero (lit32 1000 1)).OCR
        = some va ∧
      (pid32 (lit32 (3 * 10 ^ 38) 1) (lit32 2 1) (lit32 3 2) Flt.zero (lit32 1000 1)).OCR
        = some vb ∧ vb ≤ va := by
  have h : (pid32 (lit32 (3 * 10 ^ 38) 1) (lit32 2 1) Flt.zero Flt.zero (lit32 1000 1)).OCR
      = none := by decide!
  refine ⟨by decide!, by decide!, by decide!, h, by decide!, by decide!, ?_⟩
  rw [h]
  simp

/-- C29 (amended): the controller never answers a higher measured speed with a
higher duty whenever its output is a number. In the arithmetic of the program,
for every gain `Kp > 0`, set-point, integral and previous error of a wheel and
smoothed speeds `speed_a ≤ speed_b` for which neither controller output
`temp_output` is a NaN, the duty written for `speed_a` is at least the duty
written for `speed_b`, and the updated integral for `speed_a` is at least the
one for `speed_b`. -/
theorem pid32_duty_antitone (Kp desired_spd integral_error prev_error spd_a spd_b : Flt)
    (hKp : Flt.lt Flt.zero Kp = true) (hle : Flt.le spd_a spd_b = true)
    (ha : (pid32 Kp desired_spd spd_a integral_error prev_error).temp_output ≠ Flt.nan)
    (hb : (pid32 Kp desired_spd spd_b integral_error prev_error).temp_output ≠ Flt.nan) :
    (∃ va vb : Nat,
      (pid32 Kp desired_spd spd_a integral_error prev_error).OCR = some va ∧
      (pid32 Kp desired_spd spd_b integral_error prev_error).OCR = some vb ∧ vb ≤ va) ∧
    Flt.le (pid32 Kp desired_spd spd_b integral_error prev_error).integral_error
      (pid32 Kp desired_spd spd_a integral_error prev_error).integral_error = true :=
  pid32_mono Kp desired_spd integral_error prev_error spd_a spd_b hKp hle ha hb

/-- Witness of C29 (amended): the right wheel at boot (gain 2500, set-point
0.75, integral and previous error 0) with the smoothed speed 0 against the
smoothed speed after one capture at interval 5000; the duties are 2081 and
1803. -/
theorem pid32_duty_antitone_witness :
    Flt.lt Flt.zero (lit32 2500 1) = true ∧
    Flt.le Flt.zero (filterRun32 Flt.zero [5000]) = true ∧
    (pid32 (lit32 2500 1) (lit32 3 4) Flt.zero Flt.zero Flt.zero).temp_output ≠ Flt.nan ∧
    (pid32 (lit32 2500 1) (lit32 3 4) (filterRun32 Flt.zero [5000]) Flt.zero
      Flt.zero).temp_output ≠ Flt.nan ∧
    (∃ va vb : Nat,
      (pid32 (lit32 2500 1) (lit32 3 4) Flt.zero Flt.zero Flt.zero).OCR = some va ∧
      (pid32 (lit32 2500 1) (lit32 3 4) (filterRun32 Flt.zero [5000]) Flt.zero Flt.zero).OCR
        = some vb ∧ vb ≤ va) ∧
    (pid32 (lit32 2500 1) (lit32 3 4) Flt.zero Flt.zero Flt.zero).OCR = some 2081 ∧
    (pid32 (lit32 2500 1) (lit32 3 4) (filterRun32 Flt.zero [5000]) Flt.zero Flt.zero).OCR
      = some 1803 :=
  ⟨by decide!, by decide!, by decide!, by decide!,
    (pid32_duty_antitone (lit32 2500 1) (lit32 3 4) Flt.zero Flt.zero Flt.zero
      (filterRun32 Flt.zero [5000]) (by decide!) (by decide!) (by decide!) (by decide!)).1,
    by decide!, by decide!⟩

/-! ## Lemmas on the debouncer -/

theorem debounce_cst (b : btn) (pin : Bool) (h : b.cst ≤ 9) : (debounce b pin).cst ≤ 9 := by
  unfold debounce
  simp only [cstMaxCnt, wrapByte]
  split_ifs <;> first
    | exact Nat.zero_le _
    | (show (b.cst + 1) % 256 ≤ 9; omega)

theorem debounce_stBtn (b : btn) (pin : Bool) :
    (debounce b pin).stBtn = b.stBtn ∨ (debounce b pin).stBtn = rawState pin := by
  unfold debounce rawState
  simp only
  split_ifs <;> simp

theorem debounce_stBtn_same (b : btn) (pin : Bool) (h : rawState pin = b.stBtn) :
    (debounce b pin).stBtn = b.stBtn := by
  rcases debounce_stBtn b pin with h1 | h1
  · exact h1
  · rw [h1, h]

theorem debounceRun_snoc (b : btn) (reads : List Bool) (pin : Bool) :
    debounceRun b (reads ++ [pin]) = debounce (debounceRun b reads) pin := by
  simp [debounceRun, List.foldl_append]

theorem debounceRun_append (b : btn) (r1 r2 : List Bool) :
    debounceRun b (r1 ++ r2) = debounceRun (debounceRun b r1) r2 := by
  simp [debounceRun, List.foldl_append]

theorem debounceRun_burst (b : btn) (v : Bool) (hp : b.stPrev = b.stBtn)
    (hv : rawState v ≠ b.stBtn) :
    ∀ j : ℕ, j ≤ 9 →
      debounceRun b (List.replicate (j + 1) v) = ⟨b.stBtn, rawState v, rawState v, j⟩ := by
  intro j
  induction j with
  | zero =>
    intro _
    have hne : ¬ rawState v = b.stPrev := by rw [hp]; exact hv
    show debounce b v = _
    unfold debounce
    simp only [cstMaxCnt]
    unfold rawState at hne ⊢
    rw [if_neg hne]
    simp
  | succ j ih =>
    intro hj
    rw [List.replicate_succ', debounceRun_snoc, ih (by omega)]
    unfold debounce
    simp only [cstMaxCnt, wrapByte]
    unfold rawState
    rw [if_pos rfl]
    have h1 : (j + 1) % 256 = j + 1 := by omega
    rw [h1]
    have h2 : ¬ (10 = j + 1) := by omega
    rw [if_neg h2]

theorem debounceRun_same (w : Bool) : ∀ (m : ℕ) (b : btn), rawState w = b.stBtn →
    (debounceRun b (List.replicate m w)).stBtn = b.stBtn := by
  intro m
  induction m with
  | zero => intro b _; rfl
  | succ m ih =>
    intro b h
    rw [List.replicate_succ]
    show (debounceRun (debounce b w) (List.replicate m w)).stBtn = b.stBtn
    have h1 := debounce_stBtn_same b w h
    rw [ih (debounce b w) (by rw [h1]; exact h), h1]

theorem buttons_Timer5Handler (s : State) (p : Pins) :
    buttons (Timer5Handler s p) = List.zipWith debounce (buttons s) p.levels := rfl

theorem buttons_cst_tick (s : State) (p : Pins) (h : ∀ x ∈ buttons s, x.cst ≤ 9) :
    ∀ x ∈ buttons (Timer5Handler s p), x.cst ≤ 9 := by
  have h1 : s.btnBtn1.cst ≤ 9 := h _ (by simp [buttons])
  have h2 : s.btnBtn2.cst ≤ 9 := h _ (by simp [buttons])
  have h3 : s.PmodBtn1.cst ≤ 9 := h _ (by simp [buttons])
  have h4 : s.PmodBtn2.cst ≤ 9 := h _ (by simp [buttons])
  have h5 : s.PmodBtn3.cst ≤ 9 := h _ (by simp [buttons])
  have h6 : s.PmodBtn4.cst ≤ 9 := h _ (by simp [buttons])
  have h7 : s.PmodSwt1.cst ≤ 9 := h _ (by simp [buttons])
  have h8 : s.PmodSwt2.cst ≤ 9 := h _ (by simp [buttons])
  have h9 : s.PmodSwt3.cst ≤ 9 := h _ (by simp [buttons])
  have h10 : s.PmodSwt4.cst ≤ 9 := h _ (by simp [buttons])
  intro x hx
  rw [buttons_Timer5Handler] at hx
  simp only [buttons, Pins.levels, List.zipWith_cons_cons, List.zipWith_nil_left,
    List.mem_cons, List.mem_singleton, List.not_mem_nil, or_false] at hx
  rcases hx with e | e | e | e | e | e | e | e | e | e <;> rw [e]
  · exact debounce_cst _ _ h1
  · exact debounce_cst _ _ h2
  · exact debounce_cst _ _ h3
  · exact debounce_cst _ _ h4
  · exact debounce_cst _ _ h5
  · exact debounce_cst _ _ h6
  · exact debounce_cst _ _ h7
  · exact debounce_cst _ _ h8
  · exact debounce_cst _ _ h9
  · exact debounce_cst _ _ h10

theorem buttons_cst_run (es : List Event) : ∀ s : State,
    (∀ x ∈ buttons s, x.cst ≤ 9) → ∀ x ∈ buttons (run s es), x.cst ≤ 9 := by
  induction es with
  | nil => intro s h; exact h
  | cons e es ih =>
    intro s h
    rw [run_cons]
    cases e with
    | ic2 fifo => exact ih _ h
    | ic3 fifo => exact ih _ h
    | t3 => exact ih _ h
    | t5 p => exact ih _ (buttons_cst_tick s p h)

theorem buttons_cst_boot : ∀ x ∈ buttons boot, x.cst ≤ 9 := by
  intro x hx
  simp only [buttons, boot, List.mem_cons, List.mem_singleton, List.not_mem_nil, or_false,
    or_self] at hx
  rw [hx]
  decide

/-! ## Claims on the debouncer -/

/-- C26 (evaluation at the failing input): from boot (button 1 released) the
pin of button 1 is read high on ten consecutive control ticks. After the tenth
read `stBtn` is still `stReleased` and the counter `cst` is 9: the first read
of the new state only resets the counter. `stBtn` becomes `stPressed` at the
eleventh consecutive read. -/
theorem debounce_needs_eleven_reads :
    boot.btnBtn1.stBtn = stReleased ∧
    (run boot (List.replicate 10 (Event.t5 Pins.btn1High))).btnBtn1.stBtn = stReleased ∧
    (run boot (List.replicate 10 (Event.t5 Pins.btn1High))).btnBtn1.cst = 9 ∧
    (run boot (List.replicate 11 (Event.t5 Pins.btn1High))).btnBtn1.stBtn = stPressed ∧
    (debounceRun btn.zero (List.replicate 10 true)).stBtn = stReleased ∧
    (debounceRun btn.zero (List.replicate 11 true)).stBtn = stPressed := by
  decide

/-- C30: debounce glitch rejection and counter bound. In every state reached
from boot the counter `cst` of each of the ten debounced inputs is in `[0, 9]`,
and from `cst ≤ 9` the increment does not leave the 8-bit range. A control tick
applies `debounce` to each input with the level read on its pin and the other
handlers leave the inputs alone; after `debounce` the value of `stBtn` is
either the previous one or the raw state read on that tick. When the last read
equals `stBtn`, a burst of `k ≤ 10` consecutive reads of the opposite raw state
leaves `stBtn` unchanged after each of them, and so does every number of
following reads equal to `stBtn`. -/
theorem debounce_glitch_rejection (es : List Event) (s : State) (p : Pins) (b : btn)
    (v w : Bool) (k : ℕ) :
    (∀ x ∈ buttons (run boot es), 0 ≤ x.cst ∧ x.cst ≤ 9) ∧
    (b.cst ≤ 9 → wrapByte (b.cst + 1) = b.cst + 1 ∧ (debounce b v).cst ≤ 9) ∧
    buttons (Timer5Handler s p) = List.zipWith debounce (buttons s) p.levels ∧
    (∀ fifo : List Nat, buttons (_IC2_IntHandler s fifo) = buttons s ∧
      buttons (_IC3_IntHandler s fifo) = buttons s ∧ buttons (Timer3Handler s) = buttons s) ∧
    ((debounce b v).stBtn = b.stBtn ∨ (debounce b v).stBtn = rawState v) ∧
    ((debounce b v).stCur = rawState v) ∧
    (b.stPrev = b.stBtn → rawState v ≠ b.stBtn → rawState w = b.stBtn → k ≤ 10 →
      (∀ j : ℕ, j ≤ k → (debounceRun b (List.replicate j v)).stBtn = b.stBtn) ∧
      (∀ m : ℕ, (debounceRun b (List.replicate k v ++ List.replicate m w)).stBtn = b.stBtn)) := by
  refine ⟨?_, ?_, rfl, fun _ => ⟨rfl, rfl, rfl⟩, debounce_stBtn b v, ?_, ?_⟩
  · intro x hx
    exact ⟨Nat.zero_le _, buttons_cst_run es boot buttons_cst_boot x hx⟩
  · intro h
    refine ⟨?_, debounce_cst b v h⟩
    unfold wrapByte
    omega
  · unfold debounce rawState
    simp only
    split_ifs <;> rfl
  · intro hp hv hw hk
    have hburst : ∀ j : ℕ, j ≤ k → (debounceRun b (List.replicate j v)).stBtn = b.stBtn := by
      intro j hj
      cases j with
      | zero => rfl
      | succ j => rw [debounceRun_burst b v hp hv j (by omega)]
    refine ⟨hburst, ?_⟩
    intro m
    rw [debounceRun_append]
    have hk1 := hburst k le_rfl
    rw [debounceRun_same w m _ (by rw [hk1]; exact hw), hk1]

/-- Witness of C30: a pressed button (state after eleven high reads from the
zero state, last read high) sees a burst of ten low reads followed by five
high reads; `stBtn` stays `stPressed`. -/
theorem debounce_glitch_rejection_witness :
    (debounceRun btn.zero (List.replicate 11 true)).stPrev
      = (debounceRun btn.zero (List.replicate 11 true)).stBtn ∧
    rawState false ≠ (debounceRun btn.zero (List.replicate 11 true)).stBtn ∧
    rawState true = (debounceRun btn.zero (List.replicate 11 true)).stBtn ∧
    (debounceRun (debounceRun btn.zero (List.replicate 11 true))
      (List.replicate 10 false ++ List.replicate 5 true)).stBtn
      = (debounceRun btn.zero (List.replicate 11 true)).stBtn := by
  have h1 : (debounceRun btn.zero (List.replicate 11 true)).stPrev
      = (debounceRun btn.zero (List.replicate 11 true)).stBtn := by decide
  have h2 : rawState false ≠ (debounceRun btn.zero (List.replicate 11 true)).stBtn := by
    decide
  have h3 : rawState true = (debounceRun btn.zero (List.replicate 11 true)).stBtn := by
    decide
  have h := (debounce_glitch_rejection [] boot Pins.low
    (debounceRun btn.zero (List.replicate 11 true)) false true 10).2.2.2.2.2.2
  have h4 := h h1
  have h5 := h4 h2
  have h6 := h5 h3
  have h7 := h6 (le_refl 10)
  exact ⟨h1, h2, h3, h7.2 5⟩

/-! ## Claim on the distance computation -/

/-- C27 (evaluation at the failing input): for the edge count 159 the main
loop computes the distance `(159/160) * wheelC = 0`, not `159 * (wheelC/160)`;
the quotient `counter/160` is an integer division, so the computed distance
advances by `wheelC` once per 160 edges and equals `n * (wheelC/160)` only when
160 divides `n`. -/
theorem distance_truncates :
    distance 159 = 0 ∧ distance 159 ≠ 159 * (wheelC / 160) ∧
    distance 1 = 0 ∧ distance 160 = wheelC ∧ distance 319 = wheelC ∧
    (∀ n : ℕ, distance (160 * n) = ((160 * n : ℕ) : ℚ) * (wheelC / 160)) := by
  refine ⟨?_, ?_, ?_, ?_, ?_, ?_⟩
  · norm_num [distance]
  · norm_num [distance, wheelC]
  · norm_num [distance]
  · norm_num [distance]
  · norm_num [distance]
  · intro n
    unfold distance
    rw [Nat.mul_div_cancel_left n (by norm_num : 0 < 160)]
    push_cast
    ring

end Controls
